import Mathlib

/-! MtA over correlated OT, server side (Bob): shallow embedding.

The definitions below are translated from the C++ sources under `server/src`
(`crypto/`, `protocol/`, `tcp/`).  Conventions:

* a `std::vector<uint8_t>`, or a `uint8_t` buffer reached through a pointer, is a
  `List Nat` (`Bytes`); `v[i]` is `v.getD i 0`; a pointer `&v[k]` is the suffix
  `v.drop k`;
* `uint8_t`, `uint32_t` and `uint64_t` values are `Nat`, truncated with an explicit
  `% 256`, `% 2^32`, `% 2^64` where the C++ type truncates;
* mutable objects are passed and returned explicitly;
* the libraries the code links against (trezor-crypto curve arithmetic and random
  generator, the nanopb codec) are parameters (`Curve`, `Rng`, `Codec`);
* storage that the code reads without having written it is the parameter `Undef`.
-/

set_option linter.unusedVariables false

namespace MTA

/-- Contents of a byte vector or byte buffer, one `Nat` per byte. -/
abbrev Bytes := List Nat

/-- Constant `CorrelatedOTProtocol::BIT_LENGTH` of `cot_protocol.h`. -/
def BIT_LENGTH : Nat := 32

/-- Constant `MODULUS = 0x100000000ULL` declared locally in `executeCOTMultiplication`
and in `executeBobMTA`. -/
def MODULUS : Nat := 0x100000000

/-- Range of `uint64_t`: arithmetic carried out in that type is reduced modulo this. -/
def U64 : Nat := 2 ^ 64

/-- Curve primitives of trezor-crypto for secp256k1, external to the repository:
`order` is `secp256k1.order`, `scalar_multiply k` the affine coordinates of `k * G`,
`point_multiply k P` those of `k * P`, and `ecdsa_read_pubkey` the decoder of an encoded
public key (`none` when it returns 0). -/
structure Curve where
  order : Nat
  scalar_multiply : Nat → Nat × Nat
  point_multiply : Nat → Nat × Nat → Nat × Nat
  ecdsa_read_pubkey : Bytes → Option (Nat × Nat)

/-- Process-wide random generator of trezor-crypto (`rand.h`): `word n` is what the
`n`-th call of `random32` returns and `buffer n j` is byte `j` of what the `n`-th call of
`random_buffer` writes; the two counters say how many calls have been made. -/
structure Rng where
  word : Nat → Nat
  buffer : Nat → Nat → Nat
  wordsDrawn : Nat
  buffersDrawn : Nat

/-- Storage read by the code before anything was written to it:
`shared_secret i j` is byte `j` of the local array `uint8_t shared_secret[32]` of
`processSingleCOT` when it is called for bit `i`; `beyond j` is the byte found at index
`j` past the end of a buffer that `deserializeAliceMessages` copies from. -/
structure Undef where
  shared_secret : Nat → Nat → Nat
  beyond : Nat → Nat

/-- Call `random32()` of trezor-crypto. -/
def random32 (rng : Rng) : Nat × Rng :=
  (rng.word rng.wordsDrawn % 2 ^ 32, { rng with wordsDrawn := rng.wordsDrawn + 1 })

/-- Call `random_buffer(buf, len)` of trezor-crypto. -/
def random_buffer (rng : Rng) (len : Nat) : Bytes × Rng :=
  ((List.range len).map (fun j => rng.buffer rng.buffersDrawn j % 256),
    { rng with buffersDrawn := rng.buffersDrawn + 1 })

/-- Big-endian read of 32 bytes, `bn_read_be` of trezor-crypto, as a number. -/
def bn_read_be (bytes : Bytes) : Nat :=
  (List.range 32).foldl (fun acc j => acc * 256 + bytes.getD j 0 % 256) 0

/-- Big-endian write of a number into 32 bytes, `bn_write_be` of trezor-crypto. -/
def bn_write_be (x : Nat) : Bytes :=
  (List.range 32).map (fun j => x / 256 ^ (31 - j) % 256)

/-- Store `data` into the vector `v` from index `off` on (writes through `&v[off]`). -/
def writeAt (v : Bytes) (off : Nat) (data : Bytes) : Bytes :=
  v.take off ++ data ++ v.drop (off + data.length)

/-! ## `crypto/random_generator.cpp` -/

/-- Method `SecureRandom::bytesToUint32`: the loop runs `i = 3, 2, 1, 0` on a
`uint32_t` accumulator. -/
def SecureRandom.bytesToUint32 (bytes : Bytes) : Nat :=
  [3, 2, 1, 0].foldl (fun value i => ((value <<< 8) % 2 ^ 32 ||| bytes.getD i 0) % 2 ^ 32) 0

/-- Method `SecureRandom::generateMultiplicativeShare`. -/
def SecureRandom.generateMultiplicativeShare (rng : Rng) : Nat × Rng :=
  random32 rng

/-- Method `SecureRandom::generateScalar`: the `do ... while (1)` loop draws candidates
until one is nonzero and below the group order; `fuel` bounds the number of draws and
`none` means the bound was reached. -/
def SecureRandom.generateScalar (c : Curve) : Nat → Rng → Option (Bytes × Rng)
  | 0, _ => none
  | fuel + 1, rng =>
    let drawn := random_buffer rng 32
    let bn_candidate := bn_read_be drawn.1
    if bn_candidate ≠ 0 ∧ bn_candidate < c.order then
      some ((List.range 32).map (fun i => drawn.1.getD i 0), drawn.2)
    else SecureRandom.generateScalar c fuel drawn.2

/-! ## `crypto/crypto_operations.cpp` -/

/-- Method `CryptoOperations::generatePointFromScalar`: returns `true` together with
the 65 bytes written to `point_out`. -/
def CryptoOperations.generatePointFromScalar (c : Curve) (scalar : Bytes) : Bool × Bytes :=
  let point := c.scalar_multiply (bn_read_be scalar)
  (true, [0x04] ++ bn_write_be point.1 ++ bn_write_be point.2)

/-- Method `CryptoOperations::generateECDHKeyPair`: the returned flag, the scalar
written to `private_key`, the point written to `public_point`, the generator after the
call. -/
def CryptoOperations.generateECDHKeyPair (c : Curve) (fuel : Nat) (rng : Rng) :
    Option (Bool × Bytes × Bytes × Rng) :=
  match SecureRandom.generateScalar c fuel rng with
  | none => none
  | some (private_key, rng1) =>
    let r := CryptoOperations.generatePointFromScalar c private_key
    some (r.1, private_key, r.2, rng1)

/-- Method `CryptoOperations::performECDH`: `none` is the `false` return, `some` carries
the 32 bytes written to `shared_secret`. -/
def CryptoOperations.performECDH (c : Curve) (private_scalar public_point : Bytes) :
    Option Bytes :=
  match c.ecdsa_read_pubkey public_point with
  | none => none
  | some point =>
    let result := c.point_multiply (bn_read_be private_scalar) point
    some (bn_write_be result.1)

/-- Method `CryptoOperations::xorEncryptDecrypt`: the `length` bytes written to `output`. -/
def CryptoOperations.xorEncryptDecrypt (data key : Bytes) (length : Nat) : Bytes :=
  (List.range length).map (fun i => (data.getD i 0 ^^^ key.getD (i % 32) 0) % 256)

/-- Method `CryptoOperations::bytesToUint32`. -/
def CryptoOperations.bytesToUint32 (bytes : Bytes) : Nat :=
  SecureRandom.bytesToUint32 bytes

/-- Method `CryptoOperations::generateRandomUint32`. -/
def CryptoOperations.generateRandomUint32 (rng : Rng) : Nat × Rng :=
  SecureRandom.generateMultiplicativeShare rng

/-! ## `protocol/ot_protocol.cpp` -/

/-- Class `ObliviousTransferProtocol`: its only data member. -/
structure ObliviousTransferProtocol where
  stored_b_scalar : Bytes
deriving DecidableEq

/-- Constructor `ObliviousTransferProtocol::ObliviousTransferProtocol`, which draws a
scalar. -/
def ObliviousTransferProtocol.new (c : Curve) (fuel : Nat) (rng : Rng) :
    Option (ObliviousTransferProtocol × Rng) :=
  match SecureRandom.generateScalar c fuel rng with
  | none => none
  | some (b, rng1) => some ({ stored_b_scalar := b }, rng1)

/-! ## `protocol/cot_protocol.cpp` -/

/-- Data members of class `CorrelatedOTProtocol` (`crypto_ops` has no state of its own). -/
structure CorrelatedOTProtocol where
  ot_instances : List ObliviousTransferProtocol
  stored_scalars : Bytes
  correlation_x : Nat
deriving DecidableEq

/-- Struct `CorrelatedOTProtocol::COTResult`. -/
structure COTResult where
  additive_share_V : Nat
  success : Bool
deriving DecidableEq

/-- Struct `CorrelatedOTProtocol::COTSetup`. -/
structure COTSetup where
  points_B : Bytes
  correlation_x : Nat
  success : Bool
deriving DecidableEq

/-- Constructor `CorrelatedOTProtocol::CorrelatedOTProtocol`. -/
def CorrelatedOTProtocol.new : CorrelatedOTProtocol :=
  { ot_instances := [], stored_scalars := List.replicate (BIT_LENGTH * 32) 0, correlation_x := 0 }

/-- Method `CorrelatedOTProtocol::getBit`. -/
def CorrelatedOTProtocol.getBit (value bit_position : Nat) : Bool :=
  (value >>> bit_position) &&& 1 != 0

/-- Method `CorrelatedOTProtocol::generatePointB`; `out` is the vector that
`point_B_out` points into and `off` the offset it points at.  Returns the flag, the
vector after the call, the object and the generator after the call. -/
def CorrelatedOTProtocol.generatePointB (c : Curve) (fuel : Nat) (self : CorrelatedOTProtocol)
    (rng : Rng) (index : Nat) (out : Bytes) (off : Nat) :
    Option (Bool × Bytes × CorrelatedOTProtocol × Rng) :=
  if index ≥ BIT_LENGTH then some (false, out, self, rng)
  else
    match CryptoOperations.generateECDHKeyPair c fuel rng with
    | none => none
    | some (ok, private_key, public_point, rng1) =>
      some (ok, writeAt out off public_point,
        { self with stored_scalars := writeAt self.stored_scalars (index * 32) private_key },
        rng1)

/-- Loop `for (int i = 0; i < BIT_LENGTH; i++)` of `initializeCOT`, with `n` iterations
left and loop variable `i`. -/
def CorrelatedOTProtocol.initializeCOT_loop (c : Curve) (fuel : Nat) :
    Nat → Nat → CorrelatedOTProtocol → Rng → COTSetup →
      Option (COTSetup × CorrelatedOTProtocol × Rng)
  | 0, _, self, rng, setup => some ({ setup with success := true }, self, rng)
  | n + 1, i, self, rng, setup =>
    match ObliviousTransferProtocol.new c fuel rng with
    | none => none
    | some (ot, rng1) =>
      let self1 := { self with ot_instances := self.ot_instances ++ [ot] }
      match CorrelatedOTProtocol.generatePointB c fuel self1 rng1 i setup.points_B (i * 65) with
      | none => none
      | some (ok, pts, self2, rng2) =>
        if ok then
          CorrelatedOTProtocol.initializeCOT_loop c fuel n (i + 1) self2 rng2
            { setup with points_B := pts }
        else some ({ setup with points_B := pts }, self2, rng2)

/-- Method `CorrelatedOTProtocol::initializeCOT`; `none` when a scalar draw exceeded
`fuel` attempts. -/
def CorrelatedOTProtocol.initializeCOT (c : Curve) (fuel : Nat) (self : CorrelatedOTProtocol)
    (rng : Rng) (alice_x : Nat) : Option (COTSetup × CorrelatedOTProtocol × Rng) :=
  let setup : COTSetup :=
    { points_B := List.replicate (BIT_LENGTH * 65) 0, correlation_x := alice_x, success := false }
  let self1 := { self with correlation_x := alice_x, ot_instances := [] }
  CorrelatedOTProtocol.initializeCOT_loop c fuel BIT_LENGTH 0 self1 rng setup

/-- Method `CorrelatedOTProtocol::processSingleCOT`: `none` is the `false` return,
`some v` the `true` return with `received_value = v`.  The argument `shared_secret` is
the content of the local array of that name, which the method never writes. -/
def CorrelatedOTProtocol.processSingleCOT (self : CorrelatedOTProtocol) (shared_secret : Bytes)
    (bit_index : Nat) (choice_bit : Bool) (point_A encrypted_m0 encrypted_m1 : Bytes)
    (message_length : Nat) : Option Nat :=
  if bit_index ≥ BIT_LENGTH then none
  else
    let b_scalar := self.stored_scalars.drop (bit_index * 32)
    let encrypted_message := if choice_bit then encrypted_m1 else encrypted_m0
    let decrypted_message :=
      CryptoOperations.xorEncryptDecrypt encrypted_message shared_secret message_length
    some (CryptoOperations.bytesToUint32 decrypted_message)

/-- The 32 bytes found in `shared_secret` when `processSingleCOT` runs for bit `i`. -/
def Undef.secretOf (u : Undef) (i : Nat) : Bytes :=
  (List.range 32).map (fun j => u.shared_secret i j % 256)

/-- Loop `for (int i = 0; i < BIT_LENGTH; i++)` of `executeCOTMultiplication`, with `n`
iterations left, loop variable `i` and accumulator `accumulated_V`.  The second
component counts the calls of `processSingleCOT` made. -/
def CorrelatedOTProtocol.executeCOTMultiplication_loop (self : CorrelatedOTProtocol) (u : Undef)
    (y : Nat) (points_A encrypted_m0_messages encrypted_m1_messages : Bytes) :
    Nat → Nat → Nat → Nat → COTResult × Nat
  | 0, _, accumulated_V, calls => ({ additive_share_V := accumulated_V, success := true }, calls)
  | n + 1, i, accumulated_V, calls =>
    let y_bit := CorrelatedOTProtocol.getBit y i
    let point_A := points_A.drop (i * 65)
    let encrypted_m0 := encrypted_m0_messages.drop (i * 32)
    let encrypted_m1 := encrypted_m1_messages.drop (i * 32)
    match self.processSingleCOT (u.secretOf i) i y_bit point_A encrypted_m0 encrypted_m1 32 with
    | none => ({ additive_share_V := 0, success := false }, calls + 1)
    | some mc_i =>
      self.executeCOTMultiplication_loop u y points_A encrypted_m0_messages
        encrypted_m1_messages n (i + 1)
        ((accumulated_V + (mc_i * (1 <<< i) % U64) % MODULUS) % U64 % MODULUS % 2 ^ 32)
        (calls + 1)

/-- Method `CorrelatedOTProtocol::executeCOTMultiplication`, returning also the number
of `processSingleCOT` calls it made. -/
def CorrelatedOTProtocol.executeCOTMultiplication_run (self : CorrelatedOTProtocol) (u : Undef)
    (y : Nat) (points_A encrypted_m0_messages encrypted_m1_messages : Bytes) : COTResult × Nat :=
  if points_A.length ≠ BIT_LENGTH * 65 ∨
      encrypted_m0_messages.length ≠ BIT_LENGTH * 32 ∨
      encrypted_m1_messages.length ≠ BIT_LENGTH * 32 ∨
      self.ot_instances.length ≠ BIT_LENGTH then
    ({ additive_share_V := 0, success := false }, 0)
  else
    self.executeCOTMultiplication_loop u y points_A encrypted_m0_messages
      encrypted_m1_messages BIT_LENGTH 0 0 0

/-- Method `CorrelatedOTProtocol::executeCOTMultiplication`. -/
def CorrelatedOTProtocol.executeCOTMultiplication (self : CorrelatedOTProtocol) (u : Undef)
    (y : Nat) (points_A encrypted_m0_messages encrypted_m1_messages : Bytes) : COTResult :=
  (self.executeCOTMultiplication_run u y points_A encrypted_m0_messages
    encrypted_m1_messages).1

/-! ## `protocol/mta_protocol.cpp` -/

/-- Data members of class `MTAProtocol`: the COT engine it owns and the mask `beta`. -/
structure MTAProtocol where
  cot_protocol : CorrelatedOTProtocol
  beta : Nat
deriving DecidableEq

/-- Struct `MTAProtocol::MTAResult` (its `error_message` string, which no code writes,
is left out). -/
structure MTAResult where
  additive_share : Nat
  success : Bool
deriving DecidableEq

/-- Struct `MTAProtocol::BobSetup`. -/
structure BobSetup where
  points_B : Bytes
  correlation_delta : Nat
  success : Bool
  num_ot_instances : Nat
  public_key : Bytes
deriving DecidableEq

/-- Struct `MTAProtocol::AliceMessages`. -/
structure AliceMessages where
  points_A : Bytes
  encrypted_m0_messages : Bytes
  encrypted_m1_messages : Bytes
  masked_share : Nat
  success : Bool
deriving DecidableEq

/-- Struct `MTAProtocol::BobMessages`. -/
structure BobMessages where
  masked_share : Nat
  success : Bool
  ot_responses : Bytes
  encrypted_result : Bytes
  correlation_check : Nat
deriving DecidableEq

/-- Constructor `MTAProtocol::MTAProtocol`. -/
def MTAProtocol.new : MTAProtocol :=
  { cot_protocol := CorrelatedOTProtocol.new, beta := 0 }

/-- Constructor `MTAResult()`. -/
def MTAResult.new : MTAResult := { additive_share := 0, success := false }

/-- Constructor `BobSetup()`; it leaves `num_ot_instances` unwritten, so the value
found there is an argument. -/
def BobSetup.new (num_ot_instances : Nat) : BobSetup :=
  { points_B := [], correlation_delta := 0, success := false,
    num_ot_instances := num_ot_instances, public_key := [] }

/-- Constructor `AliceMessages()`. -/
def AliceMessages.new : AliceMessages :=
  { points_A := [], encrypted_m0_messages := [], encrypted_m1_messages := [],
    masked_share := 0, success := false }

/-- Constructor `BobMessages()`. -/
def BobMessages.new : BobMessages :=
  { masked_share := 0, success := false, ot_responses := [], encrypted_result := [],
    correlation_check := 0 }

/-- Method `MTAProtocol::validateMTAInputs`. -/
def MTAProtocol.validateMTAInputs (share1 share2 : Nat) : Bool := true

/-- Method `MTAProtocol::initializeAsBob`; `none` when a scalar draw exceeded `fuel`
attempts. -/
def MTAProtocol.initializeAsBob (c : Curve) (fuel : Nat) (self : MTAProtocol) (rng : Rng)
    (correlation_delta : Nat) : Option (BobSetup × MTAProtocol × Rng) :=
  let setup : BobSetup :=
    { points_B := [], correlation_delta := correlation_delta, success := true,
      num_ot_instances := 32, public_key := [] }
  match self.cot_protocol.initializeCOT c fuel rng correlation_delta with
  | none => none
  | some (cot_setup, cot, rng1) =>
    let self1 := { self with cot_protocol := cot }
    if !cot_setup.success then some (setup, self1, rng1)
    else
      some ({ setup with points_B := cot_setup.points_B, correlation_delta := correlation_delta,
                         success := true }, self1, rng1)

/-- Method `MTAProtocol::prepareBobMessages`: the returned messages, the object (with
the new `beta`) and the generator after the call. -/
def MTAProtocol.prepareBobMessages (self : MTAProtocol) (rng : Rng) (y_share : Nat) :
    BobMessages × MTAProtocol × Rng :=
  let messages := { BobMessages.new with success := false }
  if !MTAProtocol.validateMTAInputs y_share 0 then (messages, self, rng)
  else
    let drawn := CryptoOperations.generateRandomUint32 rng
    let self1 := { self with beta := drawn.1 }
    ({ messages with masked_share := y_share * self1.beta % 2 ^ 32, success := true },
      self1, drawn.2)

/-- Method `MTAProtocol::executeBobMTA`. -/
def MTAProtocol.executeBobMTA (self : MTAProtocol) (u : Undef) (y_share : Nat)
    (alice_messages : AliceMessages) : MTAResult :=
  let result := { MTAResult.new with success := false }
  if !alice_messages.success then result
  else if !MTAProtocol.validateMTAInputs y_share alice_messages.masked_share then result
  else
    let cot_result := self.cot_protocol.executeCOTMultiplication u y_share
      alice_messages.points_A alice_messages.encrypted_m0_messages
      alice_messages.encrypted_m1_messages
    if !cot_result.success then result
    else
      let product := self.beta * alice_messages.masked_share % U64
      let additive := (product + cot_result.additive_share_V) % U64 % MODULUS
      { result with additive_share := additive % 2 ^ 32, success := true }

/-- Loop of `MTAProtocol::splitIntoByteVectors` with loop variable `i`; `none` when the
loop is still running after `fuel` iterations. -/
def MTAProtocol.splitIntoByteVectors_loop (flat : Bytes) (chunk_size : Nat) :
    Nat → Nat → List Bytes → Option (List Bytes)
  | 0, i, result => if i < flat.length then none else some result
  | fuel + 1, i, result =>
    if i < flat.length then
      MTAProtocol.splitIntoByteVectors_loop flat chunk_size fuel (i + chunk_size)
        (result ++ [(flat.take (min (i + chunk_size) flat.length)).drop i])
    else some result

/-- Method `MTAProtocol::splitIntoByteVectors`, run for at most `fuel` iterations. -/
def MTAProtocol.splitIntoByteVectors (fuel : Nat) (flat : Bytes) (chunk_size : Nat) :
    Option (List Bytes) :=
  MTAProtocol.splitIntoByteVectors_loop flat chunk_size fuel 0 []

/-- Method `MTAProtocol::serializeAliceMessages`. -/
def MTAProtocol.serializeAliceMessages (messages : AliceMessages) : Bytes :=
  let masked := messages.masked_share
  [if messages.success then 1 else 0, masked &&& 0xFF, (masked >>> 8) &&& 0xFF,
      (masked >>> 16) &&& 0xFF, (masked >>> 24) &&& 0xFF]
    ++ messages.points_A ++ messages.encrypted_m0_messages ++ messages.encrypted_m1_messages

/-- Byte `j` as `std::copy` reads it from `buffer`: the element when `j` is in range,
otherwise whatever lies past the end of the vector. -/
def readAt (u : Undef) (buffer : Bytes) (j : Nat) : Nat :=
  if j < buffer.length then buffer.getD j 0 else u.beyond j % 256

/-- Method `MTAProtocol::deserializeAliceMessages`: the returned flag and `messages`
after the call. -/
def MTAProtocol.deserializeAliceMessages (u : Undef) (buffer : Bytes)
    (messages : AliceMessages) : Bool × AliceMessages :=
  if buffer.length < 5 then (false, messages)
  else
    let success0 := buffer.getD 0 0 == 1
    let masked_share :=
      (buffer.getD 1 0 ||| buffer.getD 2 0 <<< 8 ||| buffer.getD 3 0 <<< 16 |||
        buffer.getD 4 0 <<< 24) % 2 ^ 32
    let points_size := 32 * 65
    let messages_size := 32 * 32
    let points_A := (List.range points_size).map (fun k => readAt u buffer (5 + k))
    let m0 := (List.range messages_size).map (fun k => readAt u buffer (5 + points_size + k))
    let m1 := (List.range messages_size).map
      (fun k => readAt u buffer (5 + points_size + messages_size + k))
    (true, { points_A := points_A, encrypted_m0_messages := m0, encrypted_m1_messages := m1,
             masked_share := masked_share, success := true })

/-! ## `protobuf/protobuf_handler.cpp` -/

/-- Record `mta_BobSetup` of the generated `mta.pb.h`, with the repeated field held
through its encode callback shown as the list it encodes. -/
structure mta_BobSetup where
  success : Bool
  ot_messages : List Bytes
  public_key : Bytes
  num_ot_instances : Nat
deriving DecidableEq

/-- Record `mta_BobMessages` of the generated `mta.pb.h`, with the repeated field held
through its encode callback shown as the list it encodes. -/
structure mta_BobMessages where
  success : Bool
  ot_responses : List Bytes
  encrypted_result : Bytes
  correlation_check : Nat
  masked_share : Nat
deriving DecidableEq

/-- The nanopb codec and the generated message descriptors, external to the sources:
`pb_decode` on `mta_CorrelationDelta`, `pb_encode` on `mta_BobSetup` and on
`mta_BobMessages` (`none` when the call returns `false`), and the capacity of the
`encrypted_result` array of `mta_BobMessages`. -/
structure Codec where
  decodeCorrelationDelta : Bytes → Option Nat
  encodeBobSetup : mta_BobSetup → Option Bytes
  encodeBobMessages : mta_BobMessages → Option Bytes
  encrypted_result_capacity : Nat

/-- Method `MTAProtobufHandler::createBobMessages`. -/
def MTAProtobufHandler.createBobMessages (codec : Codec) (success : Bool)
    (ot_responses : List Bytes) (encrypted_result : Bytes)
    (correlation_check masked_share : Nat) : mta_BobMessages :=
  { success := success,
    correlation_check := correlation_check,
    masked_share := masked_share,
    ot_responses := ot_responses,
    encrypted_result :=
      if encrypted_result.length > codec.encrypted_result_capacity then [] else encrypted_result }

/-- Method `MTAProtobufHandler::serializeBobMessages`: encodes into a 4096-byte buffer;
the empty vector when encoding fails. -/
def MTAProtobufHandler.serializeBobMessages (codec : Codec) (messages : mta_BobMessages) :
    Bytes :=
  match codec.encodeBobMessages messages with
  | none => []
  | some b => if b.length ≤ 4096 then b else []

/-- The record that `MTAProtocol::serializeBobMessages` builds and hands to the encoder.
The split of `ot_responses` uses chunk size 32, for which `length + 1` iterations
always suffice (`splitIntoByteVectors_isSome`). -/
def MTAProtocol.bobMessagesRecord (codec : Codec) (messages : BobMessages) : mta_BobMessages :=
  let ot_responses :=
    (MTAProtocol.splitIntoByteVectors (messages.ot_responses.length + 1)
      messages.ot_responses 32).getD []
  MTAProtobufHandler.createBobMessages codec messages.success ot_responses
    messages.encrypted_result messages.correlation_check messages.masked_share

/-- Method `MTAProtocol::serializeBobMessages`. -/
def MTAProtocol.serializeBobMessages (codec : Codec) (messages : BobMessages) : Bytes :=
  MTAProtobufHandler.serializeBobMessages codec (MTAProtocol.bobMessagesRecord codec messages)

/-! ## `tcp/mta_server.cpp` -/

/-- Enumeration `MTAServer::Session::ProtocolState`. -/
inductive ProtocolState where
  | WAITING_FOR_CORRELATION_DELTA
  | SENDING_BOB_SETUP
  | WAITING_FOR_ALICE_MESSAGES
  | SENDING_BOB_MESSAGES
  | PROTOCOL_COMPLETE
deriving DecidableEq

/-- Data members of `MTAServer::Session` other than the socket and the references to
the `MTAProtocol` and `MTAProtobufHandler` objects of the server, which are passed
separately. -/
structure Session where
  state_ : ProtocolState
  bob_y_share_ : Nat
  bob_additive_share_ : Nat
  correlation_delta_ : Nat
  bob_correlation_check_ : Nat
  bob_setup_ : BobSetup
  bob_messages_ : BobMessages
  read_buffer_ : Bytes
  write_buffer_ : Bytes
  last_message_size_ : Nat
deriving DecidableEq

/-- Constructor `MTAServer::Session::Session`; it leaves `last_message_size_` and
`bob_setup_.num_ot_instances` unwritten, so the values found there are arguments. -/
def Session.new (y_share last_message_size num_ot_instances : Nat) : Session :=
  { state_ := ProtocolState.WAITING_FOR_CORRELATION_DELTA,
    bob_y_share_ := y_share,
    bob_additive_share_ := 0,
    correlation_delta_ := 0,
    bob_correlation_check_ := 0,
    bob_setup_ := BobSetup.new num_ot_instances,
    bob_messages_ := BobMessages.new,
    read_buffer_ := List.replicate 8192 0,
    write_buffer_ := [],
    last_message_size_ := last_message_size }

/-- What one handler run leaves behind: the session, the shared protocol object, the
generator, and the buffer handed to `async_write` if a write was started. -/
structure Outcome where
  session : Session
  mta : MTAProtocol
  rng : Rng
  written : Option Bytes

/-- Method `MTAServer::Session::send_message_with_size` up to the start of the
asynchronous write: the session with its `write_buffer_` filled, and that buffer. -/
def Session.send_message_with_size (s : Session) (message : Bytes) : Session × Bytes :=
  let size := message.length % 2 ^ 32
  let write_buffer :=
    [size &&& 0xFF, (size >>> 8) &&& 0xFF, (size >>> 16) &&& 0xFF, (size >>> 24) &&& 0xFF]
      ++ message
  ({ s with write_buffer_ := write_buffer }, write_buffer)

/-- Method `MTAServer::Session::send_bob_messages`. -/
def Session.send_bob_messages (codec : Codec) (s : Session) : Session × Option Bytes :=
  if !s.bob_messages_.success then (s, none)
  else
    let serialized_messages := MTAProtocol.serializeBobMessages codec s.bob_messages_
    if serialized_messages.isEmpty then (s, none)
    else
      let r := s.send_message_with_size serialized_messages
      (r.1, some r.2)

/-- Method `MTAServer::Session::process_alice_messages`. -/
def Session.process_alice_messages (codec : Codec) (u : Undef) (s : Session)
    (mta : MTAProtocol) (rng : Rng) (data : Bytes) : Outcome :=
  let d := MTAProtocol.deserializeAliceMessages u data AliceMessages.new
  if !d.1 then { session := s, mta := mta, rng := rng, written := none }
  else
    let alice_messages := d.2
    let p := mta.prepareBobMessages rng s.bob_y_share_
    let s1 := { s with bob_messages_ := p.1 }
    let mta1 := p.2.1
    let rng1 := p.2.2
    if !s1.bob_messages_.success then
      { session := s1, mta := mta1, rng := rng1, written := none }
    else
      let mta_result := mta1.executeBobMTA u s1.bob_y_share_ alice_messages
      if !mta_result.success then
        { session := s1, mta := mta1, rng := rng1, written := none }
      else
        let s2 := { s1 with bob_additive_share_ := mta_result.additive_share }
        let s3 := { s2 with
          bob_correlation_check_ :=
            ((s2.bob_y_share_ + s2.bob_additive_share_) % 2 ^ 32) ^^^ s2.correlation_delta_ }
        let s4 := { s3 with state_ := ProtocolState.SENDING_BOB_MESSAGES }
        let r := Session.send_bob_messages codec s4
        { session := r.1, mta := mta1, rng := rng1, written := r.2 }

/-- Method `MTAProtocol::executeBobMTA`, returning also the number of
`executeCOTMultiplication` calls it made. -/
def MTAProtocol.executeBobMTA_run (self : MTAProtocol) (u : Undef) (y_share : Nat)
    (alice_messages : AliceMessages) : MTAResult × Nat :=
  let result := { MTAResult.new with success := false }
  if !alice_messages.success then (result, 0)
  else if !MTAProtocol.validateMTAInputs y_share alice_messages.masked_share then (result, 0)
  else
    let cot_result := self.cot_protocol.executeCOTMultiplication u y_share
      alice_messages.points_A alice_messages.encrypted_m0_messages
      alice_messages.encrypted_m1_messages
    if !cot_result.success then (result, 1)
    else
      let product := self.beta * alice_messages.masked_share % U64
      let additive := (product + cot_result.additive_share_V) % U64 % MODULUS
      ({ result with additive_share := additive % 2 ^ 32, success := true }, 1)

/-- Method `MTAProtobufHandler::serializeBobSetup`: encodes into a 4096-byte buffer; the
empty vector when encoding fails. -/
def MTAProtobufHandler.serializeBobSetup (codec : Codec) (setup : mta_BobSetup) : Bytes :=
  match codec.encodeBobSetup setup with
  | none => []
  | some b => if b.length ≤ 4096 then b else []

/-- The record that `MTAServer::Session::send_bob_setup` builds and hands to the
encoder.  The split of `points_B` uses chunk size 65, for which `length + 1` iterations
always suffice (`splitIntoByteVectors_isSome`). -/
def Session.bobSetupRecord (s : Session) : mta_BobSetup :=
  let temp_ot_messages :=
    (MTAProtocol.splitIntoByteVectors (s.bob_setup_.points_B.length + 1)
      s.bob_setup_.points_B 65).getD []
  { success := s.bob_setup_.success,
    num_ot_instances := s.bob_setup_.num_ot_instances,
    ot_messages := temp_ot_messages,
    public_key :=
      if !s.bob_setup_.public_key.isEmpty then
        s.bob_setup_.public_key.take (min 256 s.bob_setup_.public_key.length)
      else [] }

/-- Method `MTAServer::Session::send_bob_setup`. -/
def Session.send_bob_setup (codec : Codec) (s : Session) : Session × Option Bytes :=
  let serialized_setup := MTAProtobufHandler.serializeBobSetup codec s.bobSetupRecord
  if serialized_setup.isEmpty then (s, none)
  else
    let s1 := { s with state_ := ProtocolState.SENDING_BOB_SETUP }
    let r := s1.send_message_with_size serialized_setup
    (r.1, some r.2)

/-- Method `MTAServer::Session::process_correlation_delta`; `none` when a scalar draw of
`initializeAsBob` exceeded `fuel` attempts. -/
def Session.process_correlation_delta (c : Curve) (codec : Codec) (fuel : Nat) (s : Session)
    (mta : MTAProtocol) (rng : Rng) (data : Bytes) : Option Outcome :=
  match codec.decodeCorrelationDelta data with
  | none => some { session := s, mta := mta, rng := rng, written := none }
  | some correlation_delta =>
    let s1 := { s with correlation_delta_ := correlation_delta % 2 ^ 32 }
    match mta.initializeAsBob c fuel rng (correlation_delta % 2 ^ 32) with
    | none => none
    | some (setup, mta1, rng1) =>
      let s2 := { s1 with bob_setup_ := setup }
      if !s2.bob_setup_.success then
        some { session := s2, mta := mta1, rng := rng1, written := none }
      else
        let s3 := { s2 with
          bob_setup_ := { s2.bob_setup_ with
            public_key := (List.range 65).map (fun i => i % 256) } }
        let s4 := { s3 with state_ := ProtocolState.SENDING_BOB_SETUP }
        let r := Session.send_bob_setup codec s4
        some { session := r.1, mta := mta1, rng := rng1, written := r.2 }

/-- Method `MTAServer::Session::process_received_message`; the message handed to the
processors is `read_buffer_[0 .. last_message_size_)`. -/
def Session.process_received_message (c : Curve) (codec : Codec) (fuel : Nat) (u : Undef)
    (s : Session) (mta : MTAProtocol) (rng : Rng) : Option Outcome :=
  match s.state_ with
  | ProtocolState.WAITING_FOR_CORRELATION_DELTA =>
    Session.process_correlation_delta c codec fuel s mta rng
      (s.read_buffer_.take s.last_message_size_)
  | ProtocolState.WAITING_FOR_ALICE_MESSAGES =>
    some (Session.process_alice_messages codec u s mta rng
      (s.read_buffer_.take s.last_message_size_))
  | _ => some { session := s, mta := mta, rng := rng, written := none }

/-- Bytes that an `async_read` into `boost::asio::buffer(read_buffer_, n)` stores: at most
`n` bytes and at most the size of the vector, taken from what the peer delivered. -/
def Session.transferred (s : Session) (n : Nat) (data : Bytes) : Bytes :=
  data.take (min n s.read_buffer_.length)

/-- First completion handler of `MTAServer::Session::read_message_with_size` (the 4-byte
size prefix has been read, with error flag `ec` and delivered bytes `data`): the session
after the handler and, when it starts the read of the body, the size it asks for. -/
def Session.on_size_read (s : Session) (ec : Bool) (data : Bytes) : Session × Option Nat :=
  let got := s.transferred 4 data
  let s1 := { s with read_buffer_ := writeAt s.read_buffer_ 0 got }
  if !ec && got.length == 4 then
    let message_size :=
      (s1.read_buffer_.getD 0 0 ||| s1.read_buffer_.getD 1 0 <<< 8 |||
        s1.read_buffer_.getD 2 0 <<< 16 ||| s1.read_buffer_.getD 3 0 <<< 24) % 2 ^ 32
    let s2 := { s1 with last_message_size_ := message_size }
    let s3 :=
      if message_size > s2.read_buffer_.length then
        { s2 with read_buffer_ :=
            s2.read_buffer_ ++ List.replicate (message_size - s2.read_buffer_.length) 0 }
      else s2
    (s3, some message_size)
  else (s1, none)

/-- Second completion handler of `MTAServer::Session::read_message_with_size` (the read
of `message_size` body bytes has completed): the session with the bytes stored, and
whether `process_received_message` is called. -/
def Session.on_body_read (s : Session) (message_size : Nat) (ec2 : Bool) (data : Bytes) :
    Session × Bool :=
  let got := s.transferred message_size data
  let s1 := { s with read_buffer_ := writeAt s.read_buffer_ 0 got }
  (s1, !ec2 && got.length == message_size)

/-- Completion handler of the `async_write` in
`MTAServer::Session::send_message_with_size`: the session after the handler and whether
it calls `read_message_with_size`. -/
def Session.on_write_done (s : Session) (ec : Bool) : Session × Bool :=
  if !ec then
    if s.state_ = ProtocolState.SENDING_BOB_SETUP then
      ({ s with state_ := ProtocolState.WAITING_FOR_ALICE_MESSAGES }, true)
    else if s.state_ = ProtocolState.SENDING_BOB_MESSAGES then
      ({ s with state_ := ProtocolState.PROTOCOL_COMPLETE }, false)
    else (s, false)
  else (s, false)

/-- Asynchronous operation that a session has outstanding; `idle` means no handler is
registered any more, so nothing further runs for the session. -/
inductive Pending where
  | idle
  | read_size
  | read_body (message_size : Nat)
  | write
deriving DecidableEq

/-- One connection: the session, the protocol object and generator it works on, and
its outstanding operation. -/
structure Conn where
  session : Session
  mta : MTAProtocol
  rng : Rng
  pending : Pending

/-- Completion of an asynchronous operation, as delivered by the socket: the error flag
and, for reads, the bytes the peer delivered. -/
inductive Event where
  | size_read (ec : Bool) (data : Bytes)
  | body_read (ec : Bool) (data : Bytes)
  | write_done (ec : Bool)

/-- Observable milestones of a session, recorded by `Conn.step`. -/
inductive Action where
  | delta_decoded
  | bob_setup_sent
  | bob_setup_written
  | alice_processing
  | alice_accepted
  | bob_messages_sent
  | protocol_complete
deriving DecidableEq

/-- Method `MTAServer::Session::start`: the first `read_message_with_size`. -/
def Conn.start (s : Session) (mta : MTAProtocol) (rng : Rng) : Conn :=
  { session := s, mta := mta, rng := rng, pending := Pending.read_size }

/-- Milestones of one run of `process_received_message` from session `s` on its
received message, with outcome `o`. -/
def Session.milestones (codec : Codec) (s : Session) (o : Outcome) : List Action :=
  match s.state_ with
  | ProtocolState.WAITING_FOR_CORRELATION_DELTA =>
    (if (codec.decodeCorrelationDelta (s.read_buffer_.take s.last_message_size_)).isSome
      then [Action.delta_decoded] else []) ++
    (if o.written.isSome then [Action.bob_setup_sent] else [])
  | ProtocolState.WAITING_FOR_ALICE_MESSAGES =>
    [Action.alice_processing] ++
    (if o.session.state_ = ProtocolState.SENDING_BOB_MESSAGES
      then [Action.alice_accepted] else []) ++
    (if o.written.isSome then [Action.bob_messages_sent] else [])
  | _ => []

/-- One step of a connection: the completion `e` of the outstanding operation runs
its handler.  `none` when `e` is not the completion of the outstanding operation (or a
scalar draw exceeded `fuel` attempts). -/
def Conn.step (c : Curve) (codec : Codec) (fuel : Nat) (u : Undef) (w : Conn) :
    Event → Option (Conn × List Action)
  | Event.size_read ec data =>
    match w.pending with
    | Pending.read_size =>
      let r := w.session.on_size_read ec data
      some ({ w with session := r.1,
                     pending := match r.2 with
                       | some n => Pending.read_body n
                       | none => Pending.idle }, [])
    | _ => none
  | Event.body_read ec2 data =>
    match w.pending with
    | Pending.read_body message_size =>
      let r := w.session.on_body_read message_size ec2 data
      if r.2 then
        match Session.process_received_message c codec fuel u r.1 w.mta w.rng with
        | none => none
        | some o =>
          some ({ session := o.session, mta := o.mta, rng := o.rng,
                  pending := if o.written.isSome then Pending.write else Pending.idle },
                Session.milestones codec r.1 o)
      else some ({ w with session := r.1, pending := Pending.idle }, [])
    | _ => none
  | Event.write_done ec =>
    match w.pending with
    | Pending.write =>
      let r := w.session.on_write_done ec
      some ({ w with session := r.1,
                     pending := if r.2 then Pending.read_size else Pending.idle },
            if ec then []
            else if w.session.state_ = ProtocolState.SENDING_BOB_SETUP then
              [Action.bob_setup_written]
            else if w.session.state_ = ProtocolState.SENDING_BOB_MESSAGES then
              [Action.protocol_complete]
            else [])
    | _ => none

/-- Run of a connection over a sequence of completions, collecting the milestones. -/
def Conn.run (c : Curve) (codec : Codec) (fuel : Nat) (u : Undef) :
    Conn → List Event → Option (Conn × List Action)
  | w, [] => some (w, [])
  | w, e :: es =>
    match Conn.step c codec fuel u w e with
    | none => none
    | some (w1, a1) =>
      match Conn.run c codec fuel u w1 es with
      | none => none
      | some (w2, a2) => some (w2, a1 ++ a2)

/-- Order in which a session passes its milestones when nothing fails. -/
def Action.canonical : List Action :=
  [Action.delta_decoded, Action.bob_setup_sent, Action.bob_setup_written,
    Action.alice_processing, Action.alice_accepted, Action.bob_messages_sent,
    Action.protocol_complete]

/-- In the trace `tr`, every occurrence of `b` comes after an occurrence of `a`. -/
def Action.Before (a b : Action) (tr : List Action) : Prop :=
  b ∈ tr → a ∈ tr.takeWhile (fun x => x != b)

instance (a b : Action) (tr : List Action) : Decidable (Action.Before a b tr) := by
  unfold Action.Before
  exact inferInstance

/-! ## Parts of `protocol/mta_protocol.cpp` and `tcp/mta_server.cpp` taken separately

The loop of `splitIntoByteVectors` with wrapping additions (equal to
`splitIntoByteVectors_loop` for vectors below `2^63` bytes,
`splitIntoByteVectors_wrapping_eq`), and the parts of `initializeAsBob` and of
`process_correlation_delta` that follow the call they make (`initializeAsBob_eq_return`,
`process_correlation_delta_eq_return`). -/

/-- The loop of `MTAProtocol::splitIntoByteVectors` with the `size_t` additions
`i + chunk_size` reduced modulo `2^64`, as the machine carries them out. -/
def MTAProtocol.splitIntoByteVectors_wrapping (flat : Bytes) (chunk_size : Nat) :
    Nat → Nat → List Bytes → Option (List Bytes)
  | 0, i, result => if i < flat.length then none else some result
  | fuel + 1, i, result =>
    if i < flat.length then
      MTAProtocol.splitIntoByteVectors_wrapping flat chunk_size fuel ((i + chunk_size) % U64)
        (result ++ [(flat.take (min ((i + chunk_size) % U64) flat.length)).drop i])
    else some result

/-- Part of `MTAProtocol::initializeAsBob` that follows the call of
`cot_protocol->initializeCOT`: the `BobSetup` it returns when that call returned
`cot_setup`. -/
def MTAProtocol.initializeAsBob_return (correlation_delta : Nat) (cot_setup : COTSetup) :
    BobSetup :=
  let setup : BobSetup :=
    { points_B := [], correlation_delta := correlation_delta, success := true,
      num_ot_instances := 32, public_key := [] }
  if !cot_setup.success then setup
  else
    { setup with points_B := cot_setup.points_B, correlation_delta := correlation_delta,
                 success := true }

/-- Part of `MTAServer::Session::process_correlation_delta` that follows the call of
`mta_protocol_.initializeAsBob`, on the session `s1` (which already holds
`correlation_delta_`) and the value `setup` that the call returned. -/
def Session.process_correlation_delta_return (codec : Codec) (s1 : Session) (setup : BobSetup) :
    Session × Option Bytes :=
  let s2 := { s1 with bob_setup_ := setup }
  if !s2.bob_setup_.success then (s2, none)
  else
    let s3 := { s2 with
      bob_setup_ := { s2.bob_setup_ with
        public_key := (List.range 65).map (fun i => i % 256) } }
    let s4 := { s3 with state_ := ProtocolState.SENDING_BOB_SETUP }
    Session.send_bob_setup codec s4

/-! ## The claims in the words of the specification -/

/-- Choice bit of instance `i` as the specification writes it: `c = (y >> i) & 1`. -/
def spec_choice (y i : Nat) : Nat := (y >>> i) &&& 1

/-- Ciphertext of instance `i` as the specification selects it: the 32 bytes at offset
`32 * i` of `E1` when the choice bit is 1 and of `E0` otherwise. -/
def spec_ciphertext (y : Nat) (E0 E1 : Bytes) (i : Nat) : Bytes :=
  ((if spec_choice y i = 1 then E1 else E0).drop (32 * i)).take 32

/-- Recovered value as the specification writes it: XOR the ciphertext byte-wise with
the 32-byte key and read bytes 0..3 of the result as a little-endian `u32`. -/
def spec_m (key ciphertext : Bytes) : Nat :=
  let plain := List.zipWith (fun e k => (e ^^^ k) % 256) ciphertext key
  plain.getD 0 0 + 256 * plain.getD 1 0 + 65536 * plain.getD 2 0 + 16777216 * plain.getD 3 0

/-- Value `V` as the specification writes it: the sum over `i` in `[0,32)` of
`2^i * m_i`, reduced modulo `2^32`, with `m_i` given by `m`. -/
def spec_V (m : Nat → Nat) : Nat :=
  ((List.range 32).map (fun i => 2 ^ i * m i)).sum % 2 ^ 32

/-- Value that instance `i` decrypts the ciphertext chunk `i` of `E` to, under the key
the engine uses for that instance: what `processSingleCOT` computes from it. -/
def decryptsTo (u : Undef) (E : Bytes) (i : Nat) : Nat :=
  CryptoOperations.bytesToUint32 (CryptoOperations.xorEncryptDecrypt (E.drop (i * 32))
    (u.secretOf i) 32)

/-- Additive share that the correctness sketch of the specification gives Alice:
`alpha * (x * alpha) - U` modulo `2^32`. -/
def spec_alpha_A (x alpha U : Nat) : Nat :=
  (alpha * (x * alpha) % 2 ^ 32 + (2 ^ 32 - U % 2 ^ 32)) % 2 ^ 32

/-! ## Concrete data used in the closed examples -/

/-- Little-endian bytes of a `u32`. -/
def le32 (v : Nat) : Bytes :=
  [v % 256, v / 256 % 256, v / 65536 % 256, v / 16777216 % 256]

/-- One 32-byte ciphertext chunk per instance: the little-endian bytes of `f i`
followed by 28 zero bytes, XORed with nothing (key of zero bytes). -/
def chunks (f : Nat → Nat) : Bytes :=
  (List.range 32).flatMap (fun i => le32 (f i) ++ List.replicate 28 0)

/-- Curve parameter of the examples: the group order of secp256k1 and stand-in point
operations (no result below depends on them). -/
def exCurve : Curve :=
  { order := 0xFFFFFFFFFFFFFFFFFFFFFFFFFFFFFFFEBAAEDCE6AF48A03BBFD25E8CD0364141,
    scalar_multiply := fun k => (k, k + 1),
    point_multiply := fun k P => (k * P.1, k * P.2),
    ecdsa_read_pubkey := fun b =>
      if b.getD 0 0 = 4 then some (bn_read_be (b.drop 1), bn_read_be (b.drop 33)) else none }

/-- Generator of the examples: the `n`-th buffer is the scalar `n + 1`, the `n`-th word
is `n`. -/
def exRng : Rng :=
  { word := fun n => n, buffer := fun n j => if j = 31 then n % 255 + 1 else 0,
    wordsDrawn := 0, buffersDrawn := 0 }

/-- Generator whose first word is `beta`. -/
def rngWith (beta : Nat) : Rng :=
  { exRng with word := fun n => beta + n }

/-- Unwritten storage of the examples: zero bytes everywhere. -/
def exUndef : Undef := { shared_secret := fun _ _ => 0, beyond := fun _ => 0 }

/-- Codec of the examples: a stand-in that encodes `BobMessages` as its `success` byte
followed by the two `u32` fields. -/
def exCodec : Codec :=
  { decodeCorrelationDelta := fun b => some (b.getD 0 0),
    encodeBobSetup := fun r => some ((if r.success then 1 else 0) :: r.public_key),
    encodeBobMessages := fun r =>
      some ((if r.success then 1 else 0) :: (le32 r.correlation_check ++ le32 r.masked_share)),
    encrypted_result_capacity := 256 }

/-- Engine state of the examples: a fresh engine after `initializeCOT` (one draw per
scalar suffices with `exRng`). -/
def exCot : Option (COTSetup × CorrelatedOTProtocol × Rng) :=
  CorrelatedOTProtocol.initializeCOT exCurve 1 CorrelatedOTProtocol.new exRng 11

/-- Points buffer of the examples: 32 chunks of 65 bytes, each starting with `tag`. -/
def pointsWith (tag : Nat) : Bytes :=
  (List.range 32).flatMap (fun _ => tag :: List.replicate 64 0)

/-- Scenario S1 of the specification, Alice side: `x = 7`, `U_i = i + 1`; `E0[i]`
holds `U_i` and `E1[i]` holds `U_i + x` (under the zero key of `exUndef`). -/
def s1_E0 : Bytes := chunks (fun i => i + 1)

/-- Second ciphertext buffer of scenario S1. -/
def s1_E1 : Bytes := chunks (fun i => (i + 1 + 7) % 2 ^ 32)

/-- Alice messages of scenario S1, with `alpha = 0xA5A5A5A5`, every 65-byte chunk of
`points_A` starting with the byte `tag`. -/
def aliceWith (tag : Nat) : AliceMessages :=
  { points_A := pointsWith tag, encrypted_m0_messages := s1_E0, encrypted_m1_messages := s1_E1,
    masked_share := 7 * 0xA5A5A5A5 % 2 ^ 32, success := true }

/-- Value `U` of scenario S1: the sum of `2^i * (i + 1)`. -/
def s1_U : Nat := ((List.range 32).map (fun i => 2 ^ i * (i + 1))).sum

/-- Protocol object of the examples after `initializeAsBob` and with mask `beta`. -/
def exMta (cot : CorrelatedOTProtocol) (beta : Nat) : MTAProtocol :=
  { cot_protocol := cot, beta := beta }

/-- Session of the examples waiting for `AliceMessages`, with share `y` and received
delta `delta`. -/
def exSession (y delta : Nat) : Session :=
  { Session.new y 0 32 with
    state_ := ProtocolState.WAITING_FOR_ALICE_MESSAGES, correlation_delta_ := delta }

/-- Result of `initializeCOT` in the examples (the fallback is never taken: `exCot` is
`some`). -/
def exInit : COTSetup × CorrelatedOTProtocol × Rng :=
  exCot.getD ({ points_B := [], correlation_x := 0, success := false },
    CorrelatedOTProtocol.new, exRng)

/-- Engine of the examples after `initializeCOT`. -/
def exEngine : CorrelatedOTProtocol := exInit.2.1


/-- Handler run of the examples: the session with `y = 11` and received delta 11
processes the frame carrying `alice`, the generator drawing `beta = 5`. -/
def exOutcome (codec : Codec) (alice : AliceMessages) : Outcome :=
  Session.process_alice_messages codec exUndef (exSession 11 11) (exMta exEngine 0) (rngWith 5)
    (MTAProtocol.serializeAliceMessages alice)

/-- Alice messages of scenario S1 with the `success` field cleared. -/
def aliceFailed : AliceMessages :=
  { points_A := pointsWith 4, encrypted_m0_messages := s1_E0, encrypted_m1_messages := s1_E1,
    masked_share := 7 * 0xA5A5A5A5 % 2 ^ 32, success := false }

/-- Encoded `CorrelationDelta` with `delta = 0xFFFFFFFF`: tag `0x08` of field 1 followed by
the five-byte varint. -/
def deltaFrame : Bytes := [0x08, 0xFF, 0xFF, 0xFF, 0xFF, 0x0F]

/-- Size prefix announcing `0xFFFFFFFF` body bytes. -/
def hugePrefix : Bytes := [0xFF, 0xFF, 0xFF, 0xFF]

/-- Value of a 4-byte size prefix as `read_message_with_size` computes it from
`read_buffer_[0..4)`: little-endian, truncated to `uint32_t`. -/
def sizeOf4 (b : Bytes) : Nat :=
  (b.getD 0 0 ||| b.getD 1 0 <<< 8 ||| b.getD 2 0 <<< 16 ||| b.getD 3 0 <<< 24) % 2 ^ 32

/-- The candidate that the `n`-th call of `random_buffer` yields is accepted by
`generateScalar`: nonzero and below the group order. -/
def Rng.accepts (c : Curve) (rng : Rng) (n : Nat) : Prop :=
  bn_read_be ((List.range 32).map (fun j => rng.buffer n j % 256)) ≠ 0 ∧
  bn_read_be ((List.range 32).map (fun j => rng.buffer n j % 256)) < c.order

/-- The generator yields an accepted candidate within `fuel` draws from every position:
the condition under which every `generateScalar` loop ends within `fuel` iterations. -/
def Rng.productive (c : Curve) (fuel : Nat) (rng : Rng) : Prop :=
  ∀ n, ∃ k, k < fuel ∧ rng.accepts c (n + k)

/-- Where a connection stands, given its outstanding operation, its protocol state and
the milestones `tr` passed so far: the invariant behind the frame ordering. -/
def Conn.Phase (w : Conn) (tr : List Action) : Prop :=
  match w.pending with
  | Pending.idle => tr <+: Action.canonical
  | Pending.write =>
    (w.session.state_ = ProtocolState.SENDING_BOB_SETUP ∧ tr = Action.canonical.take 2) ∨
    (w.session.state_ = ProtocolState.SENDING_BOB_MESSAGES ∧ tr = Action.canonical.take 6)
  | _ =>
    (w.session.state_ = ProtocolState.WAITING_FOR_CORRELATION_DELTA ∧ tr = []) ∨
    (w.session.state_ = ProtocolState.WAITING_FOR_ALICE_MESSAGES ∧ tr = Action.canonical.take 3)

/-- Connection of the examples right after `start`: a fresh session with `y = 11`. -/
def exConn0 : Conn := Conn.start (Session.new 11 0 32) (exMta exEngine 0) exRng

/-- Completions of the examples: the size prefix `01 00 00 00` and then the one-byte
body `0B`, which the codec of the examples decodes to `delta = 11`. -/
def exEvents : List Event := [Event.size_read false [1, 0, 0, 0], Event.body_read false [11]]

/-- Where the connection of the examples stands after `exEvents`, with the milestones
passed (the fallback is never taken: the run is `some`). -/
def exFinal : Conn × List Action :=
  (Conn.run exCurve exCodec 1 exUndef exConn0 exEvents).getD (exConn0, [])

/-- Connection of the examples waiting for the one-byte body of an `AliceMessages`
frame. -/
def exConnAlice : Conn :=
  { session := { exSession 11 11 with last_message_size_ := 1 },
    mta := exMta exEngine 0, rng := rngWith 5, pending := Pending.read_body 1 }

/-- Where `exConnAlice` stands after the body `07` has been read: the frame is too
short to be deserialized. -/
def exFailed : Conn × List Action :=
  (Conn.step exCurve exCodec 1 exUndef exConnAlice (Event.body_read false [7])).getD
    (exConnAlice, [])

/-- Second ciphertext buffer for instance 31 only: as `s1_E0`, but instance 31 holds 34
instead of 32. -/
def s1_E0_alt : Bytes := chunks (fun i => if i = 31 then 34 else i + 1)

/-- Read-buffer invariant of a connection: the buffer holds at least 8192 bytes, and
while the read of a body of `m` bytes is outstanding `last_message_size_` is `m` and the
buffer holds at least `m` bytes. -/
def Conn.Buffered (w : Conn) : Prop :=
  8192 ≤ w.session.read_buffer_.length ∧
  ∀ m, w.pending = Pending.read_body m →
    w.session.last_message_size_ = m ∧ m ≤ w.session.read_buffer_.length

/-- The 32 bytes that the `n`-th call of `random_buffer` writes. -/
def Rng.bytesOf (rng : Rng) (n : Nat) : Bytes :=
  (List.range 32).map (fun j => rng.buffer n j % 256)

/-- Completions of a whole exchange without errors: the frame `hdr ++ d` carrying the
delta, the completion of the BobSetup write, the frame `hdrA ++ alice` carrying the
Alice messages, and the completion of the BobMessages write. -/
def exchange (hdr d hdrA alice : Bytes) : List Event :=
  [Event.size_read false hdr, Event.body_read false d, Event.write_done false,
    Event.size_read false hdrA, Event.body_read false alice, Event.write_done false]

/-- Two connections that agree on everything the MtA arithmetic of the later handlers
depends on: the outstanding operation, the generator, `beta`, the number of OT
instances, the protocol state (past `WAITING_FOR_CORRELATION_DELTA`), `y`, the additive
share and the prepared Bob messages; their read buffers may differ but both are large
enough for the outstanding read. -/
def Conn.Alike (w1 w2 : Conn) : Prop :=
  w1.pending = w2.pending ∧ w1.rng = w2.rng ∧ w1.mta.beta = w2.mta.beta ∧
  w1.mta.cot_protocol.ot_instances.length = w2.mta.cot_protocol.ot_instances.length ∧
  w1.session.state_ = w2.session.state_ ∧
  w1.session.state_ ≠ ProtocolState.WAITING_FOR_CORRELATION_DELTA ∧
  w1.session.bob_y_share_ = w2.session.bob_y_share_ ∧
  w1.session.bob_additive_share_ = w2.session.bob_additive_share_ ∧
  w1.session.bob_messages_ = w2.session.bob_messages_ ∧
  4 ≤ w1.session.read_buffer_.length ∧ 4 ≤ w2.session.read_buffer_.length ∧
  (∀ m, w1.pending = Pending.read_body m →
    w1.session.last_message_size_ = m ∧ m ≤ w1.session.read_buffer_.length ∧
    w2.session.last_message_size_ = m ∧ m ≤ w2.session.read_buffer_.length)

/-- Completions of the examples after the first frame: the BobSetup write completes, the
frame `25 10 00 00` followed by the 4133 bytes of the Alice messages of scenario S1
arrives, and the BobMessages write completes. -/
def exTail : List Event :=
  [Event.write_done false, Event.size_read false [37, 16, 0, 0],
    Event.body_read false (MTAProtocol.serializeAliceMessages (aliceWith 4)),
    Event.write_done false]

/-- Where the connection of the examples stands after a whole exchange whose first frame
is `01 00 00 00` followed by the byte `dbyte` (decoded by the codec of the examples to
`delta = dbyte`), with the milestones passed (the fallback is never taken: the run is
`some`). -/
def exFull (dbyte : Nat) : Conn × List Action :=
  (Conn.run exCurve exCodec 1 exUndef
    (Conn.start (Session.new 11 0 32) (exMta exEngine 0) (rngWith 5))
    (Event.size_read false [1, 0, 0, 0] :: Event.body_read false [dbyte] :: exTail)).getD
    (exConn0, [])

theorem getD_xorEncryptDecrypt (data key : Bytes) (len j : Nat) (h : j < len) :
    (CryptoOperations.xorEncryptDecrypt data key len).getD j 0
      = (data.getD j 0 ^^^ key.getD (j % 32) 0) % 256 := by
  simp [CryptoOperations.xorEncryptDecrypt, List.getD_eq_getElem?_getD, List.getElem?_map,
    List.getElem?_range, h]

theorem or_byte (a b : Nat) (hb : b < 256) : a * 256 ||| b = a * 256 + b := by
  have := Nat.mul_add_lt_is_or (i := 8) (b := b) (by simpa using hb) a
  rw [Nat.mul_comm a 256]
  simpa using this.symm

theorem shift_or_byte (v b : Nat) (hb : b < 256) :
    ((v <<< 8) % 2 ^ 32 ||| b) % 2 ^ 32 = (v % 16777216) * 256 + b := by
  have h1 : (v <<< 8) % 2 ^ 32 = (v % 16777216) * 256 := by
    rw [Nat.shiftLeft_eq]
    omega
  rw [h1, or_byte _ _ hb]
  omega

theorem bytesToUint32_eq (bs : Bytes) (h0 : bs.getD 0 0 < 256) (h1 : bs.getD 1 0 < 256)
    (h2 : bs.getD 2 0 < 256) (h3 : bs.getD 3 0 < 256) :
    SecureRandom.bytesToUint32 bs
      = bs.getD 0 0 + 256 * bs.getD 1 0 + 65536 * bs.getD 2 0 + 16777216 * bs.getD 3 0 := by
  simp only [SecureRandom.bytesToUint32, List.foldl]
  rw [shift_or_byte _ _ h3, shift_or_byte _ _ h2, shift_or_byte _ _ h1, shift_or_byte _ _ h0]
  omega

theorem getD_secretOf (u : Undef) (i j : Nat) (h : j < 32) :
    (u.secretOf i).getD j 0 = u.shared_secret i j % 256 := by
  simp [Undef.secretOf, List.getD_eq_getElem?_getD, List.getElem?_map, List.getElem?_range, h]

theorem length_secretOf (u : Undef) (i : Nat) : (u.secretOf i).length = 32 := by
  simp [Undef.secretOf]

theorem getD_zipWith_xor (a b : Bytes) (j : Nat) (ha : j < a.length) (hb : j < b.length) :
    (List.zipWith (fun e k => (e ^^^ k) % 256) a b).getD j 0
      = (a.getD j 0 ^^^ b.getD j 0) % 256 := by
  simp [List.getD_eq_getElem?_getD, List.getElem?_zipWith, List.getElem?_eq_getElem, ha, hb]

theorem getD_drop_take (E : Bytes) (i j : Nat) (hj : j < 32) :
    ((E.drop (32 * i)).take 32).getD j 0 = (E.drop (i * 32)).getD j 0 := by
  simp [List.getD_eq_getElem?_getD, List.getElem?_take, hj, Nat.mul_comm]

theorem decryptsTo_eq_spec_m (u : Undef) (E : Bytes) (i : Nat) (hE : E.length = 1024)
    (hi : i < 32) :
    decryptsTo u E i = spec_m (u.secretOf i) ((E.drop (32 * i)).take 32) := by
  have hlen : ((E.drop (32 * i)).take 32).length = 32 := by
    simp [List.length_take, List.length_drop, hE]; omega
  have hk := length_secretOf u i
  unfold decryptsTo CryptoOperations.bytesToUint32 spec_m
  rw [bytesToUint32_eq]
  · simp only
    rw [getD_xorEncryptDecrypt _ _ _ 0 (by omega), getD_xorEncryptDecrypt _ _ _ 1 (by omega),
      getD_xorEncryptDecrypt _ _ _ 2 (by omega), getD_xorEncryptDecrypt _ _ _ 3 (by omega),
      getD_zipWith_xor _ _ 0 (by omega) (by omega), getD_zipWith_xor _ _ 1 (by omega) (by omega),
      getD_zipWith_xor _ _ 2 (by omega) (by omega), getD_zipWith_xor _ _ 3 (by omega) (by omega),
      getD_drop_take _ _ 0 (by omega), getD_drop_take _ _ 1 (by omega),
      getD_drop_take _ _ 2 (by omega), getD_drop_take _ _ 3 (by omega)]
  all_goals (rw [getD_xorEncryptDecrypt _ _ _ _ (by omega)]; exact Nat.mod_lt _ (by omega))

theorem processSingleCOT_eq (self : CorrelatedOTProtocol) (u : Undef) (i : Nat) (b : Bool)
    (pa E0 E1 : Bytes) (hi : i < 32) :
    self.processSingleCOT (u.secretOf i) i b pa (E0.drop (i * 32)) (E1.drop (i * 32)) 32
      = some (decryptsTo u (if b then E1 else E0) i) := by
  have h : ¬ i ≥ BIT_LENGTH := by simp [BIT_LENGTH]; omega
  cases b <;> simp [CorrelatedOTProtocol.processSingleCOT, h, decryptsTo]

theorem accumulate_step (acc t : Nat) :
    (acc + (t % U64) % MODULUS) % U64 % MODULUS % 2 ^ 32 = (acc + t) % 2 ^ 32 := by
  simp only [U64, MODULUS]
  omega

theorem executeCOTMultiplication_loop_eq (self : CorrelatedOTProtocol) (u : Undef) (y : Nat)
    (A E0 E1 : Bytes) :
    ∀ n i acc calls, i + n ≤ 32 → acc < 2 ^ 32 →
      self.executeCOTMultiplication_loop u y A E0 E1 n i acc calls
        = ({ additive_share_V :=
              (acc + ((List.range n).map (fun k => 2 ^ (i + k) *
                decryptsTo u (if CorrelatedOTProtocol.getBit y (i + k) then E1 else E0)
                  (i + k))).sum) % 2 ^ 32,
             success := true }, calls + n) := by
  intro n
  induction n with
  | zero =>
    intro i acc calls _ hacc
    simp only [CorrelatedOTProtocol.executeCOTMultiplication_loop, List.range_zero, List.map_nil,
      List.sum_nil, Nat.add_zero, Nat.mod_eq_of_lt hacc]
  | succ n ih =>
    intro i acc calls hin hacc
    rw [CorrelatedOTProtocol.executeCOTMultiplication_loop]
    simp only [processSingleCOT_eq self u i _ _ E0 E1 (by omega)]
    rw [ih (i + 1) _ (calls + 1) (by omega) (Nat.mod_lt _ (by norm_num))]
    rw [accumulate_step, List.range_succ_eq_map, List.map_cons, List.sum_cons, List.map_map]
    have hfun : ((fun k => 2 ^ (i + 1 + k) *
          decryptsTo u (if CorrelatedOTProtocol.getBit y (i + 1 + k) then E1 else E0)
            (i + 1 + k)))
        = ((fun k => 2 ^ (i + k) *
          decryptsTo u (if CorrelatedOTProtocol.getBit y (i + k) then E1 else E0)
            (i + k)) ∘ Nat.succ) := by
      funext k
      simp only [Function.comp, Nat.succ_eq_add_one]
      rw [show i + 1 + k = i + (k + 1) by omega]
    rw [hfun, Nat.one_shiftLeft, Nat.add_zero, Nat.mul_comm _ (2 ^ i), Nat.mod_add_mod,
      Nat.add_assoc, Nat.add_assoc calls 1 n, Nat.add_comm 1 n]
    rfl

theorem generatePointB_some (c : Curve) (fuel : Nat) (self : CorrelatedOTProtocol) (rng : Rng)
    (index : Nat) (out : Bytes) (off : Nat) (hi : index < 32)
    (r : Bool × Bytes × CorrelatedOTProtocol × Rng)
    (h : self.generatePointB c fuel rng index out off = some r) :
    r.1 = true ∧ r.2.2.1.ot_instances = self.ot_instances := by
  have hlt : ¬ index ≥ BIT_LENGTH := by simp [BIT_LENGTH]; omega
  simp only [CorrelatedOTProtocol.generatePointB, hlt, if_false] at h
  cases hk : CryptoOperations.generateECDHKeyPair c fuel rng with
  | none => simp [hk] at h
  | some v =>
    obtain ⟨ok, priv, pub, rng1⟩ := v
    simp only [hk, Option.some.injEq] at h
    subst h
    simp only [CryptoOperations.generateECDHKeyPair] at hk
    cases hs : SecureRandom.generateScalar c fuel rng with
    | none => simp [hs] at hk
    | some w =>
      simp [hs, CryptoOperations.generatePointFromScalar] at hk
      exact ⟨hk.1, rfl⟩

theorem initializeCOT_loop_some (c : Curve) (fuel : Nat) :
    ∀ n i (self : CorrelatedOTProtocol) (rng : Rng) (setup : COTSetup)
      (r : COTSetup × CorrelatedOTProtocol × Rng), i + n ≤ 32 →
      CorrelatedOTProtocol.initializeCOT_loop c fuel n i self rng setup = some r →
      r.1.success = true ∧ r.2.1.ot_instances.length = self.ot_instances.length + n := by
  intro n
  induction n with
  | zero =>
    intro i self rng setup r _ h
    simp only [CorrelatedOTProtocol.initializeCOT_loop, Option.some.injEq] at h
    subst h
    simp
  | succ n ih =>
    intro i self rng setup r hin h
    rw [CorrelatedOTProtocol.initializeCOT_loop] at h
    cases ho : ObliviousTransferProtocol.new c fuel rng with
    | none => simp [ho] at h
    | some v =>
      obtain ⟨ot, rng1⟩ := v
      simp only [ho] at h
      cases hg : CorrelatedOTProtocol.generatePointB c fuel
          { self with ot_instances := self.ot_instances ++ [ot] } rng1 i setup.points_B
          (i * 65) with
      | none => simp [hg] at h
      | some w =>
        have hw := generatePointB_some c fuel _ rng1 i _ _ (by omega) w hg
        obtain ⟨ok, pts, self2, rng2⟩ := w
        simp only at hw
        simp only [hg, hw.1, if_true] at h
        have := ih (i + 1) self2 rng2 _ r (by omega) h
        refine ⟨this.1, ?_⟩
        rw [this.2, hw.2]
        simp
        omega

theorem initializeCOT_some (c : Curve) (fuel : Nat) (self : CorrelatedOTProtocol) (rng : Rng)
    (alice_x : Nat) (r : COTSetup × CorrelatedOTProtocol × Rng)
    (h : self.initializeCOT c fuel rng alice_x = some r) :
    r.1.success = true ∧ r.2.1.ot_instances.length = 32 := by
  have := initializeCOT_loop_some c fuel BIT_LENGTH 0 _ rng _ r (by simp [BIT_LENGTH]) h
  simpa [BIT_LENGTH] using this

theorem getBit_iff (y i : Nat) :
    CorrelatedOTProtocol.getBit y i = true ↔ spec_choice y i = 1 := by
  simp only [CorrelatedOTProtocol.getBit, spec_choice, Nat.and_one_is_mod, bne_iff_ne]
  omega

theorem recovered_eq_spec (u : Undef) (y : Nat) (E0 E1 : Bytes) (i : Nat)
    (h0 : E0.length = 1024) (h1 : E1.length = 1024) (hi : i < 32) :
    decryptsTo u (if CorrelatedOTProtocol.getBit y i then E1 else E0) i
      = spec_m (u.secretOf i) (spec_ciphertext y E0 E1 i) := by
  unfold spec_ciphertext
  by_cases hb : CorrelatedOTProtocol.getBit y i = true
  · rw [if_pos hb, if_pos ((getBit_iff y i).1 hb)]
    exact decryptsTo_eq_spec_m u E1 i h1 hi
  · rw [if_neg hb, if_neg (fun h => hb ((getBit_iff y i).2 h))]
    exact decryptsTo_eq_spec_m u E0 i h0 hi

theorem executeCOTMultiplication_run_eq (self : CorrelatedOTProtocol) (u : Undef) (y : Nat)
    (A E0 E1 : Bytes) (hn : self.ot_instances.length = 32) (hA : A.length = 2080)
    (h0 : E0.length = 1024) (h1 : E1.length = 1024) :
    self.executeCOTMultiplication_run u y A E0 E1
      = ({ additive_share_V :=
            spec_V (fun i => decryptsTo u (if CorrelatedOTProtocol.getBit y i then E1 else E0) i),
           success := true }, 32) := by
  have hc : ¬ (A.length ≠ BIT_LENGTH * 65 ∨ E0.length ≠ BIT_LENGTH * 32 ∨
      E1.length ≠ BIT_LENGTH * 32 ∨ self.ot_instances.length ≠ BIT_LENGTH) := by
    simp [BIT_LENGTH, hn, hA, h0, h1]
  rw [CorrelatedOTProtocol.executeCOTMultiplication_run, if_neg hc,
    executeCOTMultiplication_loop_eq self u y A E0 E1 BIT_LENGTH 0 0 0 (by simp [BIT_LENGTH])
      (by norm_num)]
  simp [spec_V, BIT_LENGTH]

theorem isSome_eq_some_getD {α : Type} (x : Option α) (d : α) (h : x.isSome = true) :
    x = some (x.getD d) := by
  cases x with
  | none => simp at h
  | some v => rfl

theorem length_flatMap_range (g : Nat → Bytes) (k : Nat) (hk : ∀ i, (g i).length = k) (n : Nat) :
    ((List.range n).flatMap g).length = n * k := by
  induction n with
  | zero => simp
  | succ n ih => simp [List.range_succ, List.flatMap_append, ih, hk, Nat.succ_mul]

theorem getD_flatMap_range (g : Nat → Bytes) (k : Nat) (hk : ∀ i, (g i).length = k) :
    ∀ n i j, i < n → j < k →
      ((List.range n).flatMap g).getD (i * k + j) 0 = (g i).getD j 0 := by
  intro n
  induction n with
  | zero => intro i j hi; omega
  | succ n ih =>
    intro i j hi hj
    have hlen := length_flatMap_range g k hk n
    rw [List.range_succ, List.flatMap_append]
    by_cases hin : i < n
    · have hlt : i * k + j < ((List.range n).flatMap g).length := by
        rw [hlen]
        calc i * k + j < i * k + k := by omega
          _ = (i + 1) * k := by rw [Nat.succ_mul]
          _ ≤ n * k := Nat.mul_le_mul_right k hin
      rw [List.getD_append _ _ _ _ hlt]
      exact ih i j hin hj
    · have hi2 : i = n := by omega
      subst hi2
      have hge : ((List.range i).flatMap g).length ≤ i * k + j := by rw [hlen]; omega
      rw [List.getD_append_right _ _ _ _ hge, hlen]
      simp

theorem length_pointsWith (tag : Nat) : (pointsWith tag).length = 2080 := by
  rw [pointsWith, length_flatMap_range _ 65 (fun _ => by simp)]

theorem length_chunks (f : Nat → Nat) : (chunks f).length = 1024 := by
  rw [chunks, length_flatMap_range _ 32 (fun _ => by simp [le32])]

theorem decryptsTo_chunks (f : Nat → Nat) (i : Nat) (hi : i < 32) :
    decryptsTo exUndef (chunks f) i = f i % 2 ^ 32 := by
  have hg : ∀ j, j < 32 → ((chunks f).drop (i * 32)).getD j 0
      = (le32 (f i) ++ List.replicate 28 0).getD j 0 := by
    intro j hj
    rw [List.getD_eq_getElem?_getD, List.getElem?_drop, ← List.getD_eq_getElem?_getD]
    exact getD_flatMap_range _ 32 (fun _ => by simp [le32]) 32 i j hi hj
  have hkey : ∀ j, j < 32 → (exUndef.secretOf i).getD (j % 32) 0 = 0 := by
    intro j hj
    rw [getD_secretOf _ _ _ (Nat.mod_lt _ (by omega))]
    rfl
  unfold decryptsTo CryptoOperations.bytesToUint32
  rw [bytesToUint32_eq]
  · rw [getD_xorEncryptDecrypt _ _ _ 0 (by omega), getD_xorEncryptDecrypt _ _ _ 1 (by omega),
      getD_xorEncryptDecrypt _ _ _ 2 (by omega), getD_xorEncryptDecrypt _ _ _ 3 (by omega),
      hg 0 (by omega), hg 1 (by omega), hg 2 (by omega), hg 3 (by omega),
      hkey 0 (by omega), hkey 1 (by omega), hkey 2 (by omega), hkey 3 (by omega)]
    simp [le32]
    omega
  all_goals (rw [getD_xorEncryptDecrypt _ _ _ _ (by omega)]; exact Nat.mod_lt _ (by omega))

theorem or_shifted (a b i : Nat) (hb : b < 2 ^ i) : b ||| a * 2 ^ i = 2 ^ i * a + b := by
  rw [Nat.or_comm, Nat.mul_comm]
  exact (Nat.mul_add_lt_is_or hb a).symm

theorem le_bytes_or (m : Nat) :
    (m &&& 0xFF ||| ((m >>> 8) &&& 0xFF) <<< 8 ||| ((m >>> 16) &&& 0xFF) <<< 16 |||
      ((m >>> 24) &&& 0xFF) <<< 24) % 2 ^ 32 = m % 2 ^ 32 := by
  have hand : ∀ x : Nat, x &&& 0xFF = x % 256 := fun x => Nat.and_pow_two_sub_one_eq_mod x 8
  simp only [hand, Nat.shiftRight_eq_div_pow, Nat.shiftLeft_eq]
  rw [or_shifted (m / 2 ^ 8 % 256) (m % 256) 8 (by omega),
    or_shifted (m / 2 ^ 16 % 256) _ 16 (by omega),
    or_shifted (m / 2 ^ 24 % 256) _ 24 (by omega)]
  omega

theorem map_readAt_slice (u : Undef) (pre A post : Bytes) (n off : Nat) (hn : n = A.length)
    (hoff : off = pre.length) :
    (List.range n).map (fun k => readAt u (pre ++ A ++ post) (off + k)) = A := by
  subst hn hoff
  apply List.ext_getElem
  · simp
  · intro k h1 h2
    have hk : k < A.length := by simpa using h2
    have hlt : pre.length + k < (pre ++ A ++ post).length := by simp; omega
    simp only [List.getElem_map, List.getElem_range, readAt, hlt, if_true]
    rw [List.getD_eq_getElem?_getD, List.append_assoc, List.getElem?_append_right (by omega)]
    simp [List.getElem?_append_left hk, List.getElem?_eq_getElem hk]

theorem deserialize_serialize (u : Undef) (a m : AliceMessages)
    (hA : a.points_A.length = 2080) (h0 : a.encrypted_m0_messages.length = 1024)
    (h1 : a.encrypted_m1_messages.length = 1024) :
    MTAProtocol.deserializeAliceMessages u (MTAProtocol.serializeAliceMessages a) m
      = (true, { points_A := a.points_A, encrypted_m0_messages := a.encrypted_m0_messages,
                 encrypted_m1_messages := a.encrypted_m1_messages,
                 masked_share := a.masked_share % 2 ^ 32, success := true }) := by
  have hlen : ¬ (MTAProtocol.serializeAliceMessages a).length < 5 := by
    simp [MTAProtocol.serializeAliceMessages]
  rw [MTAProtocol.deserializeAliceMessages, if_neg hlen]
  have hm : ((MTAProtocol.serializeAliceMessages a).getD 1 0 |||
      (MTAProtocol.serializeAliceMessages a).getD 2 0 <<< 8 |||
      (MTAProtocol.serializeAliceMessages a).getD 3 0 <<< 16 |||
      (MTAProtocol.serializeAliceMessages a).getD 4 0 <<< 24) % 2 ^ 32
        = a.masked_share % 2 ^ 32 := by
    rw [← le_bytes_or a.masked_share]
    simp [MTAProtocol.serializeAliceMessages]
  have hp : (List.range (32 * 65)).map
      (fun k => readAt u (MTAProtocol.serializeAliceMessages a) (5 + k)) = a.points_A := by
    have := map_readAt_slice u
      [if a.success then 1 else 0, a.masked_share &&& 0xFF, (a.masked_share >>> 8) &&& 0xFF,
        (a.masked_share >>> 16) &&& 0xFF, (a.masked_share >>> 24) &&& 0xFF]
      a.points_A (a.encrypted_m0_messages ++ a.encrypted_m1_messages) (32 * 65) 5
      (by rw [hA]) rfl
    simpa [MTAProtocol.serializeAliceMessages, List.append_assoc] using this
  have he0 : (List.range (32 * 32)).map
      (fun k => readAt u (MTAProtocol.serializeAliceMessages a) (5 + 32 * 65 + k))
        = a.encrypted_m0_messages := by
    have := map_readAt_slice u
      ([if a.success then 1 else 0, a.masked_share &&& 0xFF, (a.masked_share >>> 8) &&& 0xFF,
        (a.masked_share >>> 16) &&& 0xFF, (a.masked_share >>> 24) &&& 0xFF] ++ a.points_A)
      a.encrypted_m0_messages a.encrypted_m1_messages (32 * 32) (5 + 32 * 65)
      (by rw [h0]) (by simp [hA])
    simpa [MTAProtocol.serializeAliceMessages, List.append_assoc] using this
  have he1 : (List.range (32 * 32)).map
      (fun k => readAt u (MTAProtocol.serializeAliceMessages a) (5 + 32 * 65 + 32 * 32 + k))
        = a.encrypted_m1_messages := by
    have := map_readAt_slice u
      ([if a.success then 1 else 0, a.masked_share &&& 0xFF, (a.masked_share >>> 8) &&& 0xFF,
        (a.masked_share >>> 16) &&& 0xFF, (a.masked_share >>> 24) &&& 0xFF] ++ a.points_A
        ++ a.encrypted_m0_messages)
      a.encrypted_m1_messages [] (32 * 32) (5 + 32 * 65 + 32 * 32)
      (by rw [h1]) (by simp [hA, h0])
    simpa [MTAProtocol.serializeAliceMessages, List.append_assoc] using this
  simp only [hm, hp, he0, he1]

theorem getBit_eq (y i : Nat) :
    (if CorrelatedOTProtocol.getBit y i then 1 else 0) = y / 2 ^ i % 2 := by
  simp only [CorrelatedOTProtocol.getBit, Nat.and_one_is_mod, Nat.shiftRight_eq_div_pow]
  by_cases h : y / 2 ^ i % 2 = 0
  · simp [h]
  · have h1 : y / 2 ^ i % 2 = 1 := by omega
    simp [h1]

theorem sum_bits (y : Nat) (n : Nat) :
    ((List.range n).map
      (fun i => 2 ^ i * (if CorrelatedOTProtocol.getBit y i then 1 else 0))).sum = y % 2 ^ n := by
  induction n with
  | zero => simp [Nat.mod_one]
  | succ n ih =>
    rw [List.range_succ, List.map_append, List.sum_append, ih, Nat.mod_pow_succ]
    simp only [List.map_cons, List.map_nil, List.sum_cons, List.sum_nil, Nat.add_zero, getBit_eq]

theorem sum_map_modEq (m : Nat) (f g : Nat → Nat) (l : List Nat)
    (h : ∀ i, i ∈ l → f i % m = g i % m) : (l.map f).sum % m = (l.map g).sum % m := by
  induction l with
  | nil => rfl
  | cons a l ih =>
    have ha := h a (List.mem_cons_self a l)
    have hl := ih (fun i hi => h i (List.mem_cons_of_mem a hi))
    simp only [List.map_cons, List.sum_cons]
    rw [Nat.add_mod, ha, hl, ← Nat.add_mod]

theorem cot_sum (u : Undef) (y x : Nat) (U : Nat → Nat) (E0 E1 : Bytes)
    (hdec : ∀ i, i < 32 → decryptsTo u E0 i = U i ∧ decryptsTo u E1 i = (U i + x) % 2 ^ 32) :
    spec_V (fun i => decryptsTo u (if CorrelatedOTProtocol.getBit y i then E1 else E0) i)
      = (((List.range 32).map (fun i => 2 ^ i * U i)).sum + x * y) % 2 ^ 32 := by
  have h1 : ((List.range 32).map (fun i => 2 ^ i *
        decryptsTo u (if CorrelatedOTProtocol.getBit y i then E1 else E0) i)).sum % 2 ^ 32
      = ((List.range 32).map (fun i => 2 ^ i * U i
          + x * (2 ^ i * (if CorrelatedOTProtocol.getBit y i then 1 else 0)))).sum % 2 ^ 32 := by
    apply sum_map_modEq
    intro i hi
    have hd := hdec i (List.mem_range.1 hi)
    cases hb : CorrelatedOTProtocol.getBit y i with
    | true =>
      simp only [if_true, hd.2, Nat.mul_one]
      rw [Nat.mul_mod, Nat.mod_mod, ← Nat.mul_mod, Nat.mul_add, Nat.mul_comm x]
    | false =>
      simp only [Bool.false_eq_true, if_false, hd.1, Nat.mul_zero, Nat.add_zero]
  rw [spec_V, h1, List.sum_map_add, List.sum_map_mul_left, sum_bits]
  have h2 : x * y = x * (y % 2 ^ 32) + 2 ^ 32 * (x * (y / 2 ^ 32)) := by
    conv_lhs => rw [← Nat.mod_add_div y (2 ^ 32)]
    ring
  rw [h2, ← Nat.add_assoc, Nat.add_mul_mod_self_left]

theorem executeBobMTA_share (m : MTAProtocol) (u : Undef) (y : Nat) (a : AliceMessages)
    (hs : (m.executeBobMTA u y a).success = true) :
    (m.executeBobMTA u y a).additive_share
      = (m.beta * a.masked_share
          + (m.cot_protocol.executeCOTMultiplication u y a.points_A a.encrypted_m0_messages
              a.encrypted_m1_messages).additive_share_V) % 2 ^ 32 := by
  unfold MTAProtocol.executeBobMTA at hs ⊢
  by_cases h1 : a.success = true
  · by_cases h2 : (m.cot_protocol.executeCOTMultiplication u y a.points_A
        a.encrypted_m0_messages a.encrypted_m1_messages).success = true
    · simp only [h1, h2, MTAProtocol.validateMTAInputs, Bool.not_true, Bool.false_eq_true,
        if_false, U64, MODULUS]
      omega
    · simp [h1, h2, MTAProtocol.validateMTAInputs, MTAResult.new] at hs
  · simp [h1, MTAResult.new] at hs

theorem executeBobMTA_eq (m : MTAProtocol) (u : Undef) (y : Nat) (a : AliceMessages)
    (hs : a.success = true) (hn : m.cot_protocol.ot_instances.length = 32)
    (hA : a.points_A.length = 2080) (h0 : a.encrypted_m0_messages.length = 1024)
    (h1 : a.encrypted_m1_messages.length = 1024) :
    m.executeBobMTA u y a
      = { additive_share := (m.beta * a.masked_share
            + spec_V (fun i => decryptsTo u (if CorrelatedOTProtocol.getBit y i
                then a.encrypted_m1_messages else a.encrypted_m0_messages) i)) % 2 ^ 32,
          success := true } := by
  have hc : m.cot_protocol.executeCOTMultiplication u y a.points_A a.encrypted_m0_messages
      a.encrypted_m1_messages
      = { additive_share_V := spec_V (fun i => decryptsTo u
            (if CorrelatedOTProtocol.getBit y i
              then a.encrypted_m1_messages else a.encrypted_m0_messages) i),
          success := true } := by
    rw [CorrelatedOTProtocol.executeCOTMultiplication,
      executeCOTMultiplication_run_eq m.cot_protocol u y a.points_A a.encrypted_m0_messages
        a.encrypted_m1_messages hn hA h0 h1]
  generalize spec_V (fun i => decryptsTo u (if CorrelatedOTProtocol.getBit y i
      then a.encrypted_m1_messages else a.encrypted_m0_messages) i) = V at hc ⊢
  unfold MTAProtocol.executeBobMTA
  rw [hc]
  simp only [hs, MTAProtocol.validateMTAInputs, Bool.not_true, Bool.false_eq_true, if_false,
    U64, MODULUS, MTAResult.new, MTAResult.mk.injEq, and_true]
  omega

theorem prepareBobMessages_eq (mta : MTAProtocol) (rng : Rng) (y : Nat) :
    mta.prepareBobMessages rng y
      = ({ BobMessages.new with masked_share := y * (random32 rng).1 % 2 ^ 32, success := true },
          { mta with beta := (random32 rng).1 }, (random32 rng).2) := by
  simp [MTAProtocol.prepareBobMessages, MTAProtocol.validateMTAInputs,
    CryptoOperations.generateRandomUint32, SecureRandom.generateMultiplicativeShare]

theorem deserialize_fst (u : Undef) (data : Bytes) (m : AliceMessages) (hd : 5 ≤ data.length) :
    (MTAProtocol.deserializeAliceMessages u data m).1 = true := by
  have h : ¬ data.length < 5 := by omega
  simp [MTAProtocol.deserializeAliceMessages, h]

theorem process_alice_messages_sent (codec : Codec) (u : Undef) (s : Session)
    (mta : MTAProtocol) (rng : Rng) (data : Bytes) (hd : 5 ≤ data.length)
    (hs : (({ mta with beta := (random32 rng).1 } : MTAProtocol).executeBobMTA u s.bob_y_share_
      (MTAProtocol.deserializeAliceMessages u data AliceMessages.new).2).success = true) :
    Session.process_alice_messages codec u s mta rng data
      = { session := (Session.send_bob_messages codec
            { s with
              bob_messages_ :=
                { BobMessages.new with
                  masked_share := s.bob_y_share_ * (random32 rng).1 % 2 ^ 32, success := true },
              bob_additive_share_ :=
                (({ mta with beta := (random32 rng).1 } : MTAProtocol).executeBobMTA u
                  s.bob_y_share_
                  (MTAProtocol.deserializeAliceMessages u data AliceMessages.new).2).additive_share,
              bob_correlation_check_ :=
                ((s.bob_y_share_ +
                  (({ mta with beta := (random32 rng).1 } : MTAProtocol).executeBobMTA u
                    s.bob_y_share_
                    (MTAProtocol.deserializeAliceMessages u data
                      AliceMessages.new).2).additive_share) % 2 ^ 32) ^^^ s.correlation_delta_,
              state_ := ProtocolState.SENDING_BOB_MESSAGES }).1,
          mta := { mta with beta := (random32 rng).1 },
          rng := (random32 rng).2,
          written := (Session.send_bob_messages codec
            { s with
              bob_messages_ :=
                { BobMessages.new with
                  masked_share := s.bob_y_share_ * (random32 rng).1 % 2 ^ 32, success := true },
              bob_additive_share_ :=
                (({ mta with beta := (random32 rng).1 } : MTAProtocol).executeBobMTA u
                  s.bob_y_share_
                  (MTAProtocol.deserializeAliceMessages u data AliceMessages.new).2).additive_share,
              bob_correlation_check_ :=
                ((s.bob_y_share_ +
                  (({ mta with beta := (random32 rng).1 } : MTAProtocol).executeBobMTA u
                    s.bob_y_share_
                    (MTAProtocol.deserializeAliceMessages u data
                      AliceMessages.new).2).additive_share) % 2 ^ 32) ^^^ s.correlation_delta_,
              state_ := ProtocolState.SENDING_BOB_MESSAGES }).2 } := by
  unfold Session.process_alice_messages
  simp only [deserialize_fst u data _ hd, prepareBobMessages_eq, hs, Bool.not_true,
    Bool.false_eq_true, if_false]

theorem send_bob_messages_eq (codec : Codec) (s : Session) (h : s.bob_messages_.success = true) :
    Session.send_bob_messages codec s
      = if (MTAProtocol.serializeBobMessages codec s.bob_messages_).isEmpty then (s, none)
        else
          ({ s with write_buffer_ :=
              (s.send_message_with_size
                (MTAProtocol.serializeBobMessages codec s.bob_messages_)).2 },
            some (s.send_message_with_size
              (MTAProtocol.serializeBobMessages codec s.bob_messages_)).2) := by
  simp [Session.send_bob_messages, h, Session.send_message_with_size]

theorem splitIntoByteVectors_loop_isSome (flat : Bytes) (chunk_size : Nat)
    (hc : 0 < chunk_size) :
    ∀ fuel i result, flat.length ≤ i + fuel →
      (MTAProtocol.splitIntoByteVectors_loop flat chunk_size fuel i result).isSome = true := by
  intro fuel
  induction fuel with
  | zero =>
    intro i result h
    have hi : ¬ i < flat.length := by omega
    simp [MTAProtocol.splitIntoByteVectors_loop, hi]
  | succ fuel ih =>
    intro i result h
    rw [MTAProtocol.splitIntoByteVectors_loop]
    by_cases hi : i < flat.length
    · rw [if_pos hi]
      exact ih _ _ (by omega)
    · rw [if_neg hi]
      rfl

theorem splitIntoByteVectors_isSome (flat : Bytes) (chunk_size : Nat) (hc : 0 < chunk_size) :
    (MTAProtocol.splitIntoByteVectors (flat.length + 1) flat chunk_size).isSome = true :=
  splitIntoByteVectors_loop_isSome flat chunk_size hc _ 0 [] (by omega)

theorem exInit_eq :
    CorrelatedOTProtocol.new.initializeCOT exCurve 1 exRng 11 = some exInit :=
  isSome_eq_some_getD exCot _ (by decide)

theorem exEngine_instances : exEngine.ot_instances.length = 32 :=
  (initializeCOT_some exCurve 1 _ exRng 11 exInit exInit_eq).2

theorem s1_decrypts :
    ∀ i, i < 32 → decryptsTo exUndef s1_E0 i = i + 1 ∧
      decryptsTo exUndef s1_E1 i = (i + 1 + 7) % 2 ^ 32 := by
  intro i hi
  constructor
  · rw [s1_E0, decryptsTo_chunks _ i hi]
    exact Nat.mod_eq_of_lt (by omega)
  · rw [s1_E1, decryptsTo_chunks _ i hi, Nat.mod_mod]

theorem s1_value (y : Nat) :
    spec_V (fun i => decryptsTo exUndef
      (if CorrelatedOTProtocol.getBit y i then s1_E1 else s1_E0) i)
      = (s1_U + 7 * y) % 2 ^ 32 :=
  cot_sum exUndef y 7 (fun i => i + 1) s1_E0 s1_E1 s1_decrypts

theorem s1_U_mod : s1_U % 2 ^ 32 = 1 := by decide

theorem exBob_eq (beta y : Nat) (tag : Nat) :
    (exMta exEngine beta).executeBobMTA exUndef y (aliceWith tag)
      = { additive_share := (beta * (7 * 0xA5A5A5A5 % 2 ^ 32) + (s1_U + 7 * y) % 2 ^ 32) % 2 ^ 32,
          success := true } := by
  rw [executeBobMTA_eq (exMta exEngine beta) exUndef y (aliceWith tag)
    rfl exEngine_instances (length_pointsWith tag) (length_chunks _) (length_chunks _)]
  simp only [aliceWith, exMta]
  rw [s1_value]

theorem exOutcome_eq (codec : Codec) (tag : Nat) :
    (exOutcome codec (aliceWith tag)).session.bob_messages_
        = { BobMessages.new with masked_share := 55, success := true } ∧
    (exOutcome codec (aliceWith tag)).session.state_ = ProtocolState.SENDING_BOB_MESSAGES ∧
    (exOutcome codec (aliceWith tag)).session.bob_additive_share_ = 2779096541 ∧
    (exOutcome codec (aliceWith tag)).session.bob_correlation_check_ = 2779096547 ∧
    (exOutcome codec (aliceWith tag)).written
        = if (MTAProtocol.serializeBobMessages codec
              { BobMessages.new with masked_share := 55, success := true }).isEmpty then none
          else some
            ((exSession 11 11).send_message_with_size (MTAProtocol.serializeBobMessages codec
              { BobMessages.new with masked_share := 55, success := true })).2 := by
  have hser : 5 ≤ (MTAProtocol.serializeAliceMessages (aliceWith tag)).length := by
    simp [MTAProtocol.serializeAliceMessages]
  have hdes := deserialize_serialize exUndef (aliceWith tag)
    AliceMessages.new (length_pointsWith tag) (length_chunks _) (length_chunks _)
  have hal : ({ points_A := (aliceWith tag).points_A,
                encrypted_m0_messages := (aliceWith tag).encrypted_m0_messages,
                encrypted_m1_messages := (aliceWith tag).encrypted_m1_messages,
                masked_share := (aliceWith tag).masked_share % 2 ^ 32,
                success := true } : AliceMessages) = aliceWith tag := by
    simp [aliceWith]
  rw [hal] at hdes
  have hbeta : (random32 (rngWith 5)).1 = 5 := by decide
  have hmta : ({ exMta exEngine 0 with beta := (random32 (rngWith 5)).1 } : MTAProtocol)
      = exMta exEngine 5 := by
    rw [hbeta]; rfl
  have hbob := exBob_eq 5 11 tag
  have hshare : (5 * (7 * 0xA5A5A5A5 % 2 ^ 32) + (s1_U + 7 * 11) % 2 ^ 32) % 2 ^ 32
      = 2779096541 := by decide
  rw [hshare] at hbob
  have hy : (exSession 11 11).bob_y_share_ = 11 := rfl
  have hdl : (exSession 11 11).correlation_delta_ = 11 := rfl
  have hs : (({ exMta exEngine 0 with beta := (random32 (rngWith 5)).1 } : MTAProtocol).executeBobMTA
      exUndef (exSession 11 11).bob_y_share_
      (MTAProtocol.deserializeAliceMessages exUndef (MTAProtocol.serializeAliceMessages
        (aliceWith tag)) AliceMessages.new).2).success = true := by
    rw [hdes, hmta, hy, hbob]
  have hout := process_alice_messages_sent codec exUndef (exSession 11 11) (exMta exEngine 0)
    (rngWith 5) _ hser hs
  rw [hdes, hmta, hy, hdl, hbob, hbeta] at hout
  unfold exOutcome
  rw [hout, send_bob_messages_eq _ _ rfl]
  have h55 : 11 * 5 % 2 ^ 32 = 55 := by decide
  have hcc : (11 + 2779096541) % 2 ^ 32 ^^^ 11 = 2779096547 := by decide
  simp only [h55, hcc]
  by_cases he : (MTAProtocol.serializeBobMessages codec
      { BobMessages.new with masked_share := 55, success := true }).isEmpty = true
  · simp only [he, if_true]
    refine ⟨?_, ?_, ?_, ?_, ?_⟩ <;> exact True.intro
  · simp only [he, if_false]
    refine ⟨?_, ?_, ?_, ?_, ?_⟩ <;> first | exact True.intro | rfl

theorem exFrame_length (tag : Nat) :
    5 ≤ (MTAProtocol.serializeAliceMessages (aliceWith tag)).length := by
  simp [MTAProtocol.serializeAliceMessages]

theorem exFrame_deserialize (tag : Nat) :
    MTAProtocol.deserializeAliceMessages exUndef
      (MTAProtocol.serializeAliceMessages (aliceWith tag)) AliceMessages.new
      = (true, aliceWith tag) := by
  rw [deserialize_serialize exUndef (aliceWith tag) AliceMessages.new (length_pointsWith tag)
    (length_chunks _) (length_chunks _)]
  simp [aliceWith]

theorem exFrame_success (tag : Nat) :
    (((exMta exEngine 0).prepareBobMessages (rngWith 5) (exSession 11 11).bob_y_share_).2.1.executeBobMTA
      exUndef (exSession 11 11).bob_y_share_
      (MTAProtocol.deserializeAliceMessages exUndef
        (MTAProtocol.serializeAliceMessages (aliceWith tag)) AliceMessages.new).2).success
      = true := by
  rw [prepareBobMessages_eq, exFrame_deserialize]
  show ((exMta exEngine (random32 (rngWith 5)).1).executeBobMTA exUndef 11
    (aliceWith tag)).success = true
  rw [exBob_eq]

theorem exCodec_frame :
    (if (MTAProtocol.serializeBobMessages exCodec
          { BobMessages.new with masked_share := 55, success := true }).isEmpty then none
      else some ((exSession 11 11).send_message_with_size
        (MTAProtocol.serializeBobMessages exCodec
          { BobMessages.new with masked_share := 55, success := true })).2)
      = some [9, 0, 0, 0, 1, 0, 0, 0, 0, 55, 0, 0, 0] := by
  decide

theorem executeBobMTA_run_fst (self : MTAProtocol) (u : Undef) (y : Nat) (a : AliceMessages) :
    (self.executeBobMTA_run u y a).1 = self.executeBobMTA u y a := by
  unfold MTAProtocol.executeBobMTA_run MTAProtocol.executeBobMTA
  by_cases h1 : a.success = true
  · by_cases h2 : (self.cot_protocol.executeCOTMultiplication u y a.points_A a.encrypted_m0_messages
        a.encrypted_m1_messages).success = true
    · simp [h1, h2, MTAProtocol.validateMTAInputs]
    · simp [h1, h2, MTAProtocol.validateMTAInputs]
  · simp [h1]

theorem deserialize_lengths (u : Undef) (data : Bytes) (m : AliceMessages)
    (hd : 5 ≤ data.length) :
    (MTAProtocol.deserializeAliceMessages u data m).2.success = true ∧
    (MTAProtocol.deserializeAliceMessages u data m).2.points_A.length = 2080 ∧
    (MTAProtocol.deserializeAliceMessages u data m).2.encrypted_m0_messages.length = 1024 ∧
    (MTAProtocol.deserializeAliceMessages u data m).2.encrypted_m1_messages.length = 1024 := by
  have h : ¬ data.length < 5 := by omega
  simp [MTAProtocol.deserializeAliceMessages, h]

theorem process_alice_messages_accepts (codec : Codec) (u : Undef) (s : Session)
    (mta : MTAProtocol) (rng : Rng) (data : Bytes) (hd : 5 ≤ data.length)
    (hn : mta.cot_protocol.ot_instances.length = 32) :
    (Session.process_alice_messages codec u s mta rng data).session.state_
      = ProtocolState.SENDING_BOB_MESSAGES ∧
    (Session.process_alice_messages codec u s mta rng data).session.bob_messages_
      = { BobMessages.new with
          masked_share := s.bob_y_share_ * (random32 rng).1 % 2 ^ 32, success := true } ∧
    (Session.process_alice_messages codec u s mta rng data).written
      = if (MTAProtocol.serializeBobMessages codec
            { BobMessages.new with
              masked_share := s.bob_y_share_ * (random32 rng).1 % 2 ^ 32,
              success := true }).isEmpty then none
        else some (s.send_message_with_size (MTAProtocol.serializeBobMessages codec
            { BobMessages.new with
              masked_share := s.bob_y_share_ * (random32 rng).1 % 2 ^ 32,
              success := true })).2 := by
  have hl := deserialize_lengths u data AliceMessages.new hd
  have hs : (({ mta with beta := (random32 rng).1 } : MTAProtocol).executeBobMTA u s.bob_y_share_
      (MTAProtocol.deserializeAliceMessages u data AliceMessages.new).2).success = true := by
    rw [executeBobMTA_eq ({ mta with beta := (random32 rng).1 } : MTAProtocol) u s.bob_y_share_
      (MTAProtocol.deserializeAliceMessages u data AliceMessages.new).2 hl.1 hn hl.2.1 hl.2.2.1
      hl.2.2.2]
  rw [process_alice_messages_sent codec u s mta rng data hd hs, send_bob_messages_eq _ _ rfl]
  by_cases he : (MTAProtocol.serializeBobMessages codec
      { BobMessages.new with
        masked_share := s.bob_y_share_ * (random32 rng).1 % 2 ^ 32, success := true }).isEmpty
      = true
  · rw [if_pos he]
    exact ⟨rfl, rfl, by rw [if_pos he]⟩
  · rw [if_neg he]
    exact ⟨rfl, rfl, by rw [if_neg he]; rfl⟩

theorem writeAt_zero (v data : Bytes) : writeAt v 0 data = data ++ v.drop data.length := by
  simp [writeAt]

theorem length_writeAt (v data : Bytes) (off : Nat) (h : off + data.length ≤ v.length) :
    (writeAt v off data).length = v.length := by
  simp [writeAt, List.length_append, List.length_take, List.length_drop]
  omega

theorem transferred_eq (s : Session) (n : Nat) (data : Bytes) (hd : data.length = n)
    (hb : n ≤ s.read_buffer_.length) : s.transferred n data = data := by
  unfold Session.transferred
  rw [Nat.min_eq_left hb, ← hd, List.take_length]

theorem on_size_read_ok (s : Session) (data : Bytes) (hlen : data.length = 4)
    (hbuf : 4 ≤ s.read_buffer_.length) :
    s.on_size_read false data
      = (if (data.getD 0 0 ||| data.getD 1 0 <<< 8 ||| data.getD 2 0 <<< 16 |||
              data.getD 3 0 <<< 24) % 2 ^ 32 > s.read_buffer_.length then
          { s with
            read_buffer_ := (data ++ s.read_buffer_.drop 4) ++
              List.replicate ((data.getD 0 0 ||| data.getD 1 0 <<< 8 ||| data.getD 2 0 <<< 16 |||
                data.getD 3 0 <<< 24) % 2 ^ 32 - s.read_buffer_.length) 0,
            last_message_size_ := (data.getD 0 0 ||| data.getD 1 0 <<< 8 |||
              data.getD 2 0 <<< 16 ||| data.getD 3 0 <<< 24) % 2 ^ 32 }
        else
          { s with
            read_buffer_ := data ++ s.read_buffer_.drop 4,
            last_message_size_ := (data.getD 0 0 ||| data.getD 1 0 <<< 8 |||
              data.getD 2 0 <<< 16 ||| data.getD 3 0 <<< 24) % 2 ^ 32 },
        some ((data.getD 0 0 ||| data.getD 1 0 <<< 8 ||| data.getD 2 0 <<< 16 |||
          data.getD 3 0 <<< 24) % 2 ^ 32)) := by
  have ht := transferred_eq s 4 data hlen hbuf
  have hw : writeAt s.read_buffer_ 0 data = data ++ s.read_buffer_.drop 4 := by
    rw [writeAt_zero, hlen]
  have hg : ∀ j, j < 4 → (data ++ s.read_buffer_.drop 4).getD j 0 = data.getD j 0 := by
    intro j hj
    rw [List.getD_append _ _ _ _ (by omega)]
  have hl : (data ++ s.read_buffer_.drop 4).length = s.read_buffer_.length := by
    simp [hlen]; omega
  unfold Session.on_size_read
  simp only [ht, hw, hlen, hg 0 (by omega), hg 1 (by omega), hg 2 (by omega), hg 3 (by omega), hl,
    Bool.not_false, beq_self_eq_true, Bool.and_self, if_true]

theorem and_255 (x : Nat) : x &&& 0xFF = x % 256 := Nat.and_pow_two_sub_one_eq_mod x 8

theorem send_message_with_size_frame (s : Session) (p : Bytes) (hp : p.length < 2 ^ 32) :
    (s.send_message_with_size p).2 = le32 p.length ++ p := by
  simp only [Session.send_message_with_size, le32, Nat.mod_eq_of_lt hp, and_255,
    Nat.shiftRight_eq_div_pow]

theorem sizeOf4_header (n : Nat) (rest : Bytes) :
    sizeOf4 (le32 n ++ rest) = n % 2 ^ 32 := by
  have h := le_bytes_or n
  simp only [and_255, Nat.shiftRight_eq_div_pow] at h
  simp only [sizeOf4, le32]
  norm_num at h ⊢
  exact h

theorem on_size_read_sizeOf4 (s : Session) (data : Bytes) (hlen : data.length = 4)
    (hbuf : 4 ≤ s.read_buffer_.length) :
    (s.on_size_read false data).2 = some (sizeOf4 data) ∧
    (s.on_size_read false data).1.last_message_size_ = sizeOf4 data ∧
    (s.on_size_read false data).1.read_buffer_.length = max (sizeOf4 data) s.read_buffer_.length ∧
    (s.on_size_read false data).1.state_ = s.state_ := by
  rw [on_size_read_ok s data hlen hbuf]
  have hl : (data ++ s.read_buffer_.drop 4).length = s.read_buffer_.length := by
    simp [hlen]; omega
  by_cases hb : (data.getD 0 0 ||| data.getD 1 0 <<< 8 ||| data.getD 2 0 <<< 16 |||
      data.getD 3 0 <<< 24) % 2 ^ 32 > s.read_buffer_.length
  · rw [if_pos hb]
    refine ⟨rfl, rfl, ?_, rfl⟩
    simp only [List.length_append, List.length_replicate, hl, sizeOf4]
    omega
  · rw [if_neg hb]
    refine ⟨rfl, rfl, ?_, rfl⟩
    simp only [hl, sizeOf4]
    omega

theorem new_read_buffer_length (y l n : Nat) : (Session.new y l n).read_buffer_.length = 8192 :=
  List.length_replicate 8192 0

theorem new_read_buffer_ge (y l n : Nat) : 4 ≤ (Session.new y l n).read_buffer_.length := by
  rw [new_read_buffer_length]; omega

theorem chunk_writeAt_same (v data : Bytes) (off : Nat) (h : off + data.length ≤ v.length) :
    ((writeAt v off data).drop off).take data.length = data := by
  have h1 : (v.take off).length = off := by rw [List.length_take]; omega
  unfold writeAt
  rw [List.append_assoc, List.drop_left' h1, List.take_left' rfl]

theorem take_writeAt_before (v data : Bytes) (off n : Nat) (hn : n ≤ off) (h : off ≤ v.length) :
    (writeAt v off data).take n = v.take n := by
  have h1 : (v.take off).length = off := by rw [List.length_take]; omega
  unfold writeAt
  rw [List.append_assoc, List.take_append_of_le_length (by omega), List.take_take,
    Nat.min_eq_left hn]

theorem chunk_eq_drop_take (v : Bytes) (a k : Nat) :
    (v.drop a).take k = (v.take (a + k)).drop a := by
  rw [List.drop_take]
  congr 1
  omega

theorem chunk_writeAt_before (v data : Bytes) (off a k : Nat) (hn : a + k ≤ off)
    (h : off ≤ v.length) :
    ((writeAt v off data).drop a).take k = (v.drop a).take k := by
  rw [chunk_eq_drop_take, take_writeAt_before v data off (a + k) hn h, ← chunk_eq_drop_take]

theorem length_bn_write_be (x : Nat) : (bn_write_be x).length = 32 := by
  simp [bn_write_be]

theorem length_generatePointFromScalar (c : Curve) (scalar : Bytes) :
    (CryptoOperations.generatePointFromScalar c scalar).2.length = 65 := by
  simp [CryptoOperations.generatePointFromScalar, length_bn_write_be]

theorem generateScalar_some (c : Curve) :
    ∀ fuel (rng : Rng) (r : Bytes × Rng), SecureRandom.generateScalar c fuel rng = some r →
      r.1.length = 32 ∧ r.2.word = rng.word ∧ r.2.buffer = rng.buffer ∧
      r.2.wordsDrawn = rng.wordsDrawn := by
  intro fuel
  induction fuel with
  | zero => intro rng r h; simp [SecureRandom.generateScalar] at h
  | succ fuel ih =>
    intro rng r h
    rw [SecureRandom.generateScalar] at h
    split at h
    · simp only [Option.some.injEq] at h
      subst h
      simp [random_buffer]
    · have := ih _ r h
      simpa [random_buffer] using this

theorem generateScalar_isSome_aux (c : Curve) (buffer : Nat → Nat → Nat) :
    ∀ k fuel (rng : Rng), rng.buffer = buffer → k < fuel →
      rng.accepts c (rng.buffersDrawn + k) →
      (SecureRandom.generateScalar c fuel rng).isSome = true := by
  intro k
  induction k with
  | zero =>
    intro fuel rng hb hk ha
    obtain ⟨f, rfl⟩ : ∃ f, fuel = f + 1 := ⟨fuel - 1, by omega⟩
    rw [SecureRandom.generateScalar]
    have ha2 : bn_read_be (random_buffer rng 32).1 ≠ 0 ∧
        bn_read_be (random_buffer rng 32).1 < c.order := by
      simpa [Rng.accepts, random_buffer] using ha
    simp only [ha2, ne_eq, not_false_eq_true, and_self, if_true, Option.isSome_some]
  | succ k ih =>
    intro fuel rng hb hk ha
    obtain ⟨f, rfl⟩ : ∃ f, fuel = f + 1 := ⟨fuel - 1, by omega⟩
    rw [SecureRandom.generateScalar]
    split
    · rfl
    · apply ih f _ (by simpa [random_buffer] using hb) (by omega)
      have : (random_buffer rng 32).2.buffersDrawn + k = rng.buffersDrawn + (k + 1) := by
        simp [random_buffer]; omega
      rw [this]
      simpa [Rng.accepts, random_buffer] using ha

theorem generateScalar_isSome (c : Curve) (fuel : Nat) (rng0 rng : Rng)
    (hp : rng0.productive c fuel) (hb : rng.buffer = rng0.buffer) :
    (SecureRandom.generateScalar c fuel rng).isSome = true := by
  obtain ⟨k, hk, ha⟩ := hp rng.buffersDrawn
  apply generateScalar_isSome_aux c rng.buffer k fuel rng rfl hk
  simpa [Rng.accepts, hb] using ha

theorem OT_new_some (c : Curve) (fuel : Nat) (rng : Rng) (r : ObliviousTransferProtocol × Rng)
    (h : ObliviousTransferProtocol.new c fuel rng = some r) :
    r.2.word = rng.word ∧ r.2.buffer = rng.buffer ∧ r.2.wordsDrawn = rng.wordsDrawn := by
  unfold ObliviousTransferProtocol.new at h
  cases hs : SecureRandom.generateScalar c fuel rng with
  | none => simp [hs] at h
  | some v =>
    have := generateScalar_some c fuel rng v hs
    simp only [hs, Option.some.injEq] at h
    subst h
    exact ⟨this.2.1, this.2.2.1, this.2.2.2⟩

theorem generatePointB_spec (c : Curve) (fuel : Nat) (self : CorrelatedOTProtocol) (rng : Rng)
    (index : Nat) (out : Bytes) (off : Nat) (hi : index < 32)
    (r : Bool × Bytes × CorrelatedOTProtocol × Rng)
    (h : self.generatePointB c fuel rng index out off = some r) :
    ∃ priv rng1, SecureRandom.generateScalar c fuel rng = some (priv, rng1) ∧
      r = (true, writeAt out off (CryptoOperations.generatePointFromScalar c priv).2,
        { self with stored_scalars := writeAt self.stored_scalars (index * 32) priv }, rng1) := by
  have hlt : ¬ index ≥ BIT_LENGTH := by simp [BIT_LENGTH]; omega
  simp only [CorrelatedOTProtocol.generatePointB, hlt, if_false,
    CryptoOperations.generateECDHKeyPair] at h
  cases hs : SecureRandom.generateScalar c fuel rng with
  | none => simp [hs] at h
  | some w =>
    obtain ⟨priv, rng1⟩ := w
    simp only [hs, Option.some.injEq] at h
    exact ⟨priv, rng1, rfl, h.symm⟩

theorem initializeCOT_loop_spec (c : Curve) (fuel : Nat) :
    ∀ n i (self : CorrelatedOTProtocol) (rng : Rng) (setup : COTSetup)
      (r : COTSetup × CorrelatedOTProtocol × Rng), i + n ≤ 32 →
      setup.points_B.length = 2080 → self.stored_scalars.length = 1024 →
      CorrelatedOTProtocol.initializeCOT_loop c fuel n i self rng setup = some r →
      r.1.points_B.length = 2080 ∧ r.2.1.stored_scalars.length = 1024 ∧
      r.2.2.buffer = rng.buffer ∧ r.2.2.word = rng.word ∧ r.2.2.wordsDrawn = rng.wordsDrawn ∧
      r.1.correlation_x = setup.correlation_x ∧ r.2.1.correlation_x = self.correlation_x ∧
      (∀ j, j < i →
        (r.1.points_B.drop (j * 65)).take 65 = (setup.points_B.drop (j * 65)).take 65 ∧
        (r.2.1.stored_scalars.drop (j * 32)).take 32
          = (self.stored_scalars.drop (j * 32)).take 32) ∧
      (∀ j, i ≤ j → j < i + n →
        (r.1.points_B.drop (j * 65)).take 65
          = (CryptoOperations.generatePointFromScalar c
              ((r.2.1.stored_scalars.drop (j * 32)).take 32)).2) := by
  intro n
  induction n with
  | zero =>
    intro i self rng setup r _ hp hsc h
    simp only [CorrelatedOTProtocol.initializeCOT_loop, Option.some.injEq] at h
    subst h
    refine ⟨hp, hsc, rfl, rfl, rfl, rfl, rfl, fun j _ => ⟨rfl, rfl⟩, fun j h1 h2 => ?_⟩
    omega
  | succ n ih =>
    intro i self rng setup r hin hp hsc h
    rw [CorrelatedOTProtocol.initializeCOT_loop] at h
    cases ho : ObliviousTransferProtocol.new c fuel rng with
    | none => simp [ho] at h
    | some v =>
      obtain ⟨ot, rng1⟩ := v
      have hot := OT_new_some c fuel rng _ ho
      simp only [ho] at h
      cases hg : CorrelatedOTProtocol.generatePointB c fuel
          { self with ot_instances := self.ot_instances ++ [ot] } rng1 i setup.points_B
          (i * 65) with
      | none => simp [hg] at h
      | some w =>
        obtain ⟨priv, rng2, hgs, hw⟩ := generatePointB_spec c fuel _ rng1 i _ _ (by omega) w hg
        have hpriv := generateScalar_some c fuel rng1 _ hgs
        subst hw
        simp only [hg, if_true] at h
        have hP := length_generatePointFromScalar c priv
        have hp2 : (writeAt setup.points_B (i * 65)
            (CryptoOperations.generatePointFromScalar c priv).2).length = 2080 := by
          rw [length_writeAt _ _ _ (by rw [hP, hp]; omega), hp]
        have hsc2 : (writeAt self.stored_scalars (i * 32) priv).length = 1024 := by
          rw [length_writeAt _ _ _ (by rw [hpriv.1, hsc]; omega), hsc]
        have := ih (i + 1) _ rng2 _ r (by omega) hp2 hsc2 h
        obtain ⟨r1, r2, r3, r4, r5, r6, r7, r8, r9⟩ := this
        simp only at r3 r4 r5 r6 r7 r8
        refine ⟨r1, r2, ?_, ?_, ?_, r6, r7, ?_, ?_⟩
        · rw [r3, hpriv.2.2.1, hot.2.1]
        · rw [r4, hpriv.2.1, hot.1]
        · rw [r5, hpriv.2.2.2, hot.2.2]
        · intro j hj
          have h8 := r8 j (by omega)
          rw [h8.1, h8.2]
          exact ⟨chunk_writeAt_before _ _ _ _ _ (by omega) (by rw [hp]; omega),
            chunk_writeAt_before _ _ _ _ _ (by omega) (by rw [hsc]; omega)⟩
        · intro j h1 h2
          by_cases hji : j = i
          · subst hji
            have h8 := r8 j (by omega)
            rw [h8.1, h8.2]
            have e1 := chunk_writeAt_same setup.points_B
              (CryptoOperations.generatePointFromScalar c priv).2 (j * 65)
              (by rw [hP, hp]; omega)
            have e2 := chunk_writeAt_same self.stored_scalars priv (j * 32)
              (by rw [hpriv.1, hsc]; omega)
            rw [hP] at e1
            rw [hpriv.1] at e2
            rw [e1, e2]
          · exact r9 j (by omega) (by omega)

theorem initializeCOT_loop_isSome (c : Curve) (fuel : Nat) (rng0 : Rng)
    (hp : rng0.productive c fuel) :
    ∀ n i (self : CorrelatedOTProtocol) (rng : Rng) (setup : COTSetup),
      rng.buffer = rng0.buffer →
      (CorrelatedOTProtocol.initializeCOT_loop c fuel n i self rng setup).isSome = true := by
  intro n
  induction n with
  | zero => intro i self rng setup _; rfl
  | succ n ih =>
    intro i self rng setup hb
    rw [CorrelatedOTProtocol.initializeCOT_loop]
    have h1 := generateScalar_isSome c fuel rng0 rng hp hb
    cases hs : SecureRandom.generateScalar c fuel rng with
    | none => simp [hs] at h1
    | some v =>
      obtain ⟨b, rng1⟩ := v
      have hb1 := (generateScalar_some c fuel rng _ hs).2.2.1
      simp only [ObliviousTransferProtocol.new, hs]
      have h2 := generateScalar_isSome c fuel rng0 rng1 hp (by rw [hb1, hb])
      cases hs2 : SecureRandom.generateScalar c fuel rng1 with
      | none => simp [hs2] at h2
      | some v2 =>
        obtain ⟨priv, rng2⟩ := v2
        have hb2 := (generateScalar_some c fuel rng1 _ hs2).2.2.1
        by_cases hi : i ≥ BIT_LENGTH
        · simp [CorrelatedOTProtocol.generatePointB, hi]
        · simp only [CorrelatedOTProtocol.generatePointB, hi, if_false,
            CryptoOperations.generateECDHKeyPair, hs2,
            CryptoOperations.generatePointFromScalar, if_true]
          exact ih _ _ _ _ (by rw [hb2, hb1, hb])

theorem splitIntoByteVectors_loop_exact (flat : Bytes) (k : Nat) (hk : 0 < k) :
    ∀ fuel m i (result : List Bytes), i + m * k = flat.length → m ≤ fuel →
      MTAProtocol.splitIntoByteVectors_loop flat k fuel i result
        = some (result ++ (List.range m).map (fun j => (flat.drop (i + j * k)).take k)) := by
  intro fuel
  induction fuel with
  | zero =>
    intro m i result h hm
    have hm0 : m = 0 := by omega
    subst hm0
    have hi : ¬ i < flat.length := by omega
    simp [MTAProtocol.splitIntoByteVectors_loop, hi]
  | succ fuel ih =>
    intro m i result h hm
    rw [MTAProtocol.splitIntoByteVectors_loop]
    cases m with
    | zero =>
      have hi : ¬ i < flat.length := by omega
      simp [hi]
    | succ m =>
      have hmk : (m + 1) * k = m * k + k := Nat.succ_mul m k
      have hi : i < flat.length := by omega
      rw [if_pos hi, ih m (i + k) _ (by omega) (by omega), List.range_succ_eq_map, List.map_cons,
        List.map_map, Nat.min_eq_left (by omega), ← chunk_eq_drop_take]
      have hf : (fun j => (flat.drop (i + k + j * k)).take k)
          = ((fun j => (flat.drop (i + j * k)).take k) ∘ Nat.succ) := by
        funext j
        simp only [Function.comp, Nat.succ_eq_add_one, Nat.succ_mul]
        rw [show i + k + j * k = i + (j * k + k) by omega]
      rw [hf]
      simp

theorem flatten_chunks (flat : Bytes) (k i : Nat) :
    ∀ m, ((List.range m).map (fun j => (flat.drop (i + j * k)).take k)).flatten
      = (flat.drop i).take (m * k) := by
  intro m
  induction m with
  | zero => simp
  | succ m ih =>
    rw [List.range_succ, List.map_append, List.flatten_append, ih, Nat.succ_mul, List.take_add,
      List.drop_drop]
    simp [Nat.add_comm]

theorem splitIntoByteVectors_exact (flat : Bytes) (k m : Nat) (hk : 0 < k)
    (h : flat.length = m * k) :
    MTAProtocol.splitIntoByteVectors (flat.length + 1) flat k
      = some ((List.range m).map (fun j => (flat.drop (k * j)).take k)) := by
  have hm : m ≤ flat.length + 1 := by
    rw [h]
    calc m = m * 1 := (Nat.mul_one m).symm
      _ ≤ m * k := Nat.mul_le_mul_left m hk
      _ ≤ m * k + 1 := Nat.le_succ _
  rw [MTAProtocol.splitIntoByteVectors,
    splitIntoByteVectors_loop_exact flat k hk _ m 0 [] (by omega) hm]
  simp [Nat.mul_comm]

theorem exRng_accepts (n : Nat) : exRng.accepts exCurve n := by
  have h : bn_read_be ((List.range 32).map (fun j => exRng.buffer n j % 256)) = n % 255 + 1 := by
    simp only [bn_read_be, exRng]
    simp [List.range_succ, List.foldl]
    omega
  unfold Rng.accepts
  rw [h]
  constructor
  · omega
  · simp only [exCurve]
    omega

theorem exRng_productive : exRng.productive exCurve 1 :=
  fun n => ⟨0, by omega, exRng_accepts (n + 0)⟩

theorem initializeCOT_loop_points_length (c : Curve) (fuel : Nat) :
    ∀ n i (self : CorrelatedOTProtocol) (rng : Rng) (setup : COTSetup)
      (r : COTSetup × CorrelatedOTProtocol × Rng), i + n ≤ 32 →
      setup.points_B.length = 2080 →
      CorrelatedOTProtocol.initializeCOT_loop c fuel n i self rng setup = some r →
      r.1.points_B.length = 2080 := by
  intro n
  induction n with
  | zero =>
    intro i self rng setup r _ hp h
    simp only [CorrelatedOTProtocol.initializeCOT_loop, Option.some.injEq] at h
    subst h
    exact hp
  | succ n ih =>
    intro i self rng setup r hin hp h
    rw [CorrelatedOTProtocol.initializeCOT_loop] at h
    cases ho : ObliviousTransferProtocol.new c fuel rng with
    | none => simp [ho] at h
    | some v =>
      obtain ⟨ot, rng1⟩ := v
      simp only [ho] at h
      cases hg : CorrelatedOTProtocol.generatePointB c fuel
          { self with ot_instances := self.ot_instances ++ [ot] } rng1 i setup.points_B
          (i * 65) with
      | none => simp [hg] at h
      | some w =>
        obtain ⟨priv, rng2, hgs, hw⟩ := generatePointB_spec c fuel _ rng1 i _ _ (by omega) w hg
        subst hw
        simp only [hg, if_true] at h
        have hP := length_generatePointFromScalar c priv
        have hp2 : (writeAt setup.points_B (i * 65)
            (CryptoOperations.generatePointFromScalar c priv).2).length = 2080 := by
          rw [length_writeAt _ _ _ (by rw [hP, hp]; omega), hp]
        exact ih (i + 1) _ rng2 _ r (by omega) hp2 h

theorem initializeCOT_points_length (c : Curve) (fuel : Nat) (self : CorrelatedOTProtocol)
    (rng : Rng) (alice_x : Nat) (r : COTSetup × CorrelatedOTProtocol × Rng)
    (h : self.initializeCOT c fuel rng alice_x = some r) : r.1.points_B.length = 2080 :=
  initializeCOT_loop_points_length c fuel BIT_LENGTH 0 _ rng _ r (by simp [BIT_LENGTH])
    (List.length_replicate _ _) h

theorem initializeCOT_isSome (c : Curve) (fuel : Nat) (self : CorrelatedOTProtocol) (rng : Rng)
    (alice_x : Nat) (hp : rng.productive c fuel) :
    (self.initializeCOT c fuel rng alice_x).isSome = true :=
  initializeCOT_loop_isSome c fuel rng hp BIT_LENGTH 0 _ rng _ rfl

theorem initializeAsBob_some (c : Curve) (fuel : Nat) (mta : MTAProtocol) (rng : Rng)
    (delta : Nat) (r : BobSetup × MTAProtocol × Rng)
    (h : mta.initializeAsBob c fuel rng delta = some r) :
    ∃ cr, mta.cot_protocol.initializeCOT c fuel rng delta = some cr ∧
      r = ({ points_B := cr.1.points_B, correlation_delta := delta, success := true,
             num_ot_instances := 32, public_key := [] },
           { mta with cot_protocol := cr.2.1 }, cr.2.2) := by
  unfold MTAProtocol.initializeAsBob at h
  cases hc : mta.cot_protocol.initializeCOT c fuel rng delta with
  | none => simp [hc] at h
  | some cr =>
    have hs := (initializeCOT_some c fuel _ rng delta cr hc).1
    obtain ⟨cs, cot, rng1⟩ := cr
    simp only at hs
    simp only [hc, hs, Bool.not_true, Bool.false_eq_true, if_false, Option.some.injEq] at h
    exact ⟨_, rfl, h.symm⟩

theorem initializeAsBob_isSome (c : Curve) (fuel : Nat) (mta : MTAProtocol) (rng : Rng)
    (delta : Nat) (hp : rng.productive c fuel) :
    (mta.initializeAsBob c fuel rng delta).isSome = true := by
  have h := initializeCOT_isSome c fuel mta.cot_protocol rng delta hp
  unfold MTAProtocol.initializeAsBob
  cases hc : mta.cot_protocol.initializeCOT c fuel rng delta with
  | none => simp [hc] at h
  | some cr =>
    obtain ⟨cs, cot, rng1⟩ := cr
    simp only
    split <;> rfl

theorem bobSetupRecord_ot_messages (s : Session) (h : s.bob_setup_.points_B.length = 2080) :
    s.bobSetupRecord.ot_messages
      = (List.range 32).map (fun i => (s.bob_setup_.points_B.drop (65 * i)).take 65) := by
  simp only [Session.bobSetupRecord]
  rw [splitIntoByteVectors_exact s.bob_setup_.points_B 65 32 (by omega) (by rw [h])]
  rfl

theorem range65_bytes : (List.range 65).map (fun i => i % 256) = List.range 65 := by decide

theorem send_bob_setup_eq (codec : Codec) (s : Session) :
    Session.send_bob_setup codec s
      = if (MTAProtobufHandler.serializeBobSetup codec s.bobSetupRecord).isEmpty then (s, none)
        else
          ({ s with
              state_ := ProtocolState.SENDING_BOB_SETUP,
              write_buffer_ := (s.send_message_with_size
                (MTAProtobufHandler.serializeBobSetup codec s.bobSetupRecord)).2 },
            some (s.send_message_with_size
              (MTAProtobufHandler.serializeBobSetup codec s.bobSetupRecord)).2) := by
  simp [Session.send_bob_setup, Session.send_message_with_size]

theorem process_correlation_delta_some (c : Curve) (codec : Codec) (fuel : Nat) (s : Session)
    (mta : MTAProtocol) (rng : Rng) (data : Bytes) (delta : Nat)
    (hdec : codec.decodeCorrelationDelta data = some delta) (o : Outcome)
    (h : Session.process_correlation_delta c codec fuel s mta rng data = some o) :
    ∃ cr, mta.cot_protocol.initializeCOT c fuel rng (delta % 2 ^ 32) = some cr ∧
      o.mta = { mta with cot_protocol := cr.2.1 } ∧ o.rng = cr.2.2 ∧
      o.session.bob_setup_
        = { points_B := cr.1.points_B, correlation_delta := delta % 2 ^ 32, success := true,
            num_ot_instances := 32, public_key := List.range 65 } ∧
      o.session.correlation_delta_ = delta % 2 ^ 32 ∧
      o.session.read_buffer_ = s.read_buffer_ ∧
      o.session.last_message_size_ = s.last_message_size_ ∧
      o.session.bob_y_share_ = s.bob_y_share_ ∧
      (o.written = none ∨ o.session.state_ = ProtocolState.SENDING_BOB_SETUP) ∧
      o.written
        = (if (MTAProtobufHandler.serializeBobSetup codec o.session.bobSetupRecord).isEmpty
            then none
          else some (s.send_message_with_size
            (MTAProtobufHandler.serializeBobSetup codec o.session.bobSetupRecord)).2) := by
  unfold Session.process_correlation_delta at h
  simp only [hdec] at h
  cases hi : mta.initializeAsBob c fuel rng (delta % 2 ^ 32) with
  | none =>
    have hi2 : mta.initializeAsBob c fuel rng (delta % 4294967296) = none := hi
    simp [hi, hi2] at h
  | some r =>
    obtain ⟨cr, hcr, hr⟩ := initializeAsBob_some c fuel mta rng _ r hi
    subst hr
    have hi2 : mta.initializeAsBob c fuel rng (delta % 4294967296) = _ := hi
    simp only [hi, hi2, Bool.not_true, Bool.false_eq_true, if_false, Option.some.injEq,
      range65_bytes] at h
    subst h
    refine ⟨cr, hcr, rfl, rfl, ?_⟩
    rw [send_bob_setup_eq]
    by_cases he : (MTAProtobufHandler.serializeBobSetup codec
        (Session.bobSetupRecord
          { s with
            correlation_delta_ := delta % 2 ^ 32,
            bob_setup_ := { points_B := cr.1.points_B, correlation_delta := delta % 2 ^ 32,
                            success := true, num_ot_instances := 32,
                            public_key := List.range 65 },
            state_ := ProtocolState.SENDING_BOB_SETUP })).isEmpty = true
    · rw [if_pos he]
      refine ⟨rfl, rfl, rfl, rfl, rfl, Or.inl rfl, ?_⟩
      exact (if_pos he).symm
    · rw [if_neg he]
      refine ⟨rfl, rfl, rfl, rfl, rfl, Or.inr rfl, ?_⟩
      exact (if_neg he).symm


theorem process_correlation_delta_isSome (c : Curve) (codec : Codec) (fuel : Nat) (s : Session)
    (mta : MTAProtocol) (rng : Rng) (data : Bytes) (hp : rng.productive c fuel) :
    (Session.process_correlation_delta c codec fuel s mta rng data).isSome = true := by
  cases hd : codec.decodeCorrelationDelta data with
  | none => simp [Session.process_correlation_delta, hd]
  | some delta =>
    have h := initializeAsBob_isSome c fuel mta rng (delta % 2 ^ 32) hp
    cases hi : mta.initializeAsBob c fuel rng (delta % 2 ^ 32) with
    | none =>
      rw [hi] at h
      exact absurd h (by simp)
    | some r =>
      obtain ⟨setup, mta1, rng1⟩ := r
      unfold Session.process_correlation_delta
      rw [hd]
      simp only
      rw [hi]
      simp only
      split <;> rfl

theorem length_new_stored_scalars : CorrelatedOTProtocol.new.stored_scalars.length = 1024 :=
  List.length_replicate _ _

theorem range65_record :
    (if (!(List.range 65).isEmpty) = true then
        (List.range 65).take (min 256 (List.range 65).length)
      else []) = List.range 65 := by decide

theorem on_size_read_state (s : Session) (ec : Bool) (data : Bytes) :
    (s.on_size_read ec data).1.state_ = s.state_ := by
  unfold Session.on_size_read
  simp only
  split
  · split <;> rfl
  · rfl

theorem on_body_read_state (s : Session) (n : Nat) (ec : Bool) (data : Bytes) :
    (s.on_body_read n ec data).1.state_ = s.state_ := rfl

theorem send_bob_messages_state (codec : Codec) (s : Session) :
    (Session.send_bob_messages codec s).1.state_ = s.state_ := by
  unfold Session.send_bob_messages
  split
  · rfl
  · simp only
    split <;> rfl

theorem process_alice_messages_cases (codec : Codec) (u : Undef) (s : Session)
    (mta : MTAProtocol) (rng : Rng) (data : Bytes) :
    ((Session.process_alice_messages codec u s mta rng data).written = none ∧
      (Session.process_alice_messages codec u s mta rng data).session.state_ = s.state_ ∧
      ((MTAProtocol.deserializeAliceMessages u data AliceMessages.new).1 = false ∨
        ((mta.prepareBobMessages rng s.bob_y_share_).2.1.executeBobMTA u s.bob_y_share_
          (MTAProtocol.deserializeAliceMessages u data AliceMessages.new).2).success = false)) ∨
    ((Session.process_alice_messages codec u s mta rng data).session.state_
        = ProtocolState.SENDING_BOB_MESSAGES ∧
      (MTAProtocol.deserializeAliceMessages u data AliceMessages.new).1 = true ∧
      ((mta.prepareBobMessages rng s.bob_y_share_).2.1.executeBobMTA u s.bob_y_share_
        (MTAProtocol.deserializeAliceMessages u data AliceMessages.new).2).success = true) := by
  by_cases hd : (MTAProtocol.deserializeAliceMessages u data AliceMessages.new).1 = true
  · by_cases hs : ((mta.prepareBobMessages rng s.bob_y_share_).2.1.executeBobMTA u s.bob_y_share_
        (MTAProtocol.deserializeAliceMessages u data AliceMessages.new).2).success = true
    · right
      refine ⟨?_, hd, hs⟩
      have hp : (mta.prepareBobMessages rng s.bob_y_share_).1.success = true := by
        rw [prepareBobMessages_eq]
      unfold Session.process_alice_messages
      simp only [hd, hs, hp, Bool.not_true, Bool.false_eq_true, if_false]
      rw [send_bob_messages_state]
    · left
      have hp : (mta.prepareBobMessages rng s.bob_y_share_).1.success = true := by
        rw [prepareBobMessages_eq]
      have hs2 : ((mta.prepareBobMessages rng s.bob_y_share_).2.1.executeBobMTA u s.bob_y_share_
        (MTAProtocol.deserializeAliceMessages u data AliceMessages.new).2).success = false := by
        simpa using hs
      unfold Session.process_alice_messages
      simp only [hd, hs2, hp, Bool.not_true, Bool.false_eq_true, if_false, Bool.not_false, if_true]
      exact ⟨True.intro, True.intro, Or.inr True.intro⟩
  · left
    have hd2 : (MTAProtocol.deserializeAliceMessages u data AliceMessages.new).1 = false := by
      simpa using hd
    unfold Session.process_alice_messages
    simp only [hd2, Bool.not_false, if_true]
    exact ⟨True.intro, True.intro, Or.inl True.intro⟩

theorem process_correlation_delta_cases (c : Curve) (codec : Codec) (fuel : Nat) (s : Session)
    (mta : MTAProtocol) (rng : Rng) (data : Bytes) (o : Outcome)
    (h : Session.process_correlation_delta c codec fuel s mta rng data = some o) :
    (codec.decodeCorrelationDelta data = none ∧
      o = ({ session := s, mta := mta, rng := rng, written := none } : Outcome)) ∨
    ((codec.decodeCorrelationDelta data).isSome = true ∧
      (o.written = none ∨ o.session.state_ = ProtocolState.SENDING_BOB_SETUP)) := by
  cases hd : codec.decodeCorrelationDelta data with
  | none =>
    left
    simp only [Session.process_correlation_delta, hd, Option.some.injEq] at h
    exact ⟨rfl, h.symm⟩
  | some delta =>
    right
    obtain ⟨cr, _, _, _, _, _, _, _, _, hw, _⟩ :=
      process_correlation_delta_some c codec fuel s mta rng data delta hd o h
    exact ⟨rfl, hw⟩

theorem phase_read (w : Conn) (tr : List Action)
    (hp : w.pending = Pending.read_size ∨ ∃ n, w.pending = Pending.read_body n) :
    w.Phase tr ↔
      ((w.session.state_ = ProtocolState.WAITING_FOR_CORRELATION_DELTA ∧ tr = []) ∨
       (w.session.state_ = ProtocolState.WAITING_FOR_ALICE_MESSAGES ∧
          tr = Action.canonical.take 3)) := by
  unfold Conn.Phase
  rcases hp with hp | ⟨n, hp⟩ <;> rw [hp]

theorem phase_write (w : Conn) (tr : List Action) (hp : w.pending = Pending.write) :
    w.Phase tr ↔
      ((w.session.state_ = ProtocolState.SENDING_BOB_SETUP ∧ tr = Action.canonical.take 2) ∨
       (w.session.state_ = ProtocolState.SENDING_BOB_MESSAGES ∧
          tr = Action.canonical.take 6)) := by
  unfold Conn.Phase
  rw [hp]

theorem phase_idle (w : Conn) (tr : List Action) (hp : w.pending = Pending.idle) :
    w.Phase tr ↔ tr <+: Action.canonical := by
  unfold Conn.Phase
  rw [hp]

theorem phase_prefix (w : Conn) (tr : List Action) (h : w.Phase tr) :
    tr <+: Action.canonical := by
  unfold Conn.Phase at h
  split at h
  · exact h
  · rcases h with ⟨_, rfl⟩ | ⟨_, rfl⟩ <;> decide
  · rcases h with ⟨_, rfl⟩ | ⟨_, rfl⟩ <;> decide

theorem step_size_read (c : Curve) (codec : Codec) (fuel : Nat) (u : Undef) (w : Conn)
    (tr : List Action) (ec : Bool) (data : Bytes) (w1 : Conn) (a : List Action)
    (hph : w.Phase tr)
    (hs : Conn.step c codec fuel u w (Event.size_read ec data) = some (w1, a)) :
    w1.Phase (tr ++ a) := by
  unfold Conn.step at hs
  cases hp : w.pending with
  | read_size =>
    rw [hp] at hs
    simp only [Option.some.injEq, Prod.mk.injEq] at hs
    obtain ⟨rfl, rfl⟩ := hs
    rw [List.append_nil]
    have hph2 := (phase_read w tr (Or.inl hp)).1 hph
    cases hr : (w.session.on_size_read ec data).2 with
    | none =>
      rw [phase_idle _ _ (by simp only [hr])]
      rcases hph2 with ⟨_, rfl⟩ | ⟨_, rfl⟩ <;> decide
    | some n =>
      rw [phase_read _ _ (Or.inr ⟨n, by simp only [hr]⟩)]
      simp only [on_size_read_state]
      exact hph2
  | idle => rw [hp] at hs; simp at hs
  | read_body n => rw [hp] at hs; simp at hs
  | write => rw [hp] at hs; simp at hs

theorem step_write_done (c : Curve) (codec : Codec) (fuel : Nat) (u : Undef) (w : Conn)
    (tr : List Action) (ec : Bool) (w1 : Conn) (a : List Action)
    (hph : w.Phase tr)
    (hs : Conn.step c codec fuel u w (Event.write_done ec) = some (w1, a)) :
    w1.Phase (tr ++ a) := by
  unfold Conn.step at hs
  cases hp : w.pending with
  | write =>
    rw [hp] at hs
    simp only [Option.some.injEq, Prod.mk.injEq] at hs
    obtain ⟨rfl, rfl⟩ := hs
    have hph2 := (phase_write w tr hp).1 hph
    cases ec with
    | true =>
      rw [phase_idle _ _ (by simp [Session.on_write_done])]
      simp only [if_true, List.append_nil]
      rcases hph2 with ⟨_, rfl⟩ | ⟨_, rfl⟩ <;> decide
    | false =>
      rcases hph2 with ⟨hst, rfl⟩ | ⟨hst, rfl⟩
      · rw [phase_read _ _ (Or.inl (by simp [Session.on_write_done, hst]))]
        right
        simp [Session.on_write_done, hst, Action.canonical]
      · rw [phase_idle _ _ (by simp [Session.on_write_done, hst])]
        simp only [hst, Bool.false_eq_true, if_false]
        decide
  | idle => rw [hp] at hs; simp at hs
  | read_body n => rw [hp] at hs; simp at hs
  | read_size => rw [hp] at hs; simp at hs

theorem step_body_read_eq (c : Curve) (codec : Codec) (fuel : Nat) (u : Undef) (w : Conn)
    (n : Nat) (ec : Bool) (data : Bytes) (hp : w.pending = Pending.read_body n) :
    Conn.step c codec fuel u w (Event.body_read ec data)
      = if (w.session.on_body_read n ec data).2 = true then
          match Session.process_received_message c codec fuel u
              (w.session.on_body_read n ec data).1 w.mta w.rng with
          | none => none
          | some o =>
            some ({ session := o.session, mta := o.mta, rng := o.rng,
                    pending := if o.written.isSome then Pending.write else Pending.idle },
                  Session.milestones codec (w.session.on_body_read n ec data).1 o)
        else some ({ w with session := (w.session.on_body_read n ec data).1,
                            pending := Pending.idle }, []) := by
  unfold Conn.step
  rw [hp]

theorem processed_phase (c : Curve) (codec : Codec) (fuel : Nat) (u : Undef) (s : Session)
    (mta : MTAProtocol) (rng : Rng) (tr : List Action) (o : Outcome)
    (hph : (s.state_ = ProtocolState.WAITING_FOR_CORRELATION_DELTA ∧ tr = []) ∨
      (s.state_ = ProtocolState.WAITING_FOR_ALICE_MESSAGES ∧ tr = Action.canonical.take 3))
    (ho : Session.process_received_message c codec fuel u s mta rng = some o) :
    Conn.Phase { session := o.session, mta := o.mta, rng := o.rng,
                 pending := if o.written.isSome then Pending.write else Pending.idle }
      (tr ++ Session.milestones codec s o) := by
  unfold Session.process_received_message at ho
  unfold Session.milestones
  rcases hph with ⟨hst, rfl⟩ | ⟨hst, rfl⟩
  · rw [hst] at ho ⊢
    simp only at ho ⊢
    rcases process_correlation_delta_cases c codec fuel s mta rng _ o ho with ⟨hd, rfl⟩ | ⟨hd, hw⟩
    · rw [phase_idle _ _ (by simp)]
      simp [hd]
    · cases hwr : o.written with
      | none =>
        rw [phase_idle _ _ (by simp)]
        simp only [hd, if_true, Option.isSome_none, Bool.false_eq_true, if_false]
        decide
      | some f =>
        have hs2 : o.session.state_ = ProtocolState.SENDING_BOB_SETUP := by
          rcases hw with hw | hw
          · rw [hwr] at hw; exact absurd hw (by simp)
          · exact hw
        rw [phase_write _ _ (by simp)]
        left
        simp only [hd, if_true, Option.isSome_some]
        exact ⟨hs2, by decide⟩
  · rw [hst] at ho ⊢
    simp only [Option.some.injEq] at ho ⊢
    subst ho
    rcases process_alice_messages_cases codec u s mta rng
        (s.read_buffer_.take s.last_message_size_) with ⟨hw, hs2, _⟩ | ⟨hs2, _, _⟩
    · rw [phase_idle _ _ (by simp [hw])]
      have hne : ¬ (Session.process_alice_messages codec u s mta rng
          (s.read_buffer_.take s.last_message_size_)).session.state_
            = ProtocolState.SENDING_BOB_MESSAGES := by
        rw [hs2, hst]; decide
      simp only [hne, hw, if_false, Option.isSome_none, Bool.false_eq_true]
      decide
    · cases hwr : (Session.process_alice_messages codec u s mta rng
          (s.read_buffer_.take s.last_message_size_)).written with
      | none =>
        rw [phase_idle _ _ (by simp [hwr])]
        simp only [hs2, if_true, Option.isSome_none, Bool.false_eq_true, if_false]
        decide
      | some f =>
        rw [phase_write _ _ (by simp [hwr])]
        right
        simp only [hs2, if_true, Option.isSome_some]
        exact ⟨True.intro, by decide⟩

theorem step_body_read (c : Curve) (codec : Codec) (fuel : Nat) (u : Undef) (w : Conn)
    (tr : List Action) (ec : Bool) (data : Bytes) (w1 : Conn) (a : List Action)
    (hph : w.Phase tr)
    (hs : Conn.step c codec fuel u w (Event.body_read ec data) = some (w1, a)) :
    w1.Phase (tr ++ a) := by
  cases hp : w.pending with
  | read_body n =>
    rw [step_body_read_eq c codec fuel u w n ec data hp] at hs
    have hph2 := (phase_read w tr (Or.inr ⟨n, hp⟩)).1 hph
    by_cases hr : (w.session.on_body_read n ec data).2 = true
    · rw [if_pos hr] at hs
      cases ho : Session.process_received_message c codec fuel u
          (w.session.on_body_read n ec data).1 w.mta w.rng with
      | none => rw [ho] at hs; simp at hs
      | some o =>
        rw [ho] at hs
        simp only [Option.some.injEq, Prod.mk.injEq] at hs
        obtain ⟨rfl, rfl⟩ := hs
        exact processed_phase c codec fuel u _ w.mta w.rng tr o
          (by rw [on_body_read_state]; exact hph2) ho
    · rw [if_neg hr] at hs
      simp only [Option.some.injEq, Prod.mk.injEq] at hs
      obtain ⟨rfl, rfl⟩ := hs
      rw [phase_idle _ _ rfl, List.append_nil]
      rcases hph2 with ⟨_, rfl⟩ | ⟨_, rfl⟩ <;> decide
  | idle => unfold Conn.step at hs; rw [hp] at hs; simp at hs
  | read_size => unfold Conn.step at hs; rw [hp] at hs; simp at hs
  | write => unfold Conn.step at hs; rw [hp] at hs; simp at hs

theorem step_phase (c : Curve) (codec : Codec) (fuel : Nat) (u : Undef) (w : Conn)
    (tr : List Action) (e : Event) (w1 : Conn) (a : List Action) (hph : w.Phase tr)
    (hs : Conn.step c codec fuel u w e = some (w1, a)) : w1.Phase (tr ++ a) := by
  cases e with
  | size_read ec data => exact step_size_read c codec fuel u w tr ec data w1 a hph hs
  | body_read ec data => exact step_body_read c codec fuel u w tr ec data w1 a hph hs
  | write_done ec => exact step_write_done c codec fuel u w tr ec w1 a hph hs

theorem run_phase (c : Curve) (codec : Codec) (fuel : Nat) (u : Undef) :
    ∀ (evs : List Event) (w : Conn) (tr : List Action) (w1 : Conn) (a : List Action),
      w.Phase tr → Conn.run c codec fuel u w evs = some (w1, a) → w1.Phase (tr ++ a) := by
  intro evs
  induction evs with
  | nil =>
    intro w tr w1 a hph h
    simp only [Conn.run, Option.some.injEq, Prod.mk.injEq] at h
    obtain ⟨rfl, rfl⟩ := h
    rw [List.append_nil]
    exact hph
  | cons e es ih =>
    intro w tr w1 a hph h
    rw [Conn.run] at h
    cases hs : Conn.step c codec fuel u w e with
    | none => rw [hs] at h; simp at h
    | some r =>
      obtain ⟨w2, a2⟩ := r
      rw [hs] at h
      simp only at h
      cases hr : Conn.run c codec fuel u w2 es with
      | none => rw [hr] at h; simp at h
      | some r2 =>
        obtain ⟨w3, a3⟩ := r2
        rw [hr] at h
        simp only [Option.some.injEq, Prod.mk.injEq] at h
        obtain ⟨rfl, rfl⟩ := h
        rw [← List.append_assoc]
        exact ih w2 (tr ++ a2) w3 a3 (step_phase c codec fuel u w tr e w2 a2 hph hs) hr

theorem prefix_facts :
    ∀ tr, tr ∈ Action.canonical.inits →
      Action.Before Action.delta_decoded Action.bob_setup_sent tr ∧
      Action.Before Action.bob_setup_sent Action.bob_setup_written tr ∧
      Action.Before Action.bob_setup_written Action.alice_processing tr ∧
      Action.Before Action.alice_accepted Action.bob_messages_sent tr ∧
      tr.count Action.bob_setup_sent ≤ 1 ∧ tr.count Action.bob_messages_sent ≤ 1 := by
  decide

theorem on_body_read_ok (s : Session) (n : Nat) (data : Bytes) (hd : data.length = n)
    (hb : n ≤ s.read_buffer_.length) :
    s.on_body_read n false data
      = ({ s with read_buffer_ := data ++ s.read_buffer_.drop n }, true) := by
  unfold Session.on_body_read
  simp only [transferred_eq s n data hd hb, writeAt_zero, hd, Bool.not_false, beq_self_eq_true,
    Bool.and_self]

theorem step_idle (c : Curve) (codec : Codec) (fuel : Nat) (u : Undef) (w : Conn)
    (hp : w.pending = Pending.idle) (e : Event) : Conn.step c codec fuel u w e = none := by
  unfold Conn.step
  cases e <;> simp only [hp]

theorem run_idle (c : Curve) (codec : Codec) (fuel : Nat) (u : Undef) (w : Conn)
    (hp : w.pending = Pending.idle) (e : Event) (es : List Event) :
    Conn.run c codec fuel u w (e :: es) = none := by
  rw [Conn.run, step_idle c codec fuel u w hp e]

theorem milestones_no_send (codec : Codec) (s : Session) (o : Outcome)
    (h : o.written = none) :
    Action.bob_setup_sent ∉ Session.milestones codec s o ∧
    Action.bob_messages_sent ∉ Session.milestones codec s o := by
  unfold Session.milestones
  split
  · split <;> simp [h]
  · split <;> simp [h]
  · simp

theorem exSession_read_buffer (y d : Nat) : (exSession y d).read_buffer_.length = 8192 :=
  List.length_replicate 8192 0

theorem exCodec_serializeBobSetup (r : mta_BobSetup) (h : r.public_key.length = 65) :
    (MTAProtobufHandler.serializeBobSetup exCodec r).isEmpty = false := by
  simp [MTAProtobufHandler.serializeBobSetup, exCodec, h]

theorem exStep1 :
    Conn.step exCurve exCodec 1 exUndef exConn0 (Event.size_read false [1, 0, 0, 0])
      = some ({ exConn0 with
                session := ((Session.new 11 0 32).on_size_read false [1, 0, 0, 0]).1,
                pending := Pending.read_body 1 }, []) := by
  have h := on_size_read_sizeOf4 (Session.new 11 0 32) [1, 0, 0, 0] rfl (new_read_buffer_ge 11 0 32)
  have hz : sizeOf4 [1, 0, 0, 0] = 1 := by decide
  rw [hz] at h
  simp only [Conn.step, exConn0, Conn.start, h.1]

theorem body_read_message (s : Session) (n : Nat) (data : Bytes) (hd : data.length = n)
    (hb : n ≤ s.read_buffer_.length) (hl : s.last_message_size_ = n) :
    (s.on_body_read n false data).2 = true ∧
    (s.on_body_read n false data).1.state_ = s.state_ ∧
    (s.on_body_read n false data).1.read_buffer_.take
      (s.on_body_read n false data).1.last_message_size_ = data := by
  rw [on_body_read_ok s n data hd hb]
  refine ⟨rfl, rfl, ?_⟩
  simp only [hl]
  exact List.take_left' hd

theorem exStep2_session :
    (((Session.new 11 0 32).on_size_read false [1, 0, 0, 0]).1.on_body_read 1 false [11]).2 = true ∧
    (((Session.new 11 0 32).on_size_read false [1, 0, 0, 0]).1.on_body_read 1 false
        [11]).1.state_ = ProtocolState.WAITING_FOR_CORRELATION_DELTA ∧
    ((((Session.new 11 0 32).on_size_read false [1, 0, 0, 0]).1.on_body_read 1 false
        [11]).1.read_buffer_.take
      (((Session.new 11 0 32).on_size_read false [1, 0, 0, 0]).1.on_body_read 1 false
        [11]).1.last_message_size_) = [11] := by
  have h := on_size_read_sizeOf4 (Session.new 11 0 32) [1, 0, 0, 0] rfl (new_read_buffer_ge 11 0 32)
  have hz : sizeOf4 [1, 0, 0, 0] = 1 := by decide
  rw [hz, new_read_buffer_length] at h
  have hb : 1 ≤ ((Session.new 11 0 32).on_size_read false [1, 0, 0, 0]).1.read_buffer_.length := by
    rw [h.2.2.1]; omega
  have hst : (Session.new 11 0 32).state_ = ProtocolState.WAITING_FOR_CORRELATION_DELTA := rfl
  have hm := body_read_message _ 1 [11] rfl hb h.2.1
  rw [h.2.2.2, hst] at hm
  exact hm

theorem exRun_eq :
    ∃ w, Conn.run exCurve exCodec 1 exUndef exConn0 exEvents
      = some (w, [Action.delta_decoded, Action.bob_setup_sent]) := by
  have h2 := exStep2_session
  have hsome := process_correlation_delta_isSome exCurve exCodec 1
    (((Session.new 11 0 32).on_size_read false [1, 0, 0, 0]).1.on_body_read 1 false [11]).1
    (exMta exEngine 0) exRng [11] exRng_productive
  obtain ⟨o, ho⟩ := Option.isSome_iff_exists.1 hsome
  obtain ⟨cr, _, _, _, hb, _, _, _, _, _, hw⟩ :=
    process_correlation_delta_some exCurve exCodec 1 _ (exMta exEngine 0) exRng [11] 11 rfl o ho
  have hrec : o.session.bobSetupRecord.public_key.length = 65 := by
    simp only [Session.bobSetupRecord, hb]
    rw [range65_record]
    rfl
  have hne := exCodec_serializeBobSetup _ hrec
  have hws : o.written.isSome = true := by
    rw [hw, hne]
    rfl
  have hprm : Session.process_received_message exCurve exCodec 1 exUndef
      (((Session.new 11 0 32).on_size_read false [1, 0, 0, 0]).1.on_body_read 1 false [11]).1
      (exMta exEngine 0) exRng = some o := by
    unfold Session.process_received_message
    rw [h2.2.1]
    simp only
    rw [h2.2.2]
    exact ho
  have hdec : (exCodec.decodeCorrelationDelta
      ((((Session.new 11 0 32).on_size_read false [1, 0, 0, 0]).1.on_body_read 1 false
        [11]).1.read_buffer_.take
      (((Session.new 11 0 32).on_size_read false [1, 0, 0, 0]).1.on_body_read 1 false
        [11]).1.last_message_size_)).isSome = true := by
    rw [h2.2.2]
    rfl
  have hmil : Session.milestones exCodec
      (((Session.new 11 0 32).on_size_read false [1, 0, 0, 0]).1.on_body_read 1 false [11]).1 o
      = [Action.delta_decoded, Action.bob_setup_sent] := by
    unfold Session.milestones
    rw [h2.2.1]
    simp only [hdec, hws, if_true]
    rfl
  refine ⟨{ session := o.session, mta := o.mta, rng := o.rng, pending := Pending.write }, ?_⟩
  have hstep2 : Conn.step exCurve exCodec 1 exUndef
      ({ session := ((Session.new 11 0 32).on_size_read false [1, 0, 0, 0]).1,
         mta := exMta exEngine 0, rng := exRng, pending := Pending.read_body 1 } : Conn)
      (Event.body_read false [11])
      = some ({ session := o.session, mta := o.mta, rng := o.rng, pending := Pending.write },
          [Action.delta_decoded, Action.bob_setup_sent]) := by
    rw [step_body_read_eq exCurve exCodec 1 exUndef _ 1 false [11] rfl]
    dsimp only
    rw [if_pos h2.1, hprm]
    dsimp only
    rw [hmil, hws]
    rfl
  unfold exEvents
  rw [Conn.run, exStep1]
  dsimp only
  rw [Conn.run]
  have hw1 : ({ exConn0 with
      session := ((Session.new 11 0 32).on_size_read false [1, 0, 0, 0]).1,
      pending := Pending.read_body 1 } : Conn)
      = { session := ((Session.new 11 0 32).on_size_read false [1, 0, 0, 0]).1,
          mta := exMta exEngine 0, rng := exRng, pending := Pending.read_body 1 } := rfl
  rw [hw1, hstep2]
  dsimp only
  rw [Conn.run]
  rfl

theorem exFinal_eq :
    Conn.run exCurve exCodec 1 exUndef exConn0 exEvents = some exFinal ∧
    exFinal.2 = [Action.delta_decoded, Action.bob_setup_sent] := by
  obtain ⟨w, hw⟩ := exRun_eq
  unfold exFinal
  rw [hw]
  exact ⟨rfl, rfl⟩

theorem exFailed_eq :
    Conn.step exCurve exCodec 1 exUndef exConnAlice (Event.body_read false [7]) = some exFailed ∧
    exFailed.1.pending = Pending.idle ∧ exFailed.2 = [Action.alice_processing] := by
  have hb : 1 ≤ exConnAlice.session.read_buffer_.length := by
    show 1 ≤ (exSession 11 11).read_buffer_.length
    rw [exSession_read_buffer]; omega
  have hm := body_read_message exConnAlice.session 1 [7] rfl hb rfl
  have hst : exConnAlice.session.state_ = ProtocolState.WAITING_FOR_ALICE_MESSAGES := rfl
  rw [hst] at hm
  have hd : (MTAProtocol.deserializeAliceMessages exUndef [7] AliceMessages.new).1 = false := by
    simp [MTAProtocol.deserializeAliceMessages]
  have hpa : ∀ s : Session, Session.process_alice_messages exCodec exUndef s exConnAlice.mta
      exConnAlice.rng [7]
      = { session := s, mta := exConnAlice.mta, rng := exConnAlice.rng, written := none } := by
    intro s
    unfold Session.process_alice_messages
    simp only [hd, Bool.not_false, if_true]
  have hprm : Session.process_received_message exCurve exCodec 1 exUndef
      (exConnAlice.session.on_body_read 1 false [7]).1 exConnAlice.mta exConnAlice.rng
      = some { session := (exConnAlice.session.on_body_read 1 false [7]).1,
               mta := exConnAlice.mta, rng := exConnAlice.rng, written := none } := by
    unfold Session.process_received_message
    rw [hm.2.1]
    simp only
    rw [hm.2.2, hpa]
  have hstep : Conn.step exCurve exCodec 1 exUndef exConnAlice (Event.body_read false [7])
      = some ({ session := (exConnAlice.session.on_body_read 1 false [7]).1,
                mta := exConnAlice.mta, rng := exConnAlice.rng, pending := Pending.idle },
              [Action.alice_processing]) := by
    rw [step_body_read_eq exCurve exCodec 1 exUndef exConnAlice 1 false [7] rfl, if_pos hm.1, hprm]
    simp only [Session.milestones, hm.2.1, Option.isSome_none, Bool.false_eq_true, if_false,
      List.append_nil]
    rfl
  unfold exFailed
  rw [hstep]
  exact ⟨rfl, rfl, rfl⟩

theorem milestones_alice_accepted (codec : Codec) (u : Undef) (s : Session) (mta : MTAProtocol)
    (rng : Rng) (data : Bytes) (hs : s.state_ = ProtocolState.WAITING_FOR_ALICE_MESSAGES) :
    Action.alice_accepted ∈
        Session.milestones codec s (Session.process_alice_messages codec u s mta rng data) ↔
      ((MTAProtocol.deserializeAliceMessages u data AliceMessages.new).1 = true ∧
       ((mta.prepareBobMessages rng s.bob_y_share_).2.1.executeBobMTA u s.bob_y_share_
          (MTAProtocol.deserializeAliceMessages u data AliceMessages.new).2).success = true) := by
  unfold Session.milestones
  rw [hs]
  rcases process_alice_messages_cases codec u s mta rng data with ⟨_, hst, hf⟩ | ⟨hst, hd, he⟩
  · rw [hs] at hst
    simp only [hst]
    constructor
    · intro h
      simp at h
    · rintro ⟨hd, he⟩
      rcases hf with hf | hf
      · rw [hf] at hd; exact absurd hd (by decide)
      · rw [hf] at he; exact absurd he (by decide)
  · simp only [hst, if_true]
    constructor
    · intro _; exact ⟨hd, he⟩
    · intro _; simp

theorem failed_written_none (c : Curve) (codec : Codec) (fuel : Nat) (u : Undef) (s : Session)
    (mta : MTAProtocol) (rng : Rng) (o : Outcome)
    (ho : Session.process_received_message c codec fuel u s mta rng = some o)
    (hf : (s.state_ = ProtocolState.WAITING_FOR_CORRELATION_DELTA ∧
            codec.decodeCorrelationDelta (s.read_buffer_.take s.last_message_size_) = none) ∨
          (s.state_ = ProtocolState.WAITING_FOR_CORRELATION_DELTA ∧
            ∃ delta r,
              codec.decodeCorrelationDelta (s.read_buffer_.take s.last_message_size_)
                = some delta ∧
              mta.initializeAsBob c fuel rng (delta % 2 ^ 32) = some r ∧ r.1.success = false) ∨
          (s.state_ = ProtocolState.WAITING_FOR_ALICE_MESSAGES ∧
            (MTAProtocol.deserializeAliceMessages u (s.read_buffer_.take s.last_message_size_)
              AliceMessages.new).1 = false) ∨
          (s.state_ = ProtocolState.WAITING_FOR_ALICE_MESSAGES ∧
            ((mta.prepareBobMessages rng s.bob_y_share_).2.1.executeBobMTA u s.bob_y_share_
              (MTAProtocol.deserializeAliceMessages u
                (s.read_buffer_.take s.last_message_size_) AliceMessages.new).2).success
              = false) ∨
          (s.state_ ≠ ProtocolState.WAITING_FOR_CORRELATION_DELTA ∧
            s.state_ ≠ ProtocolState.WAITING_FOR_ALICE_MESSAGES)) :
    o.written = none := by
  unfold Session.process_received_message at ho
  rcases hf with ⟨hs, hd⟩ | ⟨hs, delta, r, hd, hi, hr⟩ | ⟨hs, hd⟩ | ⟨hs, he⟩ | ⟨h1, h2⟩
  · rw [hs] at ho
    simp only at ho
    rcases process_correlation_delta_cases c codec fuel s mta rng _ o ho with ⟨_, rfl⟩ | ⟨h, _⟩
    · rfl
    · rw [hd] at h; exact absurd h (by decide)
  · obtain ⟨cr, _, hr2⟩ := initializeAsBob_some c fuel mta rng _ r hi
    rw [hr2] at hr
    exact Bool.noConfusion hr
  · rw [hs] at ho
    simp only [Option.some.injEq] at ho
    subst ho
    rcases process_alice_messages_cases codec u s mta rng
      (s.read_buffer_.take s.last_message_size_) with ⟨hw, _, _⟩ | ⟨_, hd2, _⟩
    · exact hw
    · rw [hd] at hd2; exact absurd hd2 (by decide)
  · rw [hs] at ho
    simp only [Option.some.injEq] at ho
    subst ho
    rcases process_alice_messages_cases codec u s mta rng
      (s.read_buffer_.take s.last_message_size_) with ⟨hw, _, _⟩ | ⟨_, _, he2⟩
    · exact hw
    · rw [he] at he2; exact absurd he2 (by decide)
  · split at ho
    · rename_i h; exact absurd h h1
    · rename_i h; exact absurd h h2
    · simp only [Option.some.injEq] at ho
      subst ho
      rfl

theorem exFinal_run :
    Conn.run exCurve exCodec 1 exUndef
      (Conn.start (Session.new 11 0 32) (exMta exEngine 0) exRng) exEvents
      = some (exFinal.1, exFinal.2) := by
  have h := exFinal_eq.1
  unfold exConn0 at h
  rw [Prod.mk.eta]
  exact h

theorem exFailed_step :
    Conn.step exCurve exCodec 1 exUndef exConnAlice (Event.body_read false [7])
      = some (exFailed.1, exFailed.2) := by
  rw [Prod.mk.eta]
  exact exFailed_eq.1

theorem exAlice_fails :
    (exConnAlice.session.on_body_read 1 false [7]).1.state_
      = ProtocolState.WAITING_FOR_ALICE_MESSAGES ∧
    (MTAProtocol.deserializeAliceMessages exUndef
      ((exConnAlice.session.on_body_read 1 false [7]).1.read_buffer_.take
        (exConnAlice.session.on_body_read 1 false [7]).1.last_message_size_)
      AliceMessages.new).1 = false := by
  have hb : 1 ≤ exConnAlice.session.read_buffer_.length := by
    show 1 ≤ (exSession 11 11).read_buffer_.length
    rw [exSession_read_buffer]; omega
  have hm := body_read_message exConnAlice.session 1 [7] rfl hb rfl
  have hst : exConnAlice.session.state_ = ProtocolState.WAITING_FOR_ALICE_MESSAGES := rfl
  rw [hm.2.2, hm.2.1]
  refine ⟨hst, ?_⟩
  simp [MTAProtocol.deserializeAliceMessages]

theorem deserialize_true_iff (u : Undef) (data : Bytes) (m : AliceMessages) :
    (MTAProtocol.deserializeAliceMessages u data m).1 = true ↔ 5 ≤ data.length := by
  unfold MTAProtocol.deserializeAliceMessages
  by_cases h : data.length < 5
  · rw [if_pos h]
    constructor
    · intro h2; exact Bool.noConfusion h2
    · intro h2; omega
  · rw [if_neg h]
    constructor
    · intro _; omega
    · intro _; rfl

theorem executeBobMTA_run_calls (self : MTAProtocol) (u : Undef) (y : Nat) (a : AliceMessages)
    (hs : a.success = true) : (self.executeBobMTA_run u y a).2 = 1 := by
  unfold MTAProtocol.executeBobMTA_run
  simp only [hs, MTAProtocol.validateMTAInputs, Bool.not_true, Bool.false_eq_true, if_false]
  split <;> rfl

theorem spec_V_low_bits (m m' : Nat → Nat) (i : Nat) (hi : i < 32)
    (hothers : ∀ j, j < 32 → j ≠ i → m j = m' j)
    (hlow : m i % 2 ^ (32 - i) = m' i % 2 ^ (32 - i)) : spec_V m = spec_V m' := by
  unfold spec_V
  apply sum_map_modEq
  intro j hj
  have hj2 := List.mem_range.1 hj
  by_cases hji : j = i
  · subst hji
    have hp : (2 : Nat) ^ 32 = 2 ^ j * 2 ^ (32 - j) := by
      rw [← Nat.pow_add]
      congr 1
      omega
    rw [hp, Nat.mul_mod_mul_left, Nat.mul_mod_mul_left, hlow]
  · rw [hothers j hj2 hji]


theorem getBit_zero (j : Nat) : CorrelatedOTProtocol.getBit 0 j = false := by
  simp [CorrelatedOTProtocol.getBit]

theorem splitIntoByteVectors_loop_general (flat : Bytes) (k : Nat) :
    ∀ fuel m i (result : List Bytes), flat.length ≤ i + m * k →
      (∀ j, j < m → i + j * k < flat.length) → m ≤ fuel →
      MTAProtocol.splitIntoByteVectors_loop flat k fuel i result
        = some (result ++ (List.range m).map (fun j => (flat.drop (i + j * k)).take k)) := by
  intro fuel
  induction fuel with
  | zero =>
    intro m i result h h2 hm
    have hm0 : m = 0 := by omega
    subst hm0
    have hi : ¬ i < flat.length := by omega
    simp [MTAProtocol.splitIntoByteVectors_loop, hi]
  | succ fuel ih =>
    intro m i result h h2 hm
    rw [MTAProtocol.splitIntoByteVectors_loop]
    cases m with
    | zero =>
      have hi : ¬ i < flat.length := by omega
      simp [hi]
    | succ m =>
      have hmk : (m + 1) * k = m * k + k := Nat.succ_mul m k
      have hi : i < flat.length := by
        have := h2 0 (by omega)
        omega
      have h2n : ∀ j, j < m → i + k + j * k < flat.length := by
        intro j hj
        have := h2 (j + 1) (by omega)
        rw [Nat.succ_mul] at this
        omega
      rw [if_pos hi, ih m (i + k) _ (by omega) h2n (by omega), List.range_succ_eq_map,
        List.map_cons, List.map_map]
      have hchunk : (flat.take (min (i + k) flat.length)).drop i = (flat.drop i).take k := by
        rw [chunk_eq_drop_take]
        by_cases hle : i + k ≤ flat.length
        · rw [Nat.min_eq_left hle]
        · rw [Nat.min_eq_right (by omega), List.take_of_length_le (Nat.le_refl _),
            List.take_of_length_le (by omega)]
      have hf : (fun j => (flat.drop (i + k + j * k)).take k)
          = ((fun j => (flat.drop (i + j * k)).take k) ∘ Nat.succ) := by
        funext j
        simp only [Function.comp, Nat.succ_eq_add_one, Nat.succ_mul]
        rw [show i + k + j * k = i + (j * k + k) by omega]
      rw [hf, hchunk]
      simp

theorem ceil_div_facts (n k : Nat) (hk : 0 < k) :
    n ≤ (n + k - 1) / k * k ∧ ∀ j, j < (n + k - 1) / k → j * k < n := by
  have h1 := Nat.div_add_mod (n + k - 1) k
  have h2 := Nat.mod_lt (n + k - 1) hk
  have h3 : k * ((n + k - 1) / k) = (n + k - 1) / k * k := Nat.mul_comm _ _
  constructor
  · omega
  · intro j hj
    have h4 : (j + 1) * k ≤ (n + k - 1) / k * k := Nat.mul_le_mul_right k hj
    rw [Nat.succ_mul] at h4
    omega

theorem splitIntoByteVectors_loop_zero (flat : Bytes) (hne : flat ≠ []) :
    ∀ fuel (result : List Bytes),
      MTAProtocol.splitIntoByteVectors_loop flat 0 fuel 0 result = none := by
  have hl : 0 < flat.length := List.length_pos.2 hne
  intro fuel
  induction fuel with
  | zero =>
    intro result
    simp [MTAProtocol.splitIntoByteVectors_loop, hl]
  | succ fuel ih =>
    intro result
    rw [MTAProtocol.splitIntoByteVectors_loop, if_pos hl]
    exact ih _

theorem splitIntoByteVectors_wrapping_eq (flat : Bytes) (chunk_size : Nat)
    (hflat : flat.length < 2 ^ 63) (hc : chunk_size < 2 ^ 64) :
    ∀ fuel i (result : List Bytes), i = 0 ∨ chunk_size ≤ i →
      MTAProtocol.splitIntoByteVectors_wrapping flat chunk_size fuel i result
        = MTAProtocol.splitIntoByteVectors_loop flat chunk_size fuel i result := by
  intro fuel
  induction fuel with
  | zero =>
    intro i result _
    rfl
  | succ fuel ih =>
    intro i result hi
    rw [MTAProtocol.splitIntoByteVectors_wrapping, MTAProtocol.splitIntoByteVectors_loop]
    by_cases hlt : i < flat.length
    · have hno : (i + chunk_size) % U64 = i + chunk_size := by
        apply Nat.mod_eq_of_lt
        unfold U64
        omega
      rw [if_pos hlt, if_pos hlt, hno]
      exact ih _ _ (Or.inr (by omega))
    · rw [if_neg hlt, if_neg hlt]

theorem length_writeAt_zero (v data : Bytes) (h : data.length ≤ v.length) :
    (writeAt v 0 data).length = v.length :=
  length_writeAt v data 0 (by omega)

theorem length_transferred (s : Session) (n : Nat) (data : Bytes) :
    (s.transferred n data).length ≤ s.read_buffer_.length ∧
    (s.transferred n data).length ≤ n := by
  unfold Session.transferred
  rw [List.length_take]
  omega

theorem transferred_take (s : Session) (n : Nat) (data : Bytes)
    (hb : n ≤ s.read_buffer_.length) : s.transferred n data = data.take n := by
  unfold Session.transferred
  rw [Nat.min_eq_left hb]

theorem getD_writeAt_zero (v data : Bytes) (j : Nat) (hj : j < data.length) :
    (writeAt v 0 data).getD j 0 = data.getD j 0 := by
  rw [writeAt_zero]
  simp [List.getD_eq_getElem?_getD, List.getElem?_append_left hj]

theorem on_size_read_frame (s : Session) (ec : Bool) (data : Bytes) :
    { (s.on_size_read ec data).1 with
        read_buffer_ := s.read_buffer_, last_message_size_ := s.last_message_size_ } = s ∧
    s.read_buffer_.length ≤ (s.on_size_read ec data).1.read_buffer_.length ∧
    (∀ m, (s.on_size_read ec data).2 = some m →
      (s.on_size_read ec data).1.last_message_size_ = m ∧
      m ≤ (s.on_size_read ec data).1.read_buffer_.length) ∧
    (4 ≤ s.read_buffer_.length →
      (s.on_size_read ec data).2
        = if (!ec && (data.take 4).length == 4) = true then some (sizeOf4 (data.take 4))
          else none) := by
  have hg := (length_transferred s 4 data).1
  have hl := length_writeAt_zero s.read_buffer_ (s.transferred 4 data) hg
  unfold Session.on_size_read
  simp only
  by_cases hc : (!ec && (s.transferred 4 data).length == 4) = true
  · rw [if_pos hc]
    have h4 : (s.transferred 4 data).length = 4 := by
      simp only [Bool.and_eq_true, beq_iff_eq] at hc
      exact hc.2
    have hsz : (((writeAt s.read_buffer_ 0 (s.transferred 4 data)).getD 0 0 |||
        (writeAt s.read_buffer_ 0 (s.transferred 4 data)).getD 1 0 <<< 8 |||
        (writeAt s.read_buffer_ 0 (s.transferred 4 data)).getD 2 0 <<< 16 |||
        (writeAt s.read_buffer_ 0 (s.transferred 4 data)).getD 3 0 <<< 24) % 2 ^ 32)
        = sizeOf4 (s.transferred 4 data) := by
      unfold sizeOf4
      rw [getD_writeAt_zero _ _ 0 (by omega), getD_writeAt_zero _ _ 1 (by omega),
        getD_writeAt_zero _ _ 2 (by omega), getD_writeAt_zero _ _ 3 (by omega)]
    simp only [hsz]
    refine ⟨?_, ?_, ?_, ?_⟩
    · split <;> rfl
    · split
      · simp only [List.length_append, hl]
        omega
      · simp only [hl]
        omega
    · intro m hm
      simp only [Option.some.injEq] at hm
      subst hm
      split
      · rename_i hgt
        refine ⟨rfl, ?_⟩
        simp only [List.length_append, List.length_replicate, hl]
        simp only [hl] at hgt
        omega
      · rename_i hgt
        refine ⟨rfl, ?_⟩
        simp only [hl] at hgt ⊢
        omega
    · intro hb
      rw [transferred_take s 4 data hb] at hc ⊢
      rw [if_pos hc]
  · rw [if_neg hc]
    refine ⟨rfl, ?_, ?_, ?_⟩
    · simp only [hl]
      omega
    · intro m hm
      exact Option.noConfusion hm
    · intro hb
      rw [transferred_take s 4 data hb] at hc
      rw [if_neg hc]

theorem on_body_read_frame (s : Session) (n : Nat) (ec : Bool) (data : Bytes) :
    { (s.on_body_read n ec data).1 with read_buffer_ := s.read_buffer_ } = s ∧
    (s.on_body_read n ec data).1.read_buffer_.length = s.read_buffer_.length ∧
    (n ≤ s.read_buffer_.length →
      (s.on_body_read n ec data).2 = (!ec && (data.take n).length == n) ∧
      ((s.on_body_read n ec data).2 = true →
        (s.on_body_read n ec data).1.read_buffer_.take n = data.take n)) := by
  have hg := (length_transferred s n data).1
  have hl := length_writeAt_zero s.read_buffer_ (s.transferred n data) hg
  unfold Session.on_body_read
  simp only
  refine ⟨True.intro, hl, ?_⟩
  intro hb
  rw [transferred_take s n data hb]
  refine ⟨rfl, ?_⟩
  intro hflag
  simp only [Bool.and_eq_true, beq_iff_eq] at hflag
  rw [writeAt_zero]
  exact List.take_left' hflag.2

theorem on_write_done_frame (s : Session) (ec : Bool) :
    { (s.on_write_done ec).1 with state_ := s.state_ } = s := by
  unfold Session.on_write_done
  split
  · split
    · rfl
    · split <;> rfl
  · rfl

theorem send_bob_messages_frame (codec : Codec) (s : Session) :
    { (Session.send_bob_messages codec s).1 with write_buffer_ := s.write_buffer_ } = s := by
  unfold Session.send_bob_messages
  split
  · rfl
  · simp only
    split <;> rfl

theorem send_bob_messages_read_buffer (codec : Codec) (s : Session) :
    (Session.send_bob_messages codec s).1.read_buffer_ = s.read_buffer_ := by
  have h := congrArg Session.read_buffer_ (send_bob_messages_frame codec s)
  exact h

theorem send_bob_messages_last (codec : Codec) (s : Session) :
    (Session.send_bob_messages codec s).1.last_message_size_ = s.last_message_size_ := by
  have h := congrArg Session.last_message_size_ (send_bob_messages_frame codec s)
  exact h

theorem send_bob_messages_y (codec : Codec) (s : Session) :
    (Session.send_bob_messages codec s).1.bob_y_share_ = s.bob_y_share_ := by
  have h := congrArg Session.bob_y_share_ (send_bob_messages_frame codec s)
  exact h

theorem send_bob_messages_additive (codec : Codec) (s : Session) :
    (Session.send_bob_messages codec s).1.bob_additive_share_ = s.bob_additive_share_ := by
  have h := congrArg Session.bob_additive_share_ (send_bob_messages_frame codec s)
  exact h

theorem send_bob_messages_messages (codec : Codec) (s : Session) :
    (Session.send_bob_messages codec s).1.bob_messages_ = s.bob_messages_ := by
  have h := congrArg Session.bob_messages_ (send_bob_messages_frame codec s)
  exact h

theorem process_alice_messages_buffers (codec : Codec) (u : Undef) (s : Session)
    (mta : MTAProtocol) (rng : Rng) (data : Bytes) :
    (Session.process_alice_messages codec u s mta rng data).session.read_buffer_
      = s.read_buffer_ ∧
    (Session.process_alice_messages codec u s mta rng data).session.last_message_size_
      = s.last_message_size_ ∧
    (Session.process_alice_messages codec u s mta rng data).session.bob_y_share_
      = s.bob_y_share_ := by
  unfold Session.process_alice_messages
  simp only
  split
  · exact ⟨rfl, rfl, rfl⟩
  · split
    · exact ⟨rfl, rfl, rfl⟩
    · split
      · exact ⟨rfl, rfl, rfl⟩
      · simp only [send_bob_messages_read_buffer, send_bob_messages_last, send_bob_messages_y,
          and_self]

theorem process_received_message_buffers (c : Curve) (codec : Codec) (fuel : Nat) (u : Undef)
    (s : Session) (mta : MTAProtocol) (rng : Rng) (o : Outcome)
    (ho : Session.process_received_message c codec fuel u s mta rng = some o) :
    o.session.read_buffer_ = s.read_buffer_ ∧
    o.session.last_message_size_ = s.last_message_size_ ∧
    o.session.bob_y_share_ = s.bob_y_share_ := by
  unfold Session.process_received_message at ho
  split at ho
  · cases hd : codec.decodeCorrelationDelta (s.read_buffer_.take s.last_message_size_) with
    | none =>
      rcases process_correlation_delta_cases c codec fuel s mta rng _ o ho with ⟨_, rfl⟩ | ⟨h, _⟩
      · exact ⟨rfl, rfl, rfl⟩
      · rw [hd] at h; exact Bool.noConfusion h
    | some delta =>
      obtain ⟨cr, _, _, _, _, _, h1, h2, h3, _, _⟩ :=
        process_correlation_delta_some c codec fuel s mta rng _ delta hd o ho
      exact ⟨h1, h2, h3⟩
  · simp only [Option.some.injEq] at ho
    subst ho
    exact process_alice_messages_buffers codec u s mta rng _
  · simp only [Option.some.injEq] at ho
    subst ho
    exact ⟨rfl, rfl, rfl⟩

theorem step_buffer_mono (c : Curve) (codec : Codec) (fuel : Nat) (u : Undef) (w : Conn)
    (e : Event) (w1 : Conn) (a : List Action)
    (hs : Conn.step c codec fuel u w e = some (w1, a)) :
    w.session.read_buffer_.length ≤ w1.session.read_buffer_.length ∧
    (∀ m, w1.pending = Pending.read_body m →
      w1.session.last_message_size_ = m ∧ m ≤ w1.session.read_buffer_.length) := by
  cases e with
  | size_read ec data =>
    unfold Conn.step at hs
    cases hp : w.pending with
    | read_size =>
      rw [hp] at hs
      simp only [Option.some.injEq, Prod.mk.injEq] at hs
      obtain ⟨rfl, _⟩ := hs
      have hf := on_size_read_frame w.session ec data
      refine ⟨hf.2.1, ?_⟩
      intro m hm
      simp only at hm
      cases hr : (w.session.on_size_read ec data).2 with
      | none => rw [hr] at hm; exact Pending.noConfusion hm
      | some k =>
        rw [hr] at hm
        simp only [Pending.read_body.injEq] at hm
        subst hm
        exact hf.2.2.1 k hr
    | idle => rw [hp] at hs; exact Option.noConfusion hs
    | read_body k => rw [hp] at hs; exact Option.noConfusion hs
    | write => rw [hp] at hs; exact Option.noConfusion hs
  | body_read ec data =>
    cases hp : w.pending with
    | read_body k =>
      rw [step_body_read_eq c codec fuel u w k ec data hp] at hs
      have hf := on_body_read_frame w.session k ec data
      by_cases hr : (w.session.on_body_read k ec data).2 = true
      · rw [if_pos hr] at hs
        cases ho : Session.process_received_message c codec fuel u
            (w.session.on_body_read k ec data).1 w.mta w.rng with
        | none => rw [ho] at hs; exact Option.noConfusion hs
        | some o =>
          rw [ho] at hs
          simp only [Option.some.injEq, Prod.mk.injEq] at hs
          obtain ⟨rfl, _⟩ := hs
          have hb := process_received_message_buffers c codec fuel u _ w.mta w.rng o ho
          refine ⟨?_, ?_⟩
          · simp only [hb.1, hf.2.1]
            omega
          · intro m hm
            simp only at hm
            split at hm <;> exact Pending.noConfusion hm
      · rw [if_neg hr] at hs
        simp only [Option.some.injEq, Prod.mk.injEq] at hs
        obtain ⟨rfl, _⟩ := hs
        refine ⟨?_, ?_⟩
        · simp only [hf.2.1]
          omega
        · intro m hm
          exact Pending.noConfusion hm
    | idle => unfold Conn.step at hs; rw [hp] at hs; exact Option.noConfusion hs
    | read_size => unfold Conn.step at hs; rw [hp] at hs; exact Option.noConfusion hs
    | write => unfold Conn.step at hs; rw [hp] at hs; exact Option.noConfusion hs
  | write_done ec =>
    unfold Conn.step at hs
    cases hp : w.pending with
    | write =>
      rw [hp] at hs
      simp only [Option.some.injEq, Prod.mk.injEq] at hs
      obtain ⟨rfl, _⟩ := hs
      have hf := congrArg Session.read_buffer_ (on_write_done_frame w.session ec)
      simp only at hf
      refine ⟨?_, ?_⟩
      · simp only [hf]
        omega
      · intro m hm
        simp only at hm
        split at hm <;> exact Pending.noConfusion hm
    | idle => rw [hp] at hs; exact Option.noConfusion hs
    | read_size => rw [hp] at hs; exact Option.noConfusion hs
    | read_body k => rw [hp] at hs; exact Option.noConfusion hs

theorem step_buffered (c : Curve) (codec : Codec) (fuel : Nat) (u : Undef) (w : Conn)
    (e : Event) (w1 : Conn) (a : List Action) (hb : w.Buffered)
    (hs : Conn.step c codec fuel u w e = some (w1, a)) : w1.Buffered := by
  have h := step_buffer_mono c codec fuel u w e w1 a hs
  exact ⟨Nat.le_trans hb.1 h.1, h.2⟩

theorem run_invariant (c : Curve) (codec : Codec) (fuel : Nat) (u : Undef) (P : Conn → Prop)
    (hstep : ∀ w e w1 a, P w → Conn.step c codec fuel u w e = some (w1, a) → P w1) :
    ∀ (evs : List Event) (w w1 : Conn) (a : List Action),
      P w → Conn.run c codec fuel u w evs = some (w1, a) → P w1 := by
  intro evs
  induction evs with
  | nil =>
    intro w w1 a hP h
    simp only [Conn.run, Option.some.injEq, Prod.mk.injEq] at h
    obtain ⟨rfl, _⟩ := h
    exact hP
  | cons e es ih =>
    intro w w1 a hP h
    rw [Conn.run] at h
    cases hs : Conn.step c codec fuel u w e with
    | none => rw [hs] at h; exact Option.noConfusion h
    | some r =>
      obtain ⟨w2, a2⟩ := r
      rw [hs] at h
      simp only at h
      cases hr : Conn.run c codec fuel u w2 es with
      | none => rw [hr] at h; exact Option.noConfusion h
      | some r2 =>
        obtain ⟨w3, a3⟩ := r2
        rw [hr] at h
        simp only [Option.some.injEq, Prod.mk.injEq] at h
        obtain ⟨rfl, _⟩ := h
        exact ih w2 w3 a3 (hstep w e w2 a2 hP hs) hr

theorem initializeAsBob_eq_return (c : Curve) (fuel : Nat) (mta : MTAProtocol) (rng : Rng)
    (delta : Nat) :
    mta.initializeAsBob c fuel rng delta
      = (mta.cot_protocol.initializeCOT c fuel rng delta).map
          (fun r => (MTAProtocol.initializeAsBob_return delta r.1,
            { mta with cot_protocol := r.2.1 }, r.2.2)) := by
  unfold MTAProtocol.initializeAsBob MTAProtocol.initializeAsBob_return
  cases mta.cot_protocol.initializeCOT c fuel rng delta with
  | none => rfl
  | some r =>
    obtain ⟨cs, cot, rng1⟩ := r
    simp only [Option.map]
    split <;> rfl

theorem process_correlation_delta_eq_return (c : Curve) (codec : Codec) (fuel : Nat)
    (s : Session) (mta : MTAProtocol) (rng : Rng) (data : Bytes) :
    Session.process_correlation_delta c codec fuel s mta rng data
      = match codec.decodeCorrelationDelta data with
        | none => some { session := s, mta := mta, rng := rng, written := none }
        | some delta =>
          (mta.initializeAsBob c fuel rng (delta % 2 ^ 32)).map
            (fun r =>
              { session := (Session.process_correlation_delta_return codec
                  { s with correlation_delta_ := delta % 2 ^ 32 } r.1).1,
                mta := r.2.1, rng := r.2.2,
                written := (Session.process_correlation_delta_return codec
                  { s with correlation_delta_ := delta % 2 ^ 32 } r.1).2 }) := by
  unfold Session.process_correlation_delta Session.process_correlation_delta_return
  cases codec.decodeCorrelationDelta data with
  | none => rfl
  | some delta =>
    simp only
    cases mta.initializeAsBob c fuel rng (delta % 2 ^ 32) with
    | none => rfl
    | some r =>
      obtain ⟨setup, mta1, rng1⟩ := r
      simp only [Option.map]
      split <;> rfl

theorem map_getD_map_range (f : Nat → Nat) (n : Nat) :
    (List.range n).map (fun i => ((List.range n).map f).getD i 0) = (List.range n).map f := by
  apply List.map_congr_left
  intro i hi
  have hi2 := List.mem_range.1 hi
  simp [List.getD_eq_getElem?_getD, List.getElem?_map, List.getElem?_range hi2]

theorem generateScalar_draw (c : Curve) :
    ∀ fuel (rng : Rng) (r : Bytes × Rng), SecureRandom.generateScalar c fuel rng = some r →
      ∃ k, k < fuel ∧ rng.accepts c (rng.buffersDrawn + k) ∧
        r.1 = rng.bytesOf (rng.buffersDrawn + k) ∧
        r.2.buffersDrawn = rng.buffersDrawn + k + 1 := by
  intro fuel
  induction fuel with
  | zero => intro rng r h; simp [SecureRandom.generateScalar] at h
  | succ fuel ih =>
    intro rng r h
    rw [SecureRandom.generateScalar] at h
    split at h
    · rename_i hacc
      simp only [Option.some.injEq] at h
      subst h
      refine ⟨0, by omega, ?_, ?_, ?_⟩
      · simpa [Rng.accepts, random_buffer] using hacc
      · simp only [random_buffer, Rng.bytesOf, Nat.add_zero]
        exact map_getD_map_range _ 32
      · simp [random_buffer]
    · obtain ⟨k, hk, ha, hb, hd⟩ := ih _ r h
      refine ⟨k + 1, by omega, ?_, ?_, ?_⟩
      · have : (random_buffer rng 32).2.buffersDrawn + k = rng.buffersDrawn + (k + 1) := by
          simp [random_buffer]; omega
        rw [this] at ha
        simpa [Rng.accepts, random_buffer] using ha
      · rw [hb]
        simp only [random_buffer, Rng.bytesOf]
        rw [show rng.buffersDrawn + 1 + k = rng.buffersDrawn + (k + 1) by omega]
      · rw [hd]
        simp only [random_buffer]
        omega

theorem OT_new_draw (c : Curve) (fuel : Nat) (rng : Rng) (r : ObliviousTransferProtocol × Rng)
    (h : ObliviousTransferProtocol.new c fuel rng = some r) :
    rng.buffersDrawn < r.2.buffersDrawn ∧ r.2.buffersDrawn ≤ rng.buffersDrawn + fuel := by
  unfold ObliviousTransferProtocol.new at h
  cases hs : SecureRandom.generateScalar c fuel rng with
  | none => simp [hs] at h
  | some v =>
    obtain ⟨k, hk, _, _, hd⟩ := generateScalar_draw c fuel rng v hs
    simp only [hs, Option.some.injEq] at h
    subst h
    simp only [hd]
    omega

theorem accepts_congr (c : Curve) (rng rng1 : Rng) (hb : rng1.buffer = rng.buffer) (m : Nat) :
    rng1.accepts c m ↔ rng.accepts c m := by
  unfold Rng.accepts
  rw [hb]

theorem bytesOf_congr (rng rng1 : Rng) (hb : rng1.buffer = rng.buffer) (m : Nat) :
    rng1.bytesOf m = rng.bytesOf m := by
  unfold Rng.bytesOf
  rw [hb]

theorem initializeCOT_loop_draws (c : Curve) (fuel : Nat) :
    ∀ n i (self : CorrelatedOTProtocol) (rng : Rng) (setup : COTSetup)
      (r : COTSetup × CorrelatedOTProtocol × Rng), i + n ≤ 32 →
      setup.points_B.length = 2080 → self.stored_scalars.length = 1024 →
      CorrelatedOTProtocol.initializeCOT_loop c fuel n i self rng setup = some r →
      rng.buffersDrawn ≤ r.2.2.buffersDrawn ∧
      r.2.2.buffersDrawn ≤ rng.buffersDrawn + 2 * n * fuel ∧
      (∀ j, i ≤ j → j < i + n →
        ∃ m, rng.buffersDrawn ≤ m ∧ m < r.2.2.buffersDrawn ∧ rng.accepts c m ∧
          (r.2.1.stored_scalars.drop (j * 32)).take 32 = rng.bytesOf m) := by
  intro n
  induction n with
  | zero =>
    intro i self rng setup r _ hp hsc h
    simp only [CorrelatedOTProtocol.initializeCOT_loop, Option.some.injEq] at h
    subst h
    refine ⟨Nat.le_refl _, Nat.le_add_right _ _, fun j h1 h2 => ?_⟩
    omega
  | succ n ih =>
    intro i self rng setup r hin hp hsc h
    rw [CorrelatedOTProtocol.initializeCOT_loop] at h
    cases ho : ObliviousTransferProtocol.new c fuel rng with
    | none => simp [ho] at h
    | some v =>
      obtain ⟨ot, rng1⟩ := v
      have hot := OT_new_some c fuel rng _ ho
      have hod := OT_new_draw c fuel rng _ ho
      simp only at hot hod
      simp only [ho] at h
      cases hg : CorrelatedOTProtocol.generatePointB c fuel
          { self with ot_instances := self.ot_instances ++ [ot] } rng1 i setup.points_B
          (i * 65) with
      | none => simp [hg] at h
      | some w =>
        obtain ⟨priv, rng2, hgs, hw⟩ := generatePointB_spec c fuel _ rng1 i _ _ (by omega) w hg
        have hpriv := generateScalar_some c fuel rng1 _ hgs
        obtain ⟨k, hk, hacc, hbytes, hdrawn⟩ := generateScalar_draw c fuel rng1 _ hgs
        simp only at hpriv hbytes hdrawn
        subst hw
        simp only [hg, if_true] at h
        have hP := length_generatePointFromScalar c priv
        have hp2 : (writeAt setup.points_B (i * 65)
            (CryptoOperations.generatePointFromScalar c priv).2).length = 2080 := by
          rw [length_writeAt _ _ _ (by rw [hP, hp]; omega), hp]
        have hsc2 : (writeAt self.stored_scalars (i * 32) priv).length = 1024 := by
          rw [length_writeAt _ _ _ (by rw [hpriv.1, hsc]; omega), hsc]
        obtain ⟨d1, d2, d3⟩ := ih (i + 1) _ rng2 _ r (by omega) hp2 hsc2 h
        have hspec := initializeCOT_loop_spec c fuel n (i + 1) _ rng2 _ r (by omega) hp2 hsc2 h
        have hkeep := hspec.2.2.2.2.2.2.2.1
        have hb2 : rng2.buffer = rng.buffer := by rw [hpriv.2.2.1, hot.2.1]
        have hmul : 2 * (n + 1) * fuel = 2 * n * fuel + 2 * fuel := by
          rw [Nat.mul_add, Nat.add_mul]
        refine ⟨by omega, by omega, ?_⟩
        intro j h1 h2
        by_cases hji : j = i
        · subst hji
          refine ⟨rng1.buffersDrawn + k, by omega, by omega, ?_, ?_⟩
          · exact (accepts_congr c rng rng1 hot.2.1 _).1 hacc
          · rw [(hkeep j (by omega)).2]
            simp only
            have e2 := chunk_writeAt_same self.stored_scalars priv (j * 32)
              (by rw [hpriv.1, hsc]; omega)
            rw [hpriv.1] at e2
            rw [e2, hbytes, bytesOf_congr rng rng1 hot.2.1]
        · obtain ⟨m, m1, m2, m3, m4⟩ := d3 j (by omega) (by omega)
          refine ⟨m, by omega, m2, ?_, ?_⟩
          · exact (accepts_congr c rng rng2 hb2 _).1 m3
          · rw [m4, bytesOf_congr rng rng2 hb2]

theorem initializeCOT_draws (c : Curve) (fuel : Nat) (self : CorrelatedOTProtocol) (rng : Rng)
    (alice_x : Nat) (r : COTSetup × CorrelatedOTProtocol × Rng)
    (hsc : self.stored_scalars.length = 1024)
    (h : self.initializeCOT c fuel rng alice_x = some r) :
    rng.buffersDrawn ≤ r.2.2.buffersDrawn ∧
    r.2.2.buffersDrawn ≤ rng.buffersDrawn + 64 * fuel ∧
    r.2.1.stored_scalars.length = 1024 ∧ r.2.2.buffer = rng.buffer ∧
    (∀ j, j < 32 →
      ∃ m, rng.buffersDrawn ≤ m ∧ m < r.2.2.buffersDrawn ∧ rng.accepts c m ∧
        (r.2.1.stored_scalars.drop (j * 32)).take 32 = rng.bytesOf m) := by
  have h1 := initializeCOT_loop_draws c fuel BIT_LENGTH 0
    { self with correlation_x := alice_x, ot_instances := [] } rng
    { points_B := List.replicate (BIT_LENGTH * 65) 0, correlation_x := alice_x, success := false }
    r (by simp [BIT_LENGTH]) (List.length_replicate _ _) hsc h
  have h2 := initializeCOT_loop_spec c fuel BIT_LENGTH 0
    { self with correlation_x := alice_x, ot_instances := [] } rng
    { points_B := List.replicate (BIT_LENGTH * 65) 0, correlation_x := alice_x, success := false }
    r (by simp [BIT_LENGTH]) (List.length_replicate _ _) hsc h
  refine ⟨h1.1, ?_, h2.2.1, h2.2.2.1, ?_⟩
  · have := h1.2.1
    simp only [BIT_LENGTH] at this
    omega
  · intro j hj
    exact h1.2.2 j (by omega) (by simp [BIT_LENGTH]; omega)

theorem process_correlation_delta_frame (c : Curve) (codec : Codec) (fuel : Nat) (s : Session)
    (mta : MTAProtocol) (rng : Rng) (data : Bytes) (delta : Nat)
    (hdec : codec.decodeCorrelationDelta data = some delta) (o : Outcome)
    (h : Session.process_correlation_delta c codec fuel s mta rng data = some o) :
    o.session.state_ = ProtocolState.SENDING_BOB_SETUP ∧
    o.session.bob_additive_share_ = s.bob_additive_share_ ∧
    o.session.bob_messages_ = s.bob_messages_ ∧
    o.session.bob_correlation_check_ = s.bob_correlation_check_ ∧
    o.mta.beta = mta.beta := by
  rw [process_correlation_delta_eq_return] at h
  simp only [hdec] at h
  cases hi : mta.initializeAsBob c fuel rng (delta % 2 ^ 32) with
  | none =>
    have hi2 : mta.initializeAsBob c fuel rng (delta % 4294967296) = none := hi
    simp [hi, hi2] at h
  | some r =>
    obtain ⟨cr, _, hr⟩ := initializeAsBob_some c fuel mta rng _ r hi
    have hi2 : mta.initializeAsBob c fuel rng (delta % 4294967296) = some r := hi
    simp only [hi, hi2, Option.map, Option.some.injEq] at h
    subst h
    subst hr
    unfold Session.process_correlation_delta_return
    simp only [Bool.not_true, Bool.false_eq_true, if_false]
    rw [send_bob_setup_eq]
    split <;> (refine ⟨?_, ?_, ?_, ?_, ?_⟩ <;> first | rfl | exact True.intro)

theorem process_alice_messages_eq (codec : Codec) (u : Undef) (s : Session)
    (mta : MTAProtocol) (rng : Rng) (data : Bytes) :
    Session.process_alice_messages codec u s mta rng data
      = if (MTAProtocol.deserializeAliceMessages u data AliceMessages.new).1 = false then
          { session := s, mta := mta, rng := rng, written := none }
        else if (({ mta with beta := (random32 rng).1 } : MTAProtocol).executeBobMTA u
            s.bob_y_share_
            (MTAProtocol.deserializeAliceMessages u data AliceMessages.new).2).success = false then
          { session :=
              { s with
                bob_messages_ :=
                  { BobMessages.new with
                    masked_share := s.bob_y_share_ * (random32 rng).1 % 2 ^ 32,
                    success := true } },
            mta := { mta with beta := (random32 rng).1 }, rng := (random32 rng).2,
            written := none }
        else
          { session := (Session.send_bob_messages codec
              { s with
                bob_messages_ :=
                  { BobMessages.new with
                    masked_share := s.bob_y_share_ * (random32 rng).1 % 2 ^ 32,
                    success := true },
                bob_additive_share_ :=
                  (({ mta with beta := (random32 rng).1 } : MTAProtocol).executeBobMTA u
                    s.bob_y_share_
                    (MTAProtocol.deserializeAliceMessages u data
                      AliceMessages.new).2).additive_share,
                bob_correlation_check_ :=
                  ((s.bob_y_share_ +
                    (({ mta with beta := (random32 rng).1 } : MTAProtocol).executeBobMTA u
                      s.bob_y_share_
                      (MTAProtocol.deserializeAliceMessages u data
                        AliceMessages.new).2).additive_share) % 2 ^ 32) ^^^ s.correlation_delta_,
                state_ := ProtocolState.SENDING_BOB_MESSAGES }).1,
            mta := { mta with beta := (random32 rng).1 },
            rng := (random32 rng).2,
            written := (Session.send_bob_messages codec
              { s with
                bob_messages_ :=
                  { BobMessages.new with
                    masked_share := s.bob_y_share_ * (random32 rng).1 % 2 ^ 32,
                    success := true },
                bob_additive_share_ :=
                  (({ mta with beta := (random32 rng).1 } : MTAProtocol).executeBobMTA u
                    s.bob_y_share_
                    (MTAProtocol.deserializeAliceMessages u data
                      AliceMessages.new).2).additive_share,
                bob_correlation_check_ :=
                  ((s.bob_y_share_ +
                    (({ mta with beta := (random32 rng).1 } : MTAProtocol).executeBobMTA u
                      s.bob_y_share_
                      (MTAProtocol.deserializeAliceMessages u data
                        AliceMessages.new).2).additive_share) % 2 ^ 32) ^^^ s.correlation_delta_,
                state_ := ProtocolState.SENDING_BOB_MESSAGES }).2 } := by
  by_cases hd : (MTAProtocol.deserializeAliceMessages u data AliceMessages.new).1 = true
  · have hd5 : 5 ≤ data.length := (deserialize_true_iff u data _).1 hd
    by_cases hs : (({ mta with beta := (random32 rng).1 } : MTAProtocol).executeBobMTA u
        s.bob_y_share_
        (MTAProtocol.deserializeAliceMessages u data AliceMessages.new).2).success = true
    · rw [if_neg (by rw [hd]; exact Bool.noConfusion), if_neg (by rw [hs]; exact Bool.noConfusion)]
      exact process_alice_messages_sent codec u s mta rng data hd5 hs
    · have hs2 : (({ mta with beta := (random32 rng).1 } : MTAProtocol).executeBobMTA u
          s.bob_y_share_
          (MTAProtocol.deserializeAliceMessages u data AliceMessages.new).2).success = false := by
        simpa using hs
      rw [if_neg (by rw [hd]; exact Bool.noConfusion), if_pos hs2]
      unfold Session.process_alice_messages
      simp only [hd, prepareBobMessages_eq, hs2, Bool.not_true, Bool.not_false,
        Bool.false_eq_true, if_false, if_true]
  · have hd2 : (MTAProtocol.deserializeAliceMessages u data AliceMessages.new).1 = false := by
      simpa using hd
    rw [if_pos hd2]
    unfold Session.process_alice_messages
    simp only [hd2, Bool.not_false, if_true]

theorem initializeCOT_loop_delta (c : Curve) (fuel : Nat) :
    ∀ n i (self self' : CorrelatedOTProtocol) (rng : Rng) (setup setup' : COTSetup),
      self.ot_instances = self'.ot_instances → self.stored_scalars = self'.stored_scalars →
      setup.points_B = setup'.points_B → setup.success = setup'.success →
      (CorrelatedOTProtocol.initializeCOT_loop c fuel n i self rng setup).map
          (fun r => (r.1.points_B, r.1.success, r.2.1.ot_instances, r.2.1.stored_scalars, r.2.2))
        = (CorrelatedOTProtocol.initializeCOT_loop c fuel n i self' rng setup').map
          (fun r => (r.1.points_B, r.1.success, r.2.1.ot_instances, r.2.1.stored_scalars,
            r.2.2)) := by
  intro n
  induction n with
  | zero =>
    intro i self self' rng setup setup' h1 h2 h3 h4
    simp only [CorrelatedOTProtocol.initializeCOT_loop, Option.map, h1, h2, h3]
  | succ n ih =>
    intro i self self' rng setup setup' h1 h2 h3 h4
    rw [CorrelatedOTProtocol.initializeCOT_loop, CorrelatedOTProtocol.initializeCOT_loop]
    cases ObliviousTransferProtocol.new c fuel rng with
    | none => rfl
    | some v =>
      obtain ⟨ot, rng1⟩ := v
      simp only
      unfold CorrelatedOTProtocol.generatePointB
      by_cases hi : i ≥ BIT_LENGTH
      · simp only [hi, if_true, Bool.false_eq_true, if_false, Option.map, h1, h2, h3, h4]
      · simp only [hi, if_false]
        cases CryptoOperations.generateECDHKeyPair c fuel rng1 with
        | none => rfl
        | some k =>
          obtain ⟨ok, priv, pub, rng2⟩ := k
          simp only
          cases ok with
          | true =>
            simp only [if_true]
            exact ih (i + 1) _ _ rng2 _ _ (by simp only [h1]) (by simp only [h2])
              (by simp only [h3]) h4
          | false =>
            simp only [Bool.false_eq_true, if_false, Option.map, h1, h2, h3, h4]

theorem initializeCOT_delta (c : Curve) (fuel : Nat) (self : CorrelatedOTProtocol) (rng : Rng)
    (delta delta' : Nat) (r r' : COTSetup × CorrelatedOTProtocol × Rng)
    (h : self.initializeCOT c fuel rng delta = some r)
    (h' : self.initializeCOT c fuel rng delta' = some r') :
    r.1.points_B = r'.1.points_B ∧ r.2.1.ot_instances = r'.2.1.ot_instances ∧
    r.2.1.stored_scalars = r'.2.1.stored_scalars ∧ r.2.2 = r'.2.2 := by
  have hl := initializeCOT_loop_delta c fuel BIT_LENGTH 0
    { self with correlation_x := delta, ot_instances := [] }
    { self with correlation_x := delta', ot_instances := [] } rng
    { points_B := List.replicate (BIT_LENGTH * 65) 0, correlation_x := delta, success := false }
    { points_B := List.replicate (BIT_LENGTH * 65) 0, correlation_x := delta', success := false }
    rfl rfl rfl rfl
  unfold CorrelatedOTProtocol.initializeCOT at h h'
  simp only at h h'
  rw [h, h'] at hl
  simp only [Option.map, Option.some.injEq, Prod.mk.injEq] at hl
  exact ⟨hl.1, hl.2.2.1, hl.2.2.2.1, hl.2.2.2.2⟩

theorem initializeCOT_delta_none (c : Curve) (fuel : Nat) (self : CorrelatedOTProtocol)
    (rng : Rng) (delta delta' : Nat) :
    (self.initializeCOT c fuel rng delta).isSome
      = (self.initializeCOT c fuel rng delta').isSome := by
  have hl := initializeCOT_loop_delta c fuel BIT_LENGTH 0
    { self with correlation_x := delta, ot_instances := [] }
    { self with correlation_x := delta', ot_instances := [] } rng
    { points_B := List.replicate (BIT_LENGTH * 65) 0, correlation_x := delta, success := false }
    { points_B := List.replicate (BIT_LENGTH * 65) 0, correlation_x := delta', success := false }
    rfl rfl rfl rfl
  unfold CorrelatedOTProtocol.initializeCOT
  simp only
  have := congrArg Option.isSome hl
  simpa using this

theorem processSingleCOT_congr (self self' : CorrelatedOTProtocol) (ss : Bytes) (i : Nat)
    (b : Bool) (pa e0 e1 : Bytes) (len : Nat) :
    self.processSingleCOT ss i b pa e0 e1 len = self'.processSingleCOT ss i b pa e0 e1 len :=
  rfl

theorem executeCOTMultiplication_loop_congr (self self' : CorrelatedOTProtocol) (u : Undef)
    (y : Nat) (A E0 E1 : Bytes) :
    ∀ n i acc calls,
      self.executeCOTMultiplication_loop u y A E0 E1 n i acc calls
        = self'.executeCOTMultiplication_loop u y A E0 E1 n i acc calls := by
  intro n
  induction n with
  | zero => intro i acc calls; rfl
  | succ n ih =>
    intro i acc calls
    rw [CorrelatedOTProtocol.executeCOTMultiplication_loop,
      CorrelatedOTProtocol.executeCOTMultiplication_loop,
      processSingleCOT_congr self self']
    cases self'.processSingleCOT (u.secretOf i) i (CorrelatedOTProtocol.getBit y i)
        (A.drop (i * 65)) (E0.drop (i * 32)) (E1.drop (i * 32)) 32 with
    | none => rfl
    | some v => exact ih _ _ _

theorem executeBobMTA_congr (m m' : MTAProtocol) (u : Undef) (y : Nat) (a : AliceMessages)
    (hb : m.beta = m'.beta)
    (hn : m.cot_protocol.ot_instances.length = m'.cot_protocol.ot_instances.length) :
    m.executeBobMTA u y a = m'.executeBobMTA u y a := by
  unfold MTAProtocol.executeBobMTA CorrelatedOTProtocol.executeCOTMultiplication
    CorrelatedOTProtocol.executeCOTMultiplication_run
  rw [hb, hn, executeCOTMultiplication_loop_congr m.cot_protocol m'.cot_protocol]

theorem run_cons (c : Curve) (codec : Codec) (fuel : Nat) (u : Undef) (w w1 : Conn) (e : Event)
    (a1 : List Action) (es : List Event)
    (hs : Conn.step c codec fuel u w e = some (w1, a1)) :
    Conn.run c codec fuel u w (e :: es)
      = (Conn.run c codec fuel u w1 es).map (fun r => (r.1, a1 ++ r.2)) := by
  rw [Conn.run, hs]
  simp only
  cases Conn.run c codec fuel u w1 es with
  | none => rfl
  | some r => rfl

theorem run_cons_some (c : Curve) (codec : Codec) (fuel : Nat) (u : Undef) (w w1 w2 : Conn)
    (e : Event) (a1 a2 : List Action) (es : List Event)
    (hs : Conn.step c codec fuel u w e = some (w1, a1))
    (hr : Conn.run c codec fuel u w1 es = some (w2, a2)) :
    Conn.run c codec fuel u w (e :: es) = some (w2, a1 ++ a2) := by
  rw [run_cons c codec fuel u w w1 e a1 es hs, hr]
  rfl

theorem step_size_read_some (c : Curve) (codec : Codec) (fuel : Nat) (u : Undef) (w : Conn)
    (hdr : Bytes) (hp : w.pending = Pending.read_size) (h4 : 4 ≤ w.session.read_buffer_.length)
    (hlen : hdr.length = 4) :
    Conn.step c codec fuel u w (Event.size_read false hdr)
      = some ({ w with session := (w.session.on_size_read false hdr).1,
                       pending := Pending.read_body (sizeOf4 hdr) }, []) := by
  have h := on_size_read_sizeOf4 w.session hdr hlen h4
  simp only [Conn.step, hp, h.1]

theorem step_write_done_setup (c : Curve) (codec : Codec) (fuel : Nat) (u : Undef) (w : Conn)
    (hp : w.pending = Pending.write)
    (hst : w.session.state_ = ProtocolState.SENDING_BOB_SETUP) :
    Conn.step c codec fuel u w (Event.write_done false)
      = some ({ w with
                session := { w.session with state_ := ProtocolState.WAITING_FOR_ALICE_MESSAGES },
                pending := Pending.read_size }, [Action.bob_setup_written]) := by
  simp [Conn.step, hp, Session.on_write_done, hst]

theorem step_write_done_messages (c : Curve) (codec : Codec) (fuel : Nat) (u : Undef) (w : Conn)
    (hp : w.pending = Pending.write)
    (hst : w.session.state_ = ProtocolState.SENDING_BOB_MESSAGES) :
    Conn.step c codec fuel u w (Event.write_done false)
      = some ({ w with
                session := { w.session with state_ := ProtocolState.PROTOCOL_COMPLETE },
                pending := Pending.idle }, [Action.protocol_complete]) := by
  simp [Conn.step, hp, Session.on_write_done, hst]

theorem step_delta_some (c : Curve) (codec : Codec) (fuel : Nat) (u : Undef) (w : Conn)
    (m : Nat) (d : Bytes) (delta : Nat) (hp : w.pending = Pending.read_body m)
    (hd : d.length = m) (hm : m ≤ w.session.read_buffer_.length)
    (hl : w.session.last_message_size_ = m)
    (hst : w.session.state_ = ProtocolState.WAITING_FOR_CORRELATION_DELTA)
    (hdec : codec.decodeCorrelationDelta d = some delta) (hprod : w.rng.productive c fuel)
    (hsetup : ∀ r : mta_BobSetup, r.public_key.length = 65 →
      (MTAProtobufHandler.serializeBobSetup codec r).isEmpty = false)
    (hsc : w.mta.cot_protocol.stored_scalars.length = 1024) :
    ∃ w1, Conn.step c codec fuel u w (Event.body_read false d)
        = some (w1, [Action.delta_decoded, Action.bob_setup_sent]) ∧
      w1.pending = Pending.write ∧
      w1.session.state_ = ProtocolState.SENDING_BOB_SETUP ∧
      w1.mta.cot_protocol.ot_instances.length = 32 ∧
      w1.session.read_buffer_.length = w.session.read_buffer_.length ∧
      w1.session.bob_y_share_ = w.session.bob_y_share_ ∧
      w1.rng.word = w.rng.word ∧ w1.rng.wordsDrawn = w.rng.wordsDrawn := by
  have hb := body_read_message w.session m d hd hm hl
  have hf := on_body_read_frame w.session m false d
  have hy := congrArg Session.bob_y_share_ hf.1
  simp only at hy
  rw [hst] at hb
  have hsome := process_correlation_delta_isSome c codec fuel
    (w.session.on_body_read m false d).1 w.mta w.rng d hprod
  obtain ⟨o, ho⟩ := Option.isSome_iff_exists.1 hsome
  obtain ⟨cr, hcr, hmta, horng, hbs, _, hrb, _, hys, _, hw⟩ :=
    process_correlation_delta_some c codec fuel _ w.mta w.rng d delta hdec o ho
  have hwords := initializeCOT_loop_spec c fuel BIT_LENGTH 0
    { w.mta.cot_protocol with correlation_x := delta % 2 ^ 32, ot_instances := [] } w.rng
    { points_B := List.replicate (BIT_LENGTH * 65) 0, correlation_x := delta % 2 ^ 32,
      success := false }
    cr (by simp [BIT_LENGTH]) (List.length_replicate _ _) hsc hcr
  have hfr := process_correlation_delta_frame c codec fuel _ w.mta w.rng d delta hdec o ho
  have hrec : o.session.bobSetupRecord.public_key.length = 65 := by
    simp only [Session.bobSetupRecord, hbs]
    rw [range65_record]
    rfl
  have hws : o.written.isSome = true := by
    rw [hw, hsetup _ hrec]
    rfl
  have hprm : Session.process_received_message c codec fuel u
      (w.session.on_body_read m false d).1 w.mta w.rng = some o := by
    unfold Session.process_received_message
    rw [hb.2.1]
    simp only
    rw [hb.2.2]
    exact ho
  have hmil : Session.milestones codec (w.session.on_body_read m false d).1 o
      = [Action.delta_decoded, Action.bob_setup_sent] := by
    unfold Session.milestones
    rw [hb.2.1]
    simp only [hb.2.2, hdec, hws, Option.isSome_some, if_true]
    rfl
  refine ⟨{ session := o.session, mta := o.mta, rng := o.rng, pending := Pending.write },
    ?_, rfl, hfr.1, ?_, ?_, ?_, ?_, ?_⟩
  · rw [step_body_read_eq c codec fuel u w m false d hp, if_pos hb.1, hprm]
    simp only [hmil, hws, if_true]
  · simp only [hmta]
    exact (initializeCOT_some c fuel _ w.rng _ cr hcr).2
  · simp only [hrb]
    exact hf.2.1
  · simp only [hys]
    exact hy
  · simp only [horng]
    exact hwords.2.2.2.1
  · simp only [horng]
    exact hwords.2.2.2.2.1

theorem step_alice_some (c : Curve) (codec : Codec) (fuel : Nat) (u : Undef) (w : Conn)
    (m : Nat) (a : Bytes) (hp : w.pending = Pending.read_body m)
    (hd : a.length = m) (hm : m ≤ w.session.read_buffer_.length)
    (hl : w.session.last_message_size_ = m)
    (hst : w.session.state_ = ProtocolState.WAITING_FOR_ALICE_MESSAGES)
    (h5 : 5 ≤ m) (hn : w.mta.cot_protocol.ot_instances.length = 32)
    (hmsgs : ∀ b : BobMessages, (MTAProtocol.serializeBobMessages codec b).isEmpty = false) :
    ∃ w1, Conn.step c codec fuel u w (Event.body_read false a)
        = some (w1, [Action.alice_processing, Action.alice_accepted,
            Action.bob_messages_sent]) ∧
      w1.pending = Pending.write ∧
      w1.session.state_ = ProtocolState.SENDING_BOB_MESSAGES ∧
      w1.mta.beta = (random32 w.rng).1 ∧
      w1.session.bob_messages_.masked_share
        = w.session.bob_y_share_ * (random32 w.rng).1 % 2 ^ 32 ∧
      w1.session.bob_y_share_ = w.session.bob_y_share_ ∧
      w1.session.bob_additive_share_
        = (({ w.mta with beta := (random32 w.rng).1 } : MTAProtocol).executeBobMTA u
            w.session.bob_y_share_
            (MTAProtocol.deserializeAliceMessages u a AliceMessages.new).2).additive_share := by
  have hb := body_read_message w.session m a hd hm hl
  rw [hst] at hb
  have hf := on_body_read_frame w.session m false a
  have hy := congrArg Session.bob_y_share_ hf.1
  simp only at hy
  have hdl := deserialize_lengths u a AliceMessages.new (by omega)
  have hex := executeBobMTA_eq ({ w.mta with beta := (random32 w.rng).1 } : MTAProtocol) u
    (w.session.on_body_read m false a).1.bob_y_share_
    (MTAProtocol.deserializeAliceMessages u a AliceMessages.new).2 hdl.1 hn hdl.2.1 hdl.2.2.1
    hdl.2.2.2
  have hsent := process_alice_messages_sent codec u (w.session.on_body_read m false a).1
    w.mta w.rng a (by omega) (by rw [hex])
  have hacc := process_alice_messages_accepts codec u (w.session.on_body_read m false a).1
    w.mta w.rng a (by omega) hn
  have hws : (Session.process_alice_messages codec u (w.session.on_body_read m false a).1
      w.mta w.rng a).written.isSome = true := by
    rw [hacc.2.2, if_neg (by rw [hmsgs]; exact Bool.noConfusion)]
    rfl
  have hprm : Session.process_received_message c codec fuel u
      (w.session.on_body_read m false a).1 w.mta w.rng
      = some (Session.process_alice_messages codec u (w.session.on_body_read m false a).1
          w.mta w.rng a) := by
    unfold Session.process_received_message
    rw [hb.2.1]
    simp only
    rw [hb.2.2]
  have hmil : Session.milestones codec (w.session.on_body_read m false a).1
      (Session.process_alice_messages codec u (w.session.on_body_read m false a).1
          w.mta w.rng a)
      = [Action.alice_processing, Action.alice_accepted, Action.bob_messages_sent] := by
    unfold Session.milestones
    rw [hb.2.1]
    simp only [hacc.1, hws, if_true]
    rfl
  refine ⟨⟨(Session.process_alice_messages codec u
        (w.session.on_body_read m false a).1 w.mta w.rng a).session,
      (Session.process_alice_messages codec u
        (w.session.on_body_read m false a).1 w.mta w.rng a).mta,
      (Session.process_alice_messages codec u
        (w.session.on_body_read m false a).1 w.mta w.rng a).rng,
      Pending.write⟩, ?_, rfl, hacc.1, ?_, ?_, ?_, ?_⟩
  · rw [step_body_read_eq c codec fuel u w m false a hp, if_pos hb.1, hprm]
    simp only [hmil, hws, if_true]
  · simp only [hsent]
  · simp only [hacc.2.1, hy]
  · simp only [(process_alice_messages_buffers codec u _ w.mta w.rng a).2.2]
    exact hy
  · simp only [hsent, send_bob_messages_additive, hy]

theorem run_exchange_from (c : Curve) (codec : Codec) (fuel : Nat) (u : Undef) (s0 : Session)
    (mta : MTAProtocol) (rng : Rng) (hdr d hdrA alice : Bytes) (delta : Nat)
    (hst0 : s0.state_ = ProtocolState.WAITING_FOR_CORRELATION_DELTA)
    (hlen0 : 4 ≤ s0.read_buffer_.length)
    (hprod : rng.productive c fuel)
    (hsetup : ∀ r : mta_BobSetup, r.public_key.length = 65 →
      (MTAProtobufHandler.serializeBobSetup codec r).isEmpty = false)
    (hmsgs : ∀ b : BobMessages, (MTAProtocol.serializeBobMessages codec b).isEmpty = false)
    (hh : hdr.length = 4) (hd : d.length = sizeOf4 hdr)
    (hdec : codec.decodeCorrelationDelta d = some delta)
    (hhA : hdrA.length = 4) (hA : alice.length = sizeOf4 hdrA) (h5 : 5 ≤ alice.length)
    (hsc : mta.cot_protocol.stored_scalars.length = 1024) :
    ∃ w, Conn.run c codec fuel u (Conn.start s0 mta rng)
        (exchange hdr d hdrA alice) = some (w, Action.canonical) ∧
      w.session.state_ = ProtocolState.PROTOCOL_COMPLETE ∧ w.pending = Pending.idle ∧
      w.mta.beta = rng.word rng.wordsDrawn % 2 ^ 32 ∧
      w.session.bob_messages_.masked_share
        = s0.bob_y_share_ * (rng.word rng.wordsDrawn % 2 ^ 32) % 2 ^ 32 ∧
      (∀ m : MTAProtocol, m.beta = rng.word rng.wordsDrawn % 2 ^ 32 →
        m.cot_protocol.ot_instances.length = 32 →
        w.session.bob_additive_share_
          = (m.executeBobMTA u s0.bob_y_share_
              (MTAProtocol.deserializeAliceMessages u alice AliceMessages.new).2).additive_share) := by
  have hz1 := on_size_read_sizeOf4 s0 hdr hh hlen0
  have hs1 := step_size_read_some c codec fuel u (Conn.start s0 mta rng) hdr rfl hlen0 hh
  have hm1 : sizeOf4 hdr ≤ (s0.on_size_read false hdr).1.read_buffer_.length := by
    rw [hz1.2.2.1]
    exact Nat.le_max_left _ _
  obtain ⟨w2, hs2, hp2, hst2, hn2, hlen2, hy2, hw2, hwd2⟩ := step_delta_some c codec fuel u
    { Conn.start s0 mta rng with
      session := (s0.on_size_read false hdr).1,
      pending := Pending.read_body (sizeOf4 hdr) }
    (sizeOf4 hdr) d delta rfl hd hm1 hz1.2.1 (hz1.2.2.2.trans hst0) hdec hprod hsetup hsc
  have hy1 : (s0.on_size_read false hdr).1.bob_y_share_ = s0.bob_y_share_ := by
    have := congrArg Session.bob_y_share_ (on_size_read_frame s0 false hdr).1
    exact this
  have hy4 : (({ w2.session with
      state_ := ProtocolState.WAITING_FOR_ALICE_MESSAGES } : Session).on_size_read
        false hdrA).1.bob_y_share_ = s0.bob_y_share_ := by
    have := congrArg Session.bob_y_share_ (on_size_read_frame ({ w2.session with
      state_ := ProtocolState.WAITING_FOR_ALICE_MESSAGES } : Session) false hdrA).1
    exact this.trans (hy2.trans hy1)
  have hbeta : (random32 w2.rng).1 = rng.word rng.wordsDrawn % 2 ^ 32 := by
    unfold random32
    simp only
    rw [hw2, hwd2]
    rfl
  have hlen3 : 4 ≤ w2.session.read_buffer_.length := by
    rw [hlen2]
    show 4 ≤ (s0.on_size_read false hdr).1.read_buffer_.length
    rw [hz1.2.2.1]
    exact Nat.le_trans hlen0 (Nat.le_max_right _ _)
  have hs3 := step_write_done_setup c codec fuel u w2 hp2 hst2
  have hz4 := on_size_read_sizeOf4
    ({ w2.session with state_ := ProtocolState.WAITING_FOR_ALICE_MESSAGES } : Session) hdrA hhA
    hlen3
  have hs4 := step_size_read_some c codec fuel u
    { w2 with
      session := { w2.session with state_ := ProtocolState.WAITING_FOR_ALICE_MESSAGES },
      pending := Pending.read_size } hdrA rfl hlen3 hhA
  have hm4 : sizeOf4 hdrA ≤ (({ w2.session with
      state_ := ProtocolState.WAITING_FOR_ALICE_MESSAGES } : Session).on_size_read
        false hdrA).1.read_buffer_.length := by
    rw [hz4.2.2.1]
    exact Nat.le_max_left _ _
  obtain ⟨w5, hs5, hp5, hst5, hb5, hms5, _, hadd5⟩ := step_alice_some c codec fuel u
    { w2 with
      session := (({ w2.session with
        state_ := ProtocolState.WAITING_FOR_ALICE_MESSAGES } : Session).on_size_read
          false hdrA).1,
      pending := Pending.read_body (sizeOf4 hdrA) }
    (sizeOf4 hdrA) alice rfl hA hm4 hz4.2.1 (hz4.2.2.2.trans rfl) (by omega) hn2 hmsgs
  have hs6 := step_write_done_messages c codec fuel u w5 hp5 hst5
  have r6 := run_cons_some c codec fuel u _ _ _ _ _ _ [] hs6 rfl
  have r5 := run_cons_some c codec fuel u _ _ _ _ _ _ _ hs5 r6
  have r4 := run_cons_some c codec fuel u _ _ _ _ _ _ _ hs4 r5
  have r3 := run_cons_some c codec fuel u _ _ _ _ _ _ _ hs3 r4
  have r2 := run_cons_some c codec fuel u _ _ _ _ _ _ _ hs2 r3
  have r1 := run_cons_some c codec fuel u _ _ _ _ _ _ _ hs1 r2
  simp only at hb5 hms5 hadd5
  rw [hbeta] at hb5 hms5 hadd5
  rw [hy4] at hms5 hadd5
  refine ⟨_, r1, rfl, rfl, hb5, hms5, ?_⟩
  intro m hmb hmn
  show w5.session.bob_additive_share_ = _
  rw [hadd5]
  exact congrArg MTAResult.additive_share
    (executeBobMTA_congr _ m u _ _ hmb.symm (hn2.trans hmn.symm))

theorem send_bob_messages_written (codec : Codec) (s : Session) :
    (Session.send_bob_messages codec s).2.isSome
      = (s.bob_messages_.success &&
          !(MTAProtocol.serializeBobMessages codec s.bob_messages_).isEmpty) := by
  unfold Session.send_bob_messages
  cases hs : s.bob_messages_.success with
  | false => simp
  | true =>
    simp only [Bool.not_true, Bool.false_eq_true, if_false, Bool.true_and]
    cases he : (MTAProtocol.serializeBobMessages codec s.bob_messages_).isEmpty with
    | false => simp
    | true => simp

theorem process_alice_messages_alike (codec : Codec) (u : Undef) (s1 s2 : Session)
    (mta1 mta2 : MTAProtocol) (rng : Rng) (data : Bytes)
    (hy : s1.bob_y_share_ = s2.bob_y_share_) (hst : s1.state_ = s2.state_)
    (hadd : s1.bob_additive_share_ = s2.bob_additive_share_)
    (hmsg : s1.bob_messages_ = s2.bob_messages_) (hbeta : mta1.beta = mta2.beta)
    (hn : mta1.cot_protocol.ot_instances.length = mta2.cot_protocol.ot_instances.length) :
    (Session.process_alice_messages codec u s1 mta1 rng data).rng
      = (Session.process_alice_messages codec u s2 mta2 rng data).rng ∧
    (Session.process_alice_messages codec u s1 mta1 rng data).mta.beta
      = (Session.process_alice_messages codec u s2 mta2 rng data).mta.beta ∧
    (Session.process_alice_messages codec u s1 mta1 rng data).mta.cot_protocol.ot_instances.length
      = (Session.process_alice_messages codec u s2 mta2 rng
          data).mta.cot_protocol.ot_instances.length ∧
    (Session.process_alice_messages codec u s1 mta1 rng data).session.state_
      = (Session.process_alice_messages codec u s2 mta2 rng data).session.state_ ∧
    (Session.process_alice_messages codec u s1 mta1 rng data).session.bob_y_share_
      = (Session.process_alice_messages codec u s2 mta2 rng data).session.bob_y_share_ ∧
    (Session.process_alice_messages codec u s1 mta1 rng data).session.bob_additive_share_
      = (Session.process_alice_messages codec u s2 mta2 rng data).session.bob_additive_share_ ∧
    (Session.process_alice_messages codec u s1 mta1 rng data).session.bob_messages_
      = (Session.process_alice_messages codec u s2 mta2 rng data).session.bob_messages_ ∧
    (Session.process_alice_messages codec u s1 mta1 rng data).written.isSome
      = (Session.process_alice_messages codec u s2 mta2 rng data).written.isSome ∧
    ((Session.process_alice_messages codec u s1 mta1 rng data).session.state_ = s1.state_ ∨
      (Session.process_alice_messages codec u s1 mta1 rng data).session.state_
        = ProtocolState.SENDING_BOB_MESSAGES) := by
  have hex := executeBobMTA_congr ({ mta1 with beta := (random32 rng).1 } : MTAProtocol)
    ({ mta2 with beta := (random32 rng).1 } : MTAProtocol) u s1.bob_y_share_
    (MTAProtocol.deserializeAliceMessages u data AliceMessages.new).2 rfl hn
  rw [process_alice_messages_eq codec u s1, process_alice_messages_eq codec u s2, ← hy, ← hex]
  split
  · exact ⟨rfl, hbeta, hn, hst, hy, hadd, hmsg, rfl, Or.inl rfl⟩
  · split
    · exact ⟨rfl, rfl, hn, hst, rfl, hadd, rfl, rfl, Or.inl rfl⟩
    · refine ⟨rfl, rfl, hn, ?_, ?_, ?_, ?_, ?_, Or.inr ?_⟩
      · simp only [send_bob_messages_state]
      · simp only [send_bob_messages_y]
      · simp only [send_bob_messages_additive]
      · simp only [send_bob_messages_messages]
      · simp only [send_bob_messages_written]
      · simp only [send_bob_messages_state]

theorem process_received_message_later (c : Curve) (codec : Codec) (fuel : Nat) (u : Undef)
    (s : Session) (mta : MTAProtocol) (rng : Rng)
    (hst : s.state_ ≠ ProtocolState.WAITING_FOR_CORRELATION_DELTA) :
    Session.process_received_message c codec fuel u s mta rng
      = some (if s.state_ = ProtocolState.WAITING_FOR_ALICE_MESSAGES then
          Session.process_alice_messages codec u s mta rng
            (s.read_buffer_.take s.last_message_size_)
        else { session := s, mta := mta, rng := rng, written := none }) := by
  unfold Session.process_received_message
  split
  · rename_i h; exact absurd h hst
  · rename_i h; rw [if_pos h]
  · rename_i h1 h2; rw [if_neg h2]

theorem step_alike (c : Curve) (codec : Codec) (fuel : Nat) (u : Undef) (w1 w2 : Conn)
    (e : Event) (v1 v2 : Conn) (a1 a2 : List Action) (hal : w1.Alike w2)
    (hs1 : Conn.step c codec fuel u w1 e = some (v1, a1))
    (hs2 : Conn.step c codec fuel u w2 e = some (v2, a2)) : v1.Alike v2 := by
  obtain ⟨hp, hrng, hbeta, hn, hst, hnd, hy, hadd, hmsg, h41, h42, hbody⟩ := hal
  cases e with
  | size_read ec data =>
    unfold Conn.step at hs1 hs2
    cases hp1 : w1.pending with
    | read_size =>
      have hp2 : w2.pending = Pending.read_size := by rw [← hp, hp1]
      rw [hp1] at hs1
      rw [hp2] at hs2
      simp only [Option.some.injEq, Prod.mk.injEq] at hs1 hs2
      obtain ⟨rfl, _⟩ := hs1
      obtain ⟨rfl, _⟩ := hs2
      have f1 := on_size_read_frame w1.session ec data
      have f2 := on_size_read_frame w2.session ec data
      have e1 := f1.2.2.2 h41
      have e2 := f2.2.2.2 h42
      have a1 := congrArg Session.state_ f1.1
      have a2 := congrArg Session.state_ f2.1
      have b1 := congrArg Session.bob_y_share_ f1.1
      have b2 := congrArg Session.bob_y_share_ f2.1
      have c1 := congrArg Session.bob_additive_share_ f1.1
      have c2 := congrArg Session.bob_additive_share_ f2.1
      have d1 := congrArg Session.bob_messages_ f1.1
      have d2 := congrArg Session.bob_messages_ f2.1
      simp only at a1 a2 b1 b2 c1 c2 d1 d2
      refine ⟨?_, hrng, hbeta, hn, ?_, ?_, ?_, ?_, ?_, ?_, ?_, ?_⟩
      · simp only [e1, e2]
      · simp only [a1, a2]
        exact hst
      · simp only [a1]
        exact hnd
      · simp only [b1, b2]
        exact hy
      · simp only [c1, c2]
        exact hadd
      · simp only [d1, d2]
        exact hmsg
      · exact Nat.le_trans h41 f1.2.1
      · exact Nat.le_trans h42 f2.2.1
      · intro m hm
        simp only at hm
        cases hr : (w1.session.on_size_read ec data).2 with
        | none => rw [hr] at hm; exact Pending.noConfusion hm
        | some k =>
          rw [hr] at hm
          simp only [Pending.read_body.injEq] at hm
          subst hm
          have hr2 : (w2.session.on_size_read ec data).2 = some k := by
            rw [e2, ← e1, hr]
          have g1 := f1.2.2.1 k hr
          have g2 := f2.2.2.1 k hr2
          exact ⟨g1.1, g1.2, g2.1, g2.2⟩
    | idle => rw [hp1] at hs1; exact Option.noConfusion hs1
    | read_body k => rw [hp1] at hs1; exact Option.noConfusion hs1
    | write => rw [hp1] at hs1; exact Option.noConfusion hs1
  | body_read ec data =>
    cases hp1 : w1.pending with
    | read_body k =>
      have hp2 : w2.pending = Pending.read_body k := by rw [← hp, hp1]
      obtain ⟨hl1, hk1, hl2, hk2⟩ := hbody k hp1
      rw [step_body_read_eq c codec fuel u w1 k ec data hp1] at hs1
      rw [step_body_read_eq c codec fuel u w2 k ec data hp2] at hs2
      have f1 := on_body_read_frame w1.session k ec data
      have f2 := on_body_read_frame w2.session k ec data
      have e1 := f1.2.2 hk1
      have e2 := f2.2.2 hk2
      have a1 := congrArg Session.state_ f1.1
      have a2 := congrArg Session.state_ f2.1
      have b1 := congrArg Session.bob_y_share_ f1.1
      have b2 := congrArg Session.bob_y_share_ f2.1
      have c1 := congrArg Session.bob_additive_share_ f1.1
      have c2 := congrArg Session.bob_additive_share_ f2.1
      have d1 := congrArg Session.bob_messages_ f1.1
      have d2 := congrArg Session.bob_messages_ f2.1
      have l1 := congrArg Session.last_message_size_ f1.1
      have l2 := congrArg Session.last_message_size_ f2.1
      simp only at a1 a2 b1 b2 c1 c2 d1 d2 l1 l2
      by_cases hr : (w1.session.on_body_read k ec data).2 = true
      · have hr2 : (w2.session.on_body_read k ec data).2 = true := by
          rw [e2.1, ← e1.1, hr]
        rw [if_pos hr] at hs1
        rw [if_pos hr2] at hs2
        rw [process_received_message_later c codec fuel u _ w1.mta w1.rng
          (by rw [a1]; exact hnd)] at hs1
        rw [process_received_message_later c codec fuel u _ w2.mta w2.rng
          (by rw [a2, ← hst]; exact hnd)] at hs2
        simp only [Option.some.injEq, Prod.mk.injEq] at hs1 hs2
        obtain ⟨rfl, _⟩ := hs1
        obtain ⟨rfl, _⟩ := hs2
        have hm1 : (w1.session.on_body_read k ec data).1.read_buffer_.take
            (w1.session.on_body_read k ec data).1.last_message_size_ = data.take k := by
          rw [l1, hl1]
          exact e1.2 hr
        have hm2 : (w2.session.on_body_read k ec data).1.read_buffer_.take
            (w2.session.on_body_read k ec data).1.last_message_size_ = data.take k := by
          rw [l2, hl2]
          exact e2.2 hr2
        rw [hm1, hm2, a1, a2, ← hst, ← hrng]
        by_cases hwa : w1.session.state_ = ProtocolState.WAITING_FOR_ALICE_MESSAGES
        · rw [if_pos hwa, if_pos hwa]
          have hal := process_alice_messages_alike codec u
            (w1.session.on_body_read k ec data).1 (w2.session.on_body_read k ec data).1
            w1.mta w2.mta w1.rng (data.take k)
            (by rw [b1, b2]; exact hy) (by rw [a1, a2]; exact hst)
            (by rw [c1, c2]; exact hadd) (by rw [d1, d2]; exact hmsg) hbeta hn
          obtain ⟨q1, q2, q3, q4, q5, q6, q7, q8, q9⟩ := hal
          have hb1 := process_alice_messages_buffers codec u
            (w1.session.on_body_read k ec data).1 w1.mta w1.rng (data.take k)
          have hb2 := process_alice_messages_buffers codec u
            (w2.session.on_body_read k ec data).1 w2.mta w1.rng (data.take k)
          refine ⟨?_, q1, q2, q3, q4, ?_, q5, q6, q7, ?_, ?_, ?_⟩
          · simp only [q8]
          · rcases q9 with q9 | q9
            · simp only [q9, a1]
              exact hnd
            · simp only [q9]
              exact ProtocolState.noConfusion
          · simp only [hb1.1, f1.2.1]
            exact h41
          · simp only [hb2.1, f2.2.1]
            exact h42
          · intro m hm
            simp only at hm
            split at hm <;> exact Pending.noConfusion hm
        · rw [if_neg hwa, if_neg hwa]
          refine ⟨rfl, rfl, hbeta, hn, ?_, ?_, ?_, ?_, ?_, ?_, ?_, ?_⟩
          · simp only [a1, a2]
            exact hst
          · simp only [a1]
            exact hnd
          · simp only [b1, b2]
            exact hy
          · simp only [c1, c2]
            exact hadd
          · simp only [d1, d2]
            exact hmsg
          · simp only [f1.2.1]
            exact h41
          · simp only [f2.2.1]
            exact h42
          · intro m hm
            exact Pending.noConfusion hm
      · have hr2 : ¬ (w2.session.on_body_read k ec data).2 = true := by
          rw [e2.1, ← e1.1]
          exact hr
        rw [if_neg hr] at hs1
        rw [if_neg hr2] at hs2
        simp only [Option.some.injEq, Prod.mk.injEq] at hs1 hs2
        obtain ⟨rfl, _⟩ := hs1
        obtain ⟨rfl, _⟩ := hs2
        refine ⟨rfl, hrng, hbeta, hn, ?_, ?_, ?_, ?_, ?_, ?_, ?_, ?_⟩
        · simp only [a1, a2]
          exact hst
        · simp only [a1]
          exact hnd
        · simp only [b1, b2]
          exact hy
        · simp only [c1, c2]
          exact hadd
        · simp only [d1, d2]
          exact hmsg
        · simp only [f1.2.1]
          exact h41
        · simp only [f2.2.1]
          exact h42
        · intro m hm
          exact Pending.noConfusion hm
    | idle => unfold Conn.step at hs1; rw [hp1] at hs1; exact Option.noConfusion hs1
    | read_size => unfold Conn.step at hs1; rw [hp1] at hs1; exact Option.noConfusion hs1
    | write => unfold Conn.step at hs1; rw [hp1] at hs1; exact Option.noConfusion hs1
  | write_done ec =>
    unfold Conn.step at hs1 hs2
    cases hp1 : w1.pending with
    | write =>
      have hp2 : w2.pending = Pending.write := by rw [← hp, hp1]
      rw [hp1] at hs1
      rw [hp2] at hs2
      simp only [Option.some.injEq, Prod.mk.injEq] at hs1 hs2
      obtain ⟨rfl, _⟩ := hs1
      obtain ⟨rfl, _⟩ := hs2
      have f1 := on_write_done_frame w1.session ec
      have f2 := on_write_done_frame w2.session ec
      have b1 := congrArg Session.bob_y_share_ f1
      have b2 := congrArg Session.bob_y_share_ f2
      have c1 := congrArg Session.bob_additive_share_ f1
      have c2 := congrArg Session.bob_additive_share_ f2
      have d1 := congrArg Session.bob_messages_ f1
      have d2 := congrArg Session.bob_messages_ f2
      have r1 := congrArg Session.read_buffer_ f1
      have r2 := congrArg Session.read_buffer_ f2
      simp only at b1 b2 c1 c2 d1 d2 r1 r2
      have hsame : (w1.session.on_write_done ec).2 = (w2.session.on_write_done ec).2 ∧
          (w1.session.on_write_done ec).1.state_ = (w2.session.on_write_done ec).1.state_ ∧
          (w1.session.on_write_done ec).1.state_
            ≠ ProtocolState.WAITING_FOR_CORRELATION_DELTA := by
        unfold Session.on_write_done
        rw [← hst]
        split
        · split
          · exact ⟨rfl, rfl, ProtocolState.noConfusion⟩
          · split
            · exact ⟨rfl, rfl, ProtocolState.noConfusion⟩
            · exact ⟨rfl, hst, hnd⟩
        · exact ⟨rfl, hst, hnd⟩
      refine ⟨?_, hrng, hbeta, hn, hsame.2.1, hsame.2.2, ?_, ?_, ?_, ?_, ?_, ?_⟩
      · simp only [hsame.1]
      · simp only [b1, b2]
        exact hy
      · simp only [c1, c2]
        exact hadd
      · simp only [d1, d2]
        exact hmsg
      · simp only [r1]
        exact h41
      · simp only [r2]
        exact h42
      · intro m hm
        simp only at hm
        split at hm <;> exact Pending.noConfusion hm
    | idle => rw [hp1] at hs1; exact Option.noConfusion hs1
    | read_size => rw [hp1] at hs1; exact Option.noConfusion hs1
    | read_body k => rw [hp1] at hs1; exact Option.noConfusion hs1

theorem run_cons_inv (c : Curve) (codec : Codec) (fuel : Nat) (u : Undef) (w v : Conn)
    (e : Event) (es : List Event) (a : List Action)
    (h : Conn.run c codec fuel u w (e :: es) = some (v, a)) :
    ∃ w1 a1 a2, Conn.step c codec fuel u w e = some (w1, a1) ∧
      Conn.run c codec fuel u w1 es = some (v, a2) ∧ a = a1 ++ a2 := by
  rw [Conn.run] at h
  cases hs : Conn.step c codec fuel u w e with
  | none => rw [hs] at h; exact Option.noConfusion h
  | some r =>
    obtain ⟨w2, a2⟩ := r
    rw [hs] at h
    simp only at h
    cases hr : Conn.run c codec fuel u w2 es with
    | none => rw [hr] at h; exact Option.noConfusion h
    | some r2 =>
      obtain ⟨w3, a3⟩ := r2
      rw [hr] at h
      simp only [Option.some.injEq, Prod.mk.injEq] at h
      obtain ⟨rfl, rfl⟩ := h
      exact ⟨w2, a2, a3, rfl, hr, rfl⟩

theorem run_alike (c : Curve) (codec : Codec) (fuel : Nat) (u : Undef) :
    ∀ (evs : List Event) (w1 w2 v1 v2 : Conn) (a1 a2 : List Action), w1.Alike w2 →
      Conn.run c codec fuel u w1 evs = some (v1, a1) →
      Conn.run c codec fuel u w2 evs = some (v2, a2) → v1.Alike v2 := by
  intro evs
  induction evs with
  | nil =>
    intro w1 w2 v1 v2 a1 a2 hal h1 h2
    simp only [Conn.run, Option.some.injEq, Prod.mk.injEq] at h1 h2
    obtain ⟨rfl, _⟩ := h1
    obtain ⟨rfl, _⟩ := h2
    exact hal
  | cons e es ih =>
    intro w1 w2 v1 v2 a1 a2 hal h1 h2
    obtain ⟨x1, b1, c1, hs1, hr1, _⟩ := run_cons_inv c codec fuel u w1 v1 e es a1 h1
    obtain ⟨x2, b2, c2, hs2, hr2, _⟩ := run_cons_inv c codec fuel u w2 v2 e es a2 h2
    exact ih x1 x2 v1 v2 c1 c2 (step_alike c codec fuel u w1 w2 e x1 x2 b1 b2 hal hs1 hs2)
      hr1 hr2

theorem delta_phase (c : Curve) (codec : Codec) (fuel : Nat) (u : Undef) (w0 wa wb : Conn)
    (ea eb : Bool) (hdr d : Bytes) (aa ab : List Action)
    (hp0 : w0.pending = Pending.read_size)
    (hst0 : w0.session.state_ = ProtocolState.WAITING_FOR_CORRELATION_DELTA)
    (h40 : 4 ≤ w0.session.read_buffer_.length)
    (hs1 : Conn.step c codec fuel u w0 (Event.size_read ea hdr) = some (wa, aa))
    (hs2 : Conn.step c codec fuel u wa (Event.body_read eb d) = some (wb, ab)) :
    wb.session.bob_additive_share_ = w0.session.bob_additive_share_ ∧
    wb.session.bob_messages_ = w0.session.bob_messages_ ∧
    wb.session.bob_y_share_ = w0.session.bob_y_share_ ∧
    wb.mta.beta = w0.mta.beta ∧
    4 ≤ wb.session.read_buffer_.length ∧
    (wb.pending = Pending.idle ∨
      (wb.pending = Pending.write ∧
        wb.session.state_ = ProtocolState.SENDING_BOB_SETUP ∧
        ∃ delta cr, w0.mta.cot_protocol.initializeCOT c fuel w0.rng delta = some cr ∧
          wb.rng = cr.2.2 ∧ wb.mta.cot_protocol = cr.2.1)) := by
  unfold Conn.step at hs1
  rw [hp0] at hs1
  simp only [Option.some.injEq, Prod.mk.injEq] at hs1
  obtain ⟨rfl, _⟩ := hs1
  have f1 := on_size_read_frame w0.session ea hdr
  have a1 := congrArg Session.state_ f1.1
  have b1 := congrArg Session.bob_y_share_ f1.1
  have c1 := congrArg Session.bob_additive_share_ f1.1
  have d1 := congrArg Session.bob_messages_ f1.1
  simp only at a1 b1 c1 d1
  cases hr : (w0.session.on_size_read ea hdr).2 with
  | none =>
    rw [step_idle c codec fuel u _ (by simp only [hr]) _] at hs2
    exact Option.noConfusion hs2
  | some k =>
    rw [step_body_read_eq c codec fuel u _ k eb d (by simp only [hr])] at hs2
    simp only at hs2
    have f2 := on_body_read_frame (w0.session.on_size_read ea hdr).1 k eb d
    have a2 := congrArg Session.state_ f2.1
    have b2 := congrArg Session.bob_y_share_ f2.1
    have c2 := congrArg Session.bob_additive_share_ f2.1
    have d2 := congrArg Session.bob_messages_ f2.1
    simp only at a2 b2 c2 d2
    have hlen : 4 ≤ ((w0.session.on_size_read ea hdr).1.on_body_read k eb d).1.read_buffer_.length := by
      rw [f2.2.1]
      exact Nat.le_trans h40 f1.2.1
    by_cases hflag : ((w0.session.on_size_read ea hdr).1.on_body_read k eb d).2 = true
    · rw [if_pos hflag] at hs2
      cases ho : Session.process_received_message c codec fuel u
          ((w0.session.on_size_read ea hdr).1.on_body_read k eb d).1 w0.mta w0.rng with
      | none => rw [ho] at hs2; exact Option.noConfusion hs2
      | some o =>
        rw [ho] at hs2
        simp only [Option.some.injEq, Prod.mk.injEq] at hs2
        obtain ⟨rfl, _⟩ := hs2
        have hbuf := process_received_message_buffers c codec fuel u _ w0.mta w0.rng o ho
        unfold Session.process_received_message at ho
        rw [a2, a1, hst0] at ho
        simp only at ho
        cases hd : codec.decodeCorrelationDelta
            (((w0.session.on_size_read ea hdr).1.on_body_read k eb d).1.read_buffer_.take
              ((w0.session.on_size_read ea hdr).1.on_body_read k eb
                d).1.last_message_size_) with
        | none =>
          rcases process_correlation_delta_cases c codec fuel _ w0.mta w0.rng _ o ho with
            ⟨_, rfl⟩ | ⟨h, _⟩
          · refine ⟨?_, ?_, ?_, rfl, hlen, Or.inl rfl⟩
            · simp only [c2, c1]
            · simp only [d2, d1]
            · simp only [b2, b1]
          · rw [hd] at h; exact Bool.noConfusion h
        | some delta =>
          obtain ⟨cr, hcr, hmta, hrng, _, _, _, _, hy, _, _⟩ :=
            process_correlation_delta_some c codec fuel _ w0.mta w0.rng _ delta hd o ho
          have hfr := process_correlation_delta_frame c codec fuel _ w0.mta w0.rng _ delta hd o ho
          refine ⟨?_, ?_, ?_, hfr.2.2.2.2, ?_, ?_⟩
          · simp only [hfr.2.1, c2, c1]
          · simp only [hfr.2.2.1, d2, d1]
          · simp only [hy, b2, b1]
          · simp only [hbuf.1]
            exact hlen
          · cases hw : o.written with
            | none => exact Or.inl rfl
            | some b =>
              refine Or.inr ⟨rfl, hfr.1, delta % 2 ^ 32, cr, hcr, hrng, ?_⟩
              simp only [hmta]
    · rw [if_neg hflag] at hs2
      simp only [Option.some.injEq, Prod.mk.injEq] at hs2
      obtain ⟨rfl, _⟩ := hs2
      refine ⟨?_, ?_, ?_, rfl, hlen, Or.inl rfl⟩
      · simp only [c2, c1]
      · simp only [d2, d1]
      · simp only [b2, b1]

theorem exCodec_serializeBobMessages (b : BobMessages) :
    (MTAProtocol.serializeBobMessages exCodec b).isEmpty = false := by
  simp [MTAProtocol.serializeBobMessages, MTAProtobufHandler.serializeBobMessages, exCodec,
    MTAProtocol.bobMessagesRecord, MTAProtobufHandler.createBobMessages, le32]

theorem exFrame_size :
    (MTAProtocol.serializeAliceMessages (aliceWith 4)).length = sizeOf4 [37, 16, 0, 0] := by
  have h : sizeOf4 [37, 16, 0, 0] = 4133 := by decide
  rw [h]
  simp only [MTAProtocol.serializeAliceMessages, aliceWith, List.length_append,
    List.length_cons, List.length_nil, length_pointsWith, s1_E0, s1_E1, length_chunks]

theorem exEngine_scalars_length : exEngine.stored_scalars.length = 1024 :=
  (initializeCOT_draws exCurve 1 CorrelatedOTProtocol.new exRng 11 exInit
    length_new_stored_scalars exInit_eq).2.2.1

theorem productive_congr (c : Curve) (fuel : Nat) (rng rng1 : Rng)
    (hb : rng1.buffer = rng.buffer) (hp : rng.productive c fuel) : rng1.productive c fuel := by
  intro n
  obtain ⟨k, hk, ha⟩ := hp n
  exact ⟨k, hk, (accepts_congr c rng rng1 hb _).2 ha⟩

theorem exFull_run (dbyte : Nat) :
    Conn.run exCurve exCodec 1 exUndef
        (Conn.start (Session.new 11 0 32) (exMta exEngine 0) (rngWith 5))
        (Event.size_read false [1, 0, 0, 0] :: Event.body_read false [dbyte] :: exTail)
      = some ((exFull dbyte).1, (exFull dbyte).2) ∧
    (exFull dbyte).2 = Action.canonical ∧
    (exFull dbyte).1.session.state_ = ProtocolState.PROTOCOL_COMPLETE ∧
    (exFull dbyte).1.pending = Pending.idle ∧
    (exFull dbyte).1.mta.beta = 5 ∧
    (exFull dbyte).1.session.bob_messages_.masked_share = 55 ∧
    (exFull dbyte).1.session.bob_additive_share_ = 2779096541 := by
  obtain ⟨w, hw, hst, hp, hbeta, hms, hadd⟩ := run_exchange_from exCurve exCodec 1 exUndef
    (Session.new 11 0 32) (exMta exEngine 0) (rngWith 5) [1, 0, 0, 0] [dbyte] [37, 16, 0, 0]
    (MTAProtocol.serializeAliceMessages (aliceWith 4)) dbyte rfl (new_read_buffer_ge 11 0 32)
    (productive_congr exCurve 1 exRng (rngWith 5) rfl exRng_productive)
    (fun r hr => exCodec_serializeBobSetup r hr) exCodec_serializeBobMessages
    rfl rfl rfl rfl exFrame_size (exFrame_length 4) exEngine_scalars_length
  unfold exchange at hw
  have he : exFull dbyte = (w, Action.canonical) := by
    unfold exFull exTail
    rw [hw]
    rfl
  have hadd2 := hadd (exMta exEngine 5) rfl exEngine_instances
  rw [exFrame_deserialize 4] at hadd2
  have hy : (Session.new 11 0 32).bob_y_share_ = 11 := rfl
  rw [hy] at hadd2 hms
  rw [exBob_eq 5 11 4] at hadd2
  rw [Prod.mk.eta, he]
  refine ⟨hw, rfl, hst, hp, hbeta, hms, ?_⟩
  rw [hadd2]
  show (5 * (7 * 0xA5A5A5A5 % 2 ^ 32) + (s1_U + 7 * 11) % 2 ^ 32) % 2 ^ 32 = 2779096541
  rw [Nat.add_mod s1_U, s1_U_mod]
  rfl

/-- The failure branch of `initializeAsBob`, which no call reaches since `initializeCOT`
never returns `success = false` (`initializeCOT_some`): on such a value the part of
`initializeAsBob` after the call returns a `BobSetup` with `success = true` and empty
`points_B`, and the part of `process_correlation_delta` after its call then moves to
`SENDING_BOB_SETUP` and hands to the encoder a record with `success = true` and no
`ot_messages`. -/
theorem initializeAsBob_return_failure (codec : Codec) (s : Session) (delta : Nat)
    (points_B : Bytes) (correlation_x : Nat) :
    MTAProtocol.initializeAsBob_return delta
        { points_B := points_B, correlation_x := correlation_x, success := false }
      = { points_B := [], correlation_delta := delta, success := true, num_ot_instances := 32,
          public_key := [] } ∧
    (Session.process_correlation_delta_return codec s
      (MTAProtocol.initializeAsBob_return delta
        { points_B := points_B, correlation_x := correlation_x, success := false })).1.state_
      = ProtocolState.SENDING_BOB_SETUP ∧
    (Session.process_correlation_delta_return codec s
      (MTAProtocol.initializeAsBob_return delta
        { points_B := points_B, correlation_x := correlation_x, success := false })).2
      = (if (MTAProtobufHandler.serializeBobSetup codec
              { success := true, ot_messages := [], public_key := List.range 65,
                num_ot_instances := 32 }).isEmpty then none
          else some (s.send_message_with_size (MTAProtobufHandler.serializeBobSetup codec
              { success := true, ot_messages := [], public_key := List.range 65,
                num_ot_instances := 32 })).2) ∧
    ((Session.process_correlation_delta_return exCodec s
      (MTAProtocol.initializeAsBob_return delta
        { points_B := points_B, correlation_x := correlation_x, success := false })).2).isSome
      = true := by
  have hret : MTAProtocol.initializeAsBob_return delta
        { points_B := points_B, correlation_x := correlation_x, success := false }
      = { points_B := [], correlation_delta := delta, success := true, num_ot_instances := 32,
          public_key := [] } := rfl
  have hrec : ∀ t : Session, t.bob_setup_
        = { points_B := [], correlation_delta := delta, success := true,
            num_ot_instances := 32, public_key := (List.range 65).map (fun i => i % 256) } →
      t.bobSetupRecord
        = { success := true, ot_messages := [], public_key := List.range 65,
            num_ot_instances := 32 } := by
    intro t ht
    simp only [Session.bobSetupRecord, ht, range65_bytes, range65_record]
    rfl
  have hgen : ∀ cd : Codec,
      Session.process_correlation_delta_return cd s
        { points_B := [], correlation_delta := delta, success := true, num_ot_instances := 32,
          public_key := [] }
      = if (MTAProtobufHandler.serializeBobSetup cd
              { success := true, ot_messages := [], public_key := List.range 65,
                num_ot_instances := 32 }).isEmpty then
          ({ s with
              bob_setup_ :=
                { points_B := [], correlation_delta := delta, success := true,
                  num_ot_instances := 32,
                  public_key := (List.range 65).map (fun i => i % 256) },
              state_ := ProtocolState.SENDING_BOB_SETUP }, none)
        else
          ({ s with
              bob_setup_ :=
                { points_B := [], correlation_delta := delta, success := true,
                  num_ot_instances := 32,
                  public_key := (List.range 65).map (fun i => i % 256) },
              state_ := ProtocolState.SENDING_BOB_SETUP,
              write_buffer_ := (s.send_message_with_size (MTAProtobufHandler.serializeBobSetup cd
                { success := true, ot_messages := [], public_key := List.range 65,
                  num_ot_instances := 32 })).2 },
            some (s.send_message_with_size (MTAProtobufHandler.serializeBobSetup cd
              { success := true, ot_messages := [], public_key := List.range 65,
                num_ot_instances := 32 })).2) := by
    intro cd
    unfold Session.process_correlation_delta_return
    simp only [Bool.not_true, Bool.false_eq_true, if_false]
    rw [send_bob_setup_eq, hrec _ rfl]
    split <;> rfl
  rw [hret]
  refine ⟨rfl, ?_, ?_, ?_⟩
  · rw [hgen]
    split <;> rfl
  · rw [hgen]
    split <;> rfl
  · have hne := exCodec_serializeBobSetup
      { success := true, ot_messages := [], public_key := List.range 65,
        num_ot_instances := 32 } (List.length_range 65)
    rw [hgen, if_neg (by rw [hne]; exact Bool.noConfusion)]
    rfl

/-! ## Claims -/

/-- C1: after `initializeCOT`, for every `y` and every `points_A` of 2080 bytes and
`E0`, `E1` of 1024 bytes each, `executeCOTMultiplication` succeeds and returns the sum
over `i` in `[0,32)` of `2^i * m_i` modulo `2^32`, where `m_i` is the little-endian
`u32` in bytes 0..3 of the ciphertext selected by bit `i` of `y` (from `E1` when the bit
is 1, from `E0` otherwise, at offset `32 * i`), XORed byte-wise with the 32-byte key
the engine uses for instance `i`. -/
theorem C1_executeCOTMultiplication_sum (c : Curve) (fuel : Nat) (self0 : CorrelatedOTProtocol)
    (rng : Rng) (delta : Nat) (r : COTSetup × CorrelatedOTProtocol × Rng) (u : Undef) (y : Nat)
    (points_A E0 E1 : Bytes)
    (hinit : self0.initializeCOT c fuel rng delta = some r)
    (hA : points_A.length = 2080) (h0 : E0.length = 1024) (h1 : E1.length = 1024) :
    r.2.1.executeCOTMultiplication u y points_A E0 E1
      = { additive_share_V :=
            spec_V (fun i => spec_m (u.secretOf i) (spec_ciphertext y E0 E1 i)),
          success := true } := by
  have hn := (initializeCOT_some c fuel self0 rng delta r hinit).2
  rw [CorrelatedOTProtocol.executeCOTMultiplication,
    executeCOTMultiplication_run_eq r.2.1 u y points_A E0 E1 hn hA h0 h1]
  simp only [spec_V]
  congr 3
  apply List.map_congr_left
  intro i hi
  rw [recovered_eq_spec u y E0 E1 i h0 h1 (List.mem_range.1 hi)]

/-- Witness for C1: the engine of the examples after `initializeCOT`, `y = 11`, and the
buffers of scenario S1. -/
theorem C1_executeCOTMultiplication_sum_witness :
    CorrelatedOTProtocol.new.initializeCOT exCurve 1 exRng 11 = some exInit ∧
    (pointsWith 4).length = 2080 ∧ s1_E0.length = 1024 ∧ s1_E1.length = 1024 ∧
    exInit.2.1.executeCOTMultiplication exUndef 11 (pointsWith 4) s1_E0 s1_E1
      = { additive_share_V :=
            spec_V (fun i => spec_m (exUndef.secretOf i) (spec_ciphertext 11 s1_E0 s1_E1 i)),
          success := true } :=
  ⟨exInit_eq, length_pointsWith 4, length_chunks _, length_chunks _,
    C1_executeCOTMultiplication_sum exCurve 1 CorrelatedOTProtocol.new exRng 11 exInit exUndef
      11 (pointsWith 4) s1_E0 s1_E1 exInit_eq (length_pointsWith 4) (length_chunks _)
      (length_chunks _)⟩

/-- C2 (the code departs from the claim): the key with which `processSingleCOT` decrypts
is not derived from the stored scalar `b_i` and the point `A_i`.  For any two engine
states (any stored scalars) and any two point buffers the call returns the same value,
the one decrypted under the content of the unwritten local `shared_secret`; on the
engine of the examples, instance 0 recovers `1` from the first chunk of `E0` of
scenario S1 under a key of 32 zero bytes. -/
theorem C2_key_ignores_scalar_and_point (self1 self2 : CorrelatedOTProtocol)
    (point_A1 point_A2 shared_secret m0 m1 : Bytes) (i : Nat) (b : Bool) (len : Nat) :
    self1.processSingleCOT shared_secret i b point_A1 m0 m1 len
      = self2.processSingleCOT shared_secret i b point_A2 m0 m1 len ∧
    exUndef.secretOf 0 = List.replicate 32 0 ∧
    exEngine.processSingleCOT (exUndef.secretOf 0) 0 false ((pointsWith 4).drop (0 * 65))
        (s1_E0.drop (0 * 32)) (s1_E1.drop (0 * 32)) 32 = some 1 := by
  refine ⟨rfl, by decide, ?_⟩
  rw [processSingleCOT_eq exEngine exUndef 0 false _ s1_E0 s1_E1 (by omega)]
  simp only [Bool.false_eq_true, if_false]
  rw [(s1_decrypts 0 (by omega)).1]

/-- C3: when `executeBobMTA` succeeds after `prepareBobMessages`, the returned
`additive_share` is `(beta * alice.masked_share + V) mod 2^32`, where `beta` is the mask
that `prepareBobMessages` drew and retained and `V` is what `executeCOTMultiplication`
returns on the same `y` and Alice buffers; the 64-bit intermediate product and sum leave
the result modulo `2^32` unchanged. -/
theorem C3_additive_share (mta : MTAProtocol) (rng : Rng) (u : Undef) (y : Nat)
    (alice : AliceMessages)
    (hs : ((mta.prepareBobMessages rng y).2.1.executeBobMTA u y alice).success = true) :
    (mta.prepareBobMessages rng y).2.1.beta = (random32 rng).1 ∧
    ((mta.prepareBobMessages rng y).2.1.executeBobMTA u y alice).additive_share
      = ((random32 rng).1 * alice.masked_share
          + (mta.cot_protocol.executeCOTMultiplication u y alice.points_A
              alice.encrypted_m0_messages alice.encrypted_m1_messages).additive_share_V)
        % 2 ^ 32 := by
  have h := executeBobMTA_share _ u y alice hs
  rw [prepareBobMessages_eq] at h ⊢
  exact ⟨rfl, h⟩

/-- Witness for C3: the protocol object of the examples, `y = 11`, the generator drawing
`beta = 5`, and the Alice messages of scenario S1. -/
theorem C3_additive_share_witness :
    (((exMta exEngine 0).prepareBobMessages (rngWith 5) 11).2.1.executeBobMTA exUndef 11
        (aliceWith 4)).success = true ∧
    ((exMta exEngine 0).prepareBobMessages (rngWith 5) 11).2.1.beta = (random32 (rngWith 5)).1 ∧
    (((exMta exEngine 0).prepareBobMessages (rngWith 5) 11).2.1.executeBobMTA exUndef 11
        (aliceWith 4)).additive_share
      = ((random32 (rngWith 5)).1 * (aliceWith 4).masked_share
          + ((exMta exEngine 0).cot_protocol.executeCOTMultiplication exUndef 11
              (aliceWith 4).points_A (aliceWith 4).encrypted_m0_messages
              (aliceWith 4).encrypted_m1_messages).additive_share_V) % 2 ^ 32 :=
  have hs : (((exMta exEngine 0).prepareBobMessages (rngWith 5) 11).2.1.executeBobMTA exUndef 11
      (aliceWith 4)).success = true := by
    rw [prepareBobMessages_eq]
    show ((exMta exEngine (random32 (rngWith 5)).1).executeBobMTA exUndef 11
      (aliceWith 4)).success = true
    rw [exBob_eq]
  ⟨hs, C3_additive_share (exMta exEngine 0) (rngWith 5) exUndef 11 (aliceWith 4) hs⟩

/-- C4: for every `y` and every value `beta` that the generator produces,
`prepareBobMessages(y)` returns `success = true` with
`masked_share = (y * beta) mod 2^32` and stores that `beta` in the protocol object; in
`process_alice_messages` the `executeBobMTA` call that follows runs on the object
holding the same `beta`: when it succeeds, the session records
`masked_share = (y * beta) mod 2^32` and the additive share
`(beta * alice.masked_share + V) mod 2^32` for that one `beta`. -/
theorem C4_prepareBobMessages_beta (codec : Codec) (u : Undef) (s : Session)
    (mta : MTAProtocol) (rng : Rng) (y : Nat) (data : Bytes) :
    ((mta.prepareBobMessages rng y).1.success = true ∧
      (mta.prepareBobMessages rng y).1.masked_share = y * (random32 rng).1 % 2 ^ 32 ∧
      (mta.prepareBobMessages rng y).2.1.beta = (random32 rng).1 ∧
      (mta.prepareBobMessages rng y).2.1.cot_protocol = mta.cot_protocol) ∧
    (5 ≤ data.length →
      ((mta.prepareBobMessages rng s.bob_y_share_).2.1.executeBobMTA u s.bob_y_share_
        (MTAProtocol.deserializeAliceMessages u data AliceMessages.new).2).success = true →
      (Session.process_alice_messages codec u s mta rng data).mta.beta = (random32 rng).1 ∧
      (Session.process_alice_messages codec u s mta rng data).session.bob_messages_.masked_share
        = s.bob_y_share_ * (random32 rng).1 % 2 ^ 32 ∧
      (Session.process_alice_messages codec u s mta rng data).session.bob_additive_share_
        = ((random32 rng).1 *
            (MTAProtocol.deserializeAliceMessages u data AliceMessages.new).2.masked_share
          + (mta.cot_protocol.executeCOTMultiplication u s.bob_y_share_
              (MTAProtocol.deserializeAliceMessages u data AliceMessages.new).2.points_A
              (MTAProtocol.deserializeAliceMessages u data
                AliceMessages.new).2.encrypted_m0_messages
              (MTAProtocol.deserializeAliceMessages u data
                AliceMessages.new).2.encrypted_m1_messages).additive_share_V) % 2 ^ 32) := by
  constructor
  · rw [prepareBobMessages_eq]
    exact ⟨rfl, rfl, rfl, rfl⟩
  · intro hd hs
    have hshare := executeBobMTA_share _ u s.bob_y_share_ _ hs
    rw [prepareBobMessages_eq] at hs hshare
    rw [process_alice_messages_sent codec u s mta rng data hd hs, send_bob_messages_eq _ _ rfl]
    by_cases he : (MTAProtocol.serializeBobMessages codec
        { BobMessages.new with
          masked_share := s.bob_y_share_ * (random32 rng).1 % 2 ^ 32, success := true }).isEmpty
        = true
    · rw [if_pos he]
      exact ⟨rfl, rfl, hshare⟩
    · rw [if_neg he]
      exact ⟨rfl, rfl, hshare⟩

/-- Witness for C4: the session of the examples (`y = 11`) receives the frame of
scenario S1 while the generator draws `beta = 5`. -/
theorem C4_prepareBobMessages_beta_witness :
    5 ≤ (MTAProtocol.serializeAliceMessages (aliceWith 4)).length ∧
    (((exMta exEngine 0).prepareBobMessages (rngWith 5) (exSession 11 11).bob_y_share_).2.1.executeBobMTA
      exUndef (exSession 11 11).bob_y_share_
      (MTAProtocol.deserializeAliceMessages exUndef
        (MTAProtocol.serializeAliceMessages (aliceWith 4)) AliceMessages.new).2).success = true ∧
    (Session.process_alice_messages exCodec exUndef (exSession 11 11) (exMta exEngine 0)
      (rngWith 5) (MTAProtocol.serializeAliceMessages (aliceWith 4))).mta.beta
        = (random32 (rngWith 5)).1 ∧
    (Session.process_alice_messages exCodec exUndef (exSession 11 11) (exMta exEngine 0)
      (rngWith 5) (MTAProtocol.serializeAliceMessages (aliceWith 4))).session.bob_messages_.masked_share
        = (exSession 11 11).bob_y_share_ * (random32 (rngWith 5)).1 % 2 ^ 32 ∧
    (Session.process_alice_messages exCodec exUndef (exSession 11 11) (exMta exEngine 0)
      (rngWith 5) (MTAProtocol.serializeAliceMessages (aliceWith 4))).session.bob_additive_share_
        = ((random32 (rngWith 5)).1 *
            (MTAProtocol.deserializeAliceMessages exUndef
              (MTAProtocol.serializeAliceMessages (aliceWith 4)) AliceMessages.new).2.masked_share
          + ((exMta exEngine 0).cot_protocol.executeCOTMultiplication exUndef
              (exSession 11 11).bob_y_share_
              (MTAProtocol.deserializeAliceMessages exUndef
                (MTAProtocol.serializeAliceMessages (aliceWith 4)) AliceMessages.new).2.points_A
              (MTAProtocol.deserializeAliceMessages exUndef
                (MTAProtocol.serializeAliceMessages (aliceWith 4))
                AliceMessages.new).2.encrypted_m0_messages
              (MTAProtocol.deserializeAliceMessages exUndef
                (MTAProtocol.serializeAliceMessages (aliceWith 4))
                AliceMessages.new).2.encrypted_m1_messages).additive_share_V) % 2 ^ 32 :=
  have h := (C4_prepareBobMessages_beta exCodec exUndef (exSession 11 11) (exMta exEngine 0)
    (rngWith 5) 11 (MTAProtocol.serializeAliceMessages (aliceWith 4))).2 (exFrame_length 4)
    (exFrame_success 4)
  ⟨exFrame_length 4, exFrame_success 4, h.1, h.2.1, h.2.2⟩

/-- C5 (the code departs from the claim): in the session of the examples (`y = 11`,
received delta 11, `beta = 5`, Alice messages of scenario S1) the handler reaches
`send_bob_messages` with additive share 2779096541 and stores
`((y + alpha_B) mod 2^32) XOR delta = 2779096547` in `bob_correlation_check_`, but the
record built from `bob_messages_` and handed to the encoder has `correlation_check = 0`,
whatever the codec; the frame written is the encoding of that record. -/
theorem C5_wire_correlation_check_zero (codec : Codec) :
    (exOutcome codec (aliceWith 4)).session.state_ = ProtocolState.SENDING_BOB_MESSAGES ∧
    (exOutcome codec (aliceWith 4)).session.bob_additive_share_ = 2779096541 ∧
    ((11 + 2779096541) % 2 ^ 32) ^^^ 11 = 2779096547 ∧
    (exOutcome codec (aliceWith 4)).session.bob_correlation_check_ = 2779096547 ∧
    (MTAProtocol.bobMessagesRecord codec
      (exOutcome codec (aliceWith 4)).session.bob_messages_).correlation_check = 0 ∧
    (exOutcome codec (aliceWith 4)).written
      = (if (MTAProtobufHandler.serializeBobMessages codec (MTAProtocol.bobMessagesRecord codec
              (exOutcome codec (aliceWith 4)).session.bob_messages_)).isEmpty then none
          else some ((exSession 11 11).send_message_with_size
            (MTAProtobufHandler.serializeBobMessages codec (MTAProtocol.bobMessagesRecord codec
              (exOutcome codec (aliceWith 4)).session.bob_messages_))).2) ∧
    (exOutcome exCodec (aliceWith 4)).written = some [9, 0, 0, 0, 1, 0, 0, 0, 0, 55, 0, 0, 0] := by
  have h := exOutcome_eq codec 4
  have hx := (exOutcome_eq exCodec 4).2.2.2.2
  rw [exCodec_frame] at hx
  refine ⟨h.2.1, h.2.2.1, by decide, h.2.2.2.1, ?_, ?_, hx⟩
  · show (MTAProtocol.bobMessagesRecord codec
      (exOutcome codec (aliceWith 4)).session.bob_messages_).correlation_check = 0
    rw [h.1]
    rfl
  · show (exOutcome codec (aliceWith 4)).written = _
    rw [h.2.2.2.2]
    show _ = (if (MTAProtocol.serializeBobMessages codec
        (exOutcome codec (aliceWith 4)).session.bob_messages_).isEmpty then none
      else some ((exSession 11 11).send_message_with_size (MTAProtocol.serializeBobMessages codec
        (exOutcome codec (aliceWith 4)).session.bob_messages_)).2)
    rw [h.1]

/-- C6 (the code departs from the claim): with every 65-byte chunk of `points_A`
starting with the tag `0x02` (scenario S3), `executeCOTMultiplication` still returns
`success = true` (with `V = 78`), `executeBobMTA` returns `success = true`, and the
session goes on to `send_bob_messages` and writes the `BobMessages` frame whenever the
encoder output is non-empty (as it is for the codec of the examples). -/
theorem C6_malformed_points_accepted (codec : Codec) :
    (∀ i, i < 32 → (pointsWith 2).getD (i * 65) 0 = 2) ∧
    exEngine.executeCOTMultiplication exUndef 11 (pointsWith 2) s1_E0 s1_E1
      = { additive_share_V := 78, success := true } ∧
    ((exMta exEngine 5).executeBobMTA exUndef 11 (aliceWith 2)).success = true ∧
    (exOutcome codec (aliceWith 2)).session.state_ = ProtocolState.SENDING_BOB_MESSAGES ∧
    (exOutcome codec (aliceWith 2)).written
      = (if (MTAProtocol.serializeBobMessages codec
              { BobMessages.new with masked_share := 55, success := true }).isEmpty then none
          else some ((exSession 11 11).send_message_with_size
            (MTAProtocol.serializeBobMessages codec
              { BobMessages.new with masked_share := 55, success := true })).2) ∧
    (exOutcome exCodec (aliceWith 2)).written = some [9, 0, 0, 0, 1, 0, 0, 0, 0, 55, 0, 0, 0] := by
  have h := exOutcome_eq codec 2
  have hx := (exOutcome_eq exCodec 2).2.2.2.2
  rw [exCodec_frame] at hx
  refine ⟨?_, ?_, ?_, h.2.1, h.2.2.2.2, hx⟩
  · intro i hi
    have := getD_flatMap_range (fun _ => 2 :: List.replicate 64 0) 65 (fun _ => by simp) 32 i 0
      hi (by omega)
    simpa [pointsWith] using this
  · rw [CorrelatedOTProtocol.executeCOTMultiplication,
      executeCOTMultiplication_run_eq exEngine exUndef 11 (pointsWith 2) s1_E0 s1_E1
        exEngine_instances (length_pointsWith 2) (length_chunks _) (length_chunks _), s1_value]
    have : (s1_U + 7 * 11) % 2 ^ 32 = 78 := by decide
    rw [this]
  · show ((exMta exEngine 5).executeBobMTA exUndef 11 (aliceWith 2)).success = true
    rw [exBob_eq]

/-- C7: `executeCOTMultiplication` returns `success = false` with `additive_share_V = 0`
and makes no `processSingleCOT` call whenever `points_A` is not 2080 bytes, or `E0` or
`E1` is not 1024 bytes, or the engine does not hold 32 instances; when the three lengths
match after `initializeCOT`, the check passes: all 32 bits are processed and the call
succeeds. -/
theorem C7_length_check (self : CorrelatedOTProtocol) (u : Undef) (y : Nat)
    (points_A E0 E1 : Bytes) :
    ((points_A.length ≠ 2080 ∨ E0.length ≠ 1024 ∨ E1.length ≠ 1024 ∨
        self.ot_instances.length ≠ 32) →
      self.executeCOTMultiplication_run u y points_A E0 E1
        = ({ additive_share_V := 0, success := false }, 0)) ∧
    (∀ (c : Curve) (fuel : Nat) (self0 : CorrelatedOTProtocol) (rng : Rng) (delta : Nat)
        (r : COTSetup × CorrelatedOTProtocol × Rng),
      self0.initializeCOT c fuel rng delta = some r →
      points_A.length = 2080 → E0.length = 1024 → E1.length = 1024 →
      (r.2.1.executeCOTMultiplication_run u y points_A E0 E1).1.success = true ∧
      (r.2.1.executeCOTMultiplication_run u y points_A E0 E1).2 = 32) := by
  constructor
  · intro h
    have hc : points_A.length ≠ BIT_LENGTH * 65 ∨ E0.length ≠ BIT_LENGTH * 32 ∨
        E1.length ≠ BIT_LENGTH * 32 ∨ self.ot_instances.length ≠ BIT_LENGTH := by
      simpa [BIT_LENGTH] using h
    rw [CorrelatedOTProtocol.executeCOTMultiplication_run, if_pos hc]
  · intro c fuel self0 rng delta r hinit hA h0 h1
    have hn := (initializeCOT_some c fuel self0 rng delta r hinit).2
    rw [executeCOTMultiplication_run_eq r.2.1 u y points_A E0 E1 hn hA h0 h1]
    exact ⟨rfl, rfl⟩

/-- Witness for C7: an empty `points_A` is refused without any per-bit call, and the
buffers of scenario S1 pass the check on the engine of the examples. -/
theorem C7_length_check_witness :
    (([] : Bytes).length ≠ 2080 ∨ s1_E0.length ≠ 1024 ∨ s1_E1.length ≠ 1024 ∨
        exEngine.ot_instances.length ≠ 32) ∧
    exEngine.executeCOTMultiplication_run exUndef 11 [] s1_E0 s1_E1
      = ({ additive_share_V := 0, success := false }, 0) ∧
    CorrelatedOTProtocol.new.initializeCOT exCurve 1 exRng 11 = some exInit ∧
    (pointsWith 4).length = 2080 ∧ s1_E0.length = 1024 ∧ s1_E1.length = 1024 ∧
    (exInit.2.1.executeCOTMultiplication_run exUndef 11 (pointsWith 4) s1_E0 s1_E1).1.success
      = true ∧
    (exInit.2.1.executeCOTMultiplication_run exUndef 11 (pointsWith 4) s1_E0 s1_E1).2 = 32 :=
  ⟨Or.inl (by decide),
    (C7_length_check exEngine exUndef 11 [] s1_E0 s1_E1).1 (Or.inl (by decide)),
    exInit_eq, length_pointsWith 4, length_chunks _, length_chunks _,
    (C7_length_check exInit.2.1 exUndef 11 (pointsWith 4) s1_E0 s1_E1).2 exCurve 1
      CorrelatedOTProtocol.new exRng 11 exInit exInit_eq (length_pointsWith 4)
      (length_chunks _) (length_chunks _)⟩

/-- C8: after `initializeCOT` and for well-sized buffers, if for every `i` in `[0,32)`
the ciphertext `E0[i]` decrypts (under the key the engine uses for instance `i`) to
`U_i` and `E1[i]` decrypts to `(U_i + x) mod 2^32`, then for every `y`
`executeCOTMultiplication` returns `V = (U + x * y) mod 2^32`, where `U` is the sum over
`i` of `2^i * U_i`. -/
theorem C8_correlated_sum (c : Curve) (fuel : Nat) (self0 : CorrelatedOTProtocol) (rng : Rng)
    (delta : Nat) (r : COTSetup × CorrelatedOTProtocol × Rng) (u : Undef) (x y : Nat)
    (U : Nat → Nat) (points_A E0 E1 : Bytes)
    (hinit : self0.initializeCOT c fuel rng delta = some r)
    (hA : points_A.length = 2080) (h0 : E0.length = 1024) (h1 : E1.length = 1024)
    (hdec : ∀ i, i < 32 →
      decryptsTo u E0 i = U i ∧ decryptsTo u E1 i = (U i + x) % 2 ^ 32) :
    r.2.1.executeCOTMultiplication u y points_A E0 E1
      = { additive_share_V := (((List.range 32).map (fun i => 2 ^ i * U i)).sum + x * y) % 2 ^ 32,
          success := true } := by
  have hn := (initializeCOT_some c fuel self0 rng delta r hinit).2
  rw [CorrelatedOTProtocol.executeCOTMultiplication,
    executeCOTMultiplication_run_eq r.2.1 u y points_A E0 E1 hn hA h0 h1,
    cot_sum u y x U E0 E1 hdec]

/-- Witness for C8: scenario S1 (`x = 7`, `U_i = i + 1`, `y = 11`) on the engine of the
examples. -/
theorem C8_correlated_sum_witness :
    CorrelatedOTProtocol.new.initializeCOT exCurve 1 exRng 11 = some exInit ∧
    (pointsWith 4).length = 2080 ∧ s1_E0.length = 1024 ∧ s1_E1.length = 1024 ∧
    (∀ i, i < 32 → decryptsTo exUndef s1_E0 i = i + 1 ∧
      decryptsTo exUndef s1_E1 i = (i + 1 + 7) % 2 ^ 32) ∧
    exInit.2.1.executeCOTMultiplication exUndef 11 (pointsWith 4) s1_E0 s1_E1
      = { additive_share_V :=
            (((List.range 32).map (fun i => 2 ^ i * (i + 1))).sum + 7 * 11) % 2 ^ 32,
          success := true } :=
  ⟨exInit_eq, length_pointsWith 4, length_chunks _, length_chunks _, s1_decrypts,
    C8_correlated_sum exCurve 1 CorrelatedOTProtocol.new exRng 11 exInit exUndef 7 11
      (fun i => i + 1) (pointsWith 4) s1_E0 s1_E1 exInit_eq (length_pointsWith 4)
      (length_chunks _) (length_chunks _) s1_decrypts⟩

/-- C9, counterexample: in scenario S1 (`x = 7`, `y = 11`, `alpha = 0xA5A5A5A5`,
`U_i = i + 1`, Alice built as in the correctness sketch) with the server drawing
`beta = 0`, `executeBobMTA` succeeds and `alpha_A + alpha_B` is 2065745596 modulo
`2^32`, not 77. -/
theorem C9_counterexample :
    (∀ i, i < 32 → decryptsTo exUndef (aliceWith 4).encrypted_m0_messages i = i + 1 ∧
      decryptsTo exUndef (aliceWith 4).encrypted_m1_messages i = (i + 1 + 7) % 2 ^ 32) ∧
    (aliceWith 4).masked_share = 7 * 0xA5A5A5A5 % 2 ^ 32 ∧
    (random32 (rngWith 0)).1 = 0 ∧
    (((exMta exEngine 0).prepareBobMessages (rngWith 0) 11).2.1.executeBobMTA exUndef 11
      (aliceWith 4)).success = true ∧
    (spec_alpha_A 7 0xA5A5A5A5 s1_U +
      (((exMta exEngine 0).prepareBobMessages (rngWith 0) 11).2.1.executeBobMTA exUndef 11
        (aliceWith 4)).additive_share) % 2 ^ 32 = 2065745596 ∧
    ¬ ((spec_alpha_A 7 0xA5A5A5A5 s1_U +
      (((exMta exEngine 0).prepareBobMessages (rngWith 0) 11).2.1.executeBobMTA exUndef 11
        (aliceWith 4)).additive_share) % 2 ^ 32 = 7 * 11 % 2 ^ 32) := by
  have hb : (random32 (rngWith 0)).1 = 0 := by decide
  have he : ((exMta exEngine 0).prepareBobMessages (rngWith 0) 11).2.1.executeBobMTA exUndef 11
      (aliceWith 4)
      = { additive_share := (0 * (7 * 0xA5A5A5A5 % 2 ^ 32) + (s1_U + 7 * 11) % 2 ^ 32) % 2 ^ 32,
          success := true } := by
    rw [prepareBobMessages_eq, hb]
    exact exBob_eq 0 11 4
  rw [he]
  refine ⟨s1_decrypts, rfl, hb, rfl, by decide, by decide⟩

/-- C9, amended: with Alice built as in the correctness sketch (`E0[i]` decrypts to
`U_i`, `E1[i]` to `(U_i + x) mod 2^32`, `masked_share = x * alpha mod 2^32`,
`alpha_A = alpha * (x * alpha) - U`), for every `x`, `y`, `alpha`, `U_i` and every `beta`
drawn by the server, `alpha_A + alpha_B` is congruent modulo `2^32` to
`x * y + x * alpha * (alpha + beta)`. -/
theorem C9_share_sum (c : Curve) (fuel : Nat) (self0 : CorrelatedOTProtocol) (rng0 : Rng)
    (delta : Nat) (r : COTSetup × CorrelatedOTProtocol × Rng) (beta0 : Nat) (rng : Rng)
    (u : Undef) (x y alpha : Nat) (U : Nat → Nat) (alice : AliceMessages)
    (hinit : self0.initializeCOT c fuel rng0 delta = some r)
    (hs : alice.success = true)
    (hA : alice.points_A.length = 2080) (h0 : alice.encrypted_m0_messages.length = 1024)
    (h1 : alice.encrypted_m1_messages.length = 1024)
    (hdec : ∀ i, i < 32 → decryptsTo u alice.encrypted_m0_messages i = U i ∧
      decryptsTo u alice.encrypted_m1_messages i = (U i + x) % 2 ^ 32)
    (hm : alice.masked_share = x * alpha % 2 ^ 32) :
    (spec_alpha_A x alpha ((List.range 32).map (fun i => 2 ^ i * U i)).sum +
      ((({ cot_protocol := r.2.1, beta := beta0 } : MTAProtocol).prepareBobMessages rng
        y).2.1.executeBobMTA u y alice).additive_share) % 2 ^ 32
      = (x * y + x * alpha * (alpha + (random32 rng).1)) % 2 ^ 32 := by
  have hn := (initializeCOT_some c fuel self0 rng0 delta r hinit).2
  rw [prepareBobMessages_eq,
    executeBobMTA_eq _ u y alice hs hn hA h0 h1, cot_sum u y x U _ _ hdec, hm]
  simp only [spec_alpha_A]
  generalize ((List.range 32).map (fun i => 2 ^ i * U i)).sum = S
  generalize (random32 rng).1 = b
  have e1 : x * alpha * (alpha + b) = alpha * (x * alpha) + b * (x * alpha) := by ring
  have e2 : b * (x * alpha) = b * (x * alpha % 2 ^ 32) + 2 ^ 32 * (b * (x * alpha / 2 ^ 32)) := by
    conv_lhs => rw [← Nat.mod_add_div (x * alpha) (2 ^ 32)]
    ring
  rw [e1, e2]
  generalize alpha * (x * alpha) = A
  generalize b * (x * alpha % 2 ^ 32) = B
  generalize b * (x * alpha / 2 ^ 32) = C
  generalize x * y = P
  omega

/-- Witness for C9 as amended: scenario S1 with the server drawing `beta = 0x5A5A5A5B`,
for which the sum of the two shares is 77. -/
theorem C9_share_sum_witness :
    CorrelatedOTProtocol.new.initializeCOT exCurve 1 exRng 11 = some exInit ∧
    (aliceWith 4).success = true ∧
    (aliceWith 4).points_A.length = 2080 ∧
    (aliceWith 4).encrypted_m0_messages.length = 1024 ∧
    (aliceWith 4).encrypted_m1_messages.length = 1024 ∧
    (∀ i, i < 32 → decryptsTo exUndef (aliceWith 4).encrypted_m0_messages i = i + 1 ∧
      decryptsTo exUndef (aliceWith 4).encrypted_m1_messages i = (i + 1 + 7) % 2 ^ 32) ∧
    (aliceWith 4).masked_share = 7 * 0xA5A5A5A5 % 2 ^ 32 ∧
    (spec_alpha_A 7 0xA5A5A5A5 ((List.range 32).map (fun i => 2 ^ i * (i + 1))).sum +
      ((({ cot_protocol := exInit.2.1, beta := 0 } : MTAProtocol).prepareBobMessages
        (rngWith 0x5A5A5A5B) 11).2.1.executeBobMTA exUndef 11 (aliceWith 4)).additive_share)
        % 2 ^ 32
      = (7 * 11 + 7 * 0xA5A5A5A5 * (0xA5A5A5A5 + (random32 (rngWith 0x5A5A5A5B)).1)) % 2 ^ 32 ∧
    (7 * 11 + 7 * 0xA5A5A5A5 * (0xA5A5A5A5 + (random32 (rngWith 0x5A5A5A5B)).1)) % 2 ^ 32 = 77 :=
  ⟨exInit_eq, rfl, length_pointsWith 4, length_chunks _, length_chunks _, s1_decrypts, rfl,
    C9_share_sum exCurve 1 CorrelatedOTProtocol.new exRng 11 exInit 0 (rngWith 0x5A5A5A5B)
      exUndef 7 11 0xA5A5A5A5 (fun i => i + 1) (aliceWith 4) exInit_eq rfl (length_pointsWith 4)
      (length_chunks _) (length_chunks _) s1_decrypts rfl,
    by decide⟩

/-- C10, counterexample: with `y = 0` and the well-sized buffers of scenario S1,
`executeCOTMultiplication` on the engine of the examples succeeds with `V = 1`, so it is
not the case that `V = 0` and `masked_share = 0`. -/
theorem C10_counterexample :
    (pointsWith 4).length = 2080 ∧ s1_E0.length = 1024 ∧ s1_E1.length = 1024 ∧
    exEngine.executeCOTMultiplication exUndef 0 (pointsWith 4) s1_E0 s1_E1
      = { additive_share_V := 1, success := true } ∧
    ¬ ((exEngine.executeCOTMultiplication exUndef 0 (pointsWith 4) s1_E0
          s1_E1).additive_share_V = 0 ∧
        ((exMta exEngine 0).prepareBobMessages exRng 0).1.masked_share = 0) := by
  have he : exEngine.executeCOTMultiplication exUndef 0 (pointsWith 4) s1_E0 s1_E1
      = { additive_share_V := 1, success := true } := by
    rw [CorrelatedOTProtocol.executeCOTMultiplication,
      executeCOTMultiplication_run_eq exEngine exUndef 0 (pointsWith 4) s1_E0 s1_E1
        exEngine_instances (length_pointsWith 4) (length_chunks _) (length_chunks _), s1_value]
    have : (s1_U + 7 * 0) % 2 ^ 32 = 1 := by decide
    rw [this]
  rw [he]
  exact ⟨length_pointsWith 4, length_chunks _, length_chunks _, rfl, fun h => by simp at h⟩

/-- C10, amended: for `y = 0`, after `initializeCOT` and for every well-sized Alice
input, `executeCOTMultiplication` succeeds and returns the sum over `i` of
`2^i * m_i` modulo `2^32` with every `m_i` the value that `E0[i]` decrypts to (every
choice bit is 0), and `prepareBobMessages` returns `masked_share = 0`. -/
theorem C10_zero_share (c : Curve) (fuel : Nat) (self0 : CorrelatedOTProtocol) (rng0 : Rng)
    (delta : Nat) (r : COTSetup × CorrelatedOTProtocol × Rng) (u : Undef)
    (points_A E0 E1 : Bytes) (mta : MTAProtocol) (rng : Rng)
    (hinit : self0.initializeCOT c fuel rng0 delta = some r)
    (hA : points_A.length = 2080) (h0 : E0.length = 1024) (h1 : E1.length = 1024) :
    r.2.1.executeCOTMultiplication u 0 points_A E0 E1
      = { additive_share_V := spec_V (fun i => decryptsTo u E0 i), success := true } ∧
    (mta.prepareBobMessages rng 0).1.masked_share = 0 := by
  have hn := (initializeCOT_some c fuel self0 rng0 delta r hinit).2
  constructor
  · rw [CorrelatedOTProtocol.executeCOTMultiplication,
      executeCOTMultiplication_run_eq r.2.1 u 0 points_A E0 E1 hn hA h0 h1]
    have hb : ∀ i, CorrelatedOTProtocol.getBit 0 i = false := by
      intro i
      simp [CorrelatedOTProtocol.getBit]
    simp only [hb, Bool.false_eq_true, if_false]
  · rw [prepareBobMessages_eq]
    simp

/-- Witness for C10 as amended: the engine of the examples and the buffers of scenario
S1. -/
theorem C10_zero_share_witness :
    CorrelatedOTProtocol.new.initializeCOT exCurve 1 exRng 11 = some exInit ∧
    (pointsWith 4).length = 2080 ∧ s1_E0.length = 1024 ∧ s1_E1.length = 1024 ∧
    exInit.2.1.executeCOTMultiplication exUndef 0 (pointsWith 4) s1_E0 s1_E1
      = { additive_share_V := spec_V (fun i => decryptsTo exUndef s1_E0 i), success := true } ∧
    ((exMta exEngine 0).prepareBobMessages exRng 0).1.masked_share = 0 :=
  ⟨exInit_eq, length_pointsWith 4, length_chunks _, length_chunks _,
    C10_zero_share exCurve 1 CorrelatedOTProtocol.new exRng 11 exInit exUndef (pointsWith 4)
      s1_E0 s1_E1 (exMta exEngine 0) exRng exInit_eq (length_pointsWith 4) (length_chunks _)
      (length_chunks _)⟩

/-- C11: for every `AliceMessages` value whose `success` field is false,
`executeBobMTA` returns `success = false` with `additive_share` left at 0, and it makes
no `executeCOTMultiplication` call. -/
theorem C11_rejects_failed_alice (self : MTAProtocol) (u : Undef) (y : Nat)
    (alice : AliceMessages) (h : alice.success = false) :
    self.executeBobMTA u y alice = { additive_share := 0, success := false } ∧
    self.executeBobMTA_run u y alice = ({ additive_share := 0, success := false }, 0) := by
  have hr : self.executeBobMTA_run u y alice = ({ additive_share := 0, success := false }, 0) := by
    simp [MTAProtocol.executeBobMTA_run, h, MTAResult.new]
  refine ⟨?_, hr⟩
  rw [← executeBobMTA_run_fst, hr]

/-- Witness for C11: the Alice messages of scenario S1 with `success` cleared, on the
protocol object of the examples. -/
theorem C11_rejects_failed_alice_witness :
    aliceFailed.success = false ∧
    (exMta exEngine 5).executeBobMTA exUndef 11 aliceFailed
      = { additive_share := 0, success := false } ∧
    (exMta exEngine 5).executeBobMTA_run exUndef 11 aliceFailed
      = ({ additive_share := 0, success := false }, 0) :=
  ⟨rfl, C11_rejects_failed_alice (exMta exEngine 5) exUndef 11 aliceFailed rfl⟩

/-- C14 (the code departs from the claim): the six-byte buffer `08 FF FF FF FF 0F` (an
encoded `CorrelationDelta`), far shorter than the 4133-byte layout, is accepted by
`MTAProtocol::deserializeAliceMessages`: it returns `true`, byte 1 of `points_A` is read
at index 6, past the end of the buffer, and a session waiting for `AliceMessages` that
receives this frame goes on to `send_bob_messages` and writes the `BobMessages` frame
whenever the encoder output is non-empty. -/
theorem C14_short_buffer_accepted (codec : Codec) (u : Undef) :
    deltaFrame.length = 6 ∧
    (MTAProtocol.deserializeAliceMessages u deltaFrame AliceMessages.new).1 = true ∧
    (MTAProtocol.deserializeAliceMessages u deltaFrame AliceMessages.new).2.points_A.getD 1 0
      = u.beyond 6 % 256 ∧
    (Session.process_alice_messages codec u (exSession 11 11) (exMta exEngine 0) (rngWith 5)
      deltaFrame).session.state_ = ProtocolState.SENDING_BOB_MESSAGES ∧
    (Session.process_alice_messages codec u (exSession 11 11) (exMta exEngine 0) (rngWith 5)
      deltaFrame).written
      = (if (MTAProtocol.serializeBobMessages codec
              { BobMessages.new with masked_share := 55, success := true }).isEmpty then none
          else some ((exSession 11 11).send_message_with_size
            (MTAProtocol.serializeBobMessages codec
              { BobMessages.new with masked_share := 55, success := true })).2) := by
  have h := process_alice_messages_accepts codec u (exSession 11 11) (exMta exEngine 0)
    (rngWith 5) deltaFrame (by decide) exEngine_instances
  have h55 : (exSession 11 11).bob_y_share_ * (random32 (rngWith 5)).1 % 2 ^ 32 = 55 := by decide
  rw [h55] at h
  refine ⟨rfl, deserialize_fst u deltaFrame _ (by decide), ?_, h.1, h.2.2⟩
  simp [MTAProtocol.deserializeAliceMessages, deltaFrame, readAt, List.getD_eq_getElem?_getD,
    List.getElem?_map, List.getElem?_range]

/-- C15 (the code departs from the claim): for the well-sized Alice messages of scenario
S1 with `success = false`, `deserializeAliceMessages(serializeAliceMessages(m))` returns
`true` and restores `masked_share`, `points_A` and both ciphertext buffers, but yields
`success = true`, so the value is not equal to `m`. -/
theorem C15_round_trip_loses_success (u : Undef) :
    aliceFailed.points_A.length = 2080 ∧
    aliceFailed.encrypted_m0_messages.length = 1024 ∧
    aliceFailed.encrypted_m1_messages.length = 1024 ∧
    MTAProtocol.deserializeAliceMessages u (MTAProtocol.serializeAliceMessages aliceFailed)
        AliceMessages.new
      = (true, { points_A := aliceFailed.points_A,
                 encrypted_m0_messages := aliceFailed.encrypted_m0_messages,
                 encrypted_m1_messages := aliceFailed.encrypted_m1_messages,
                 masked_share := aliceFailed.masked_share, success := true }) ∧
    (MTAProtocol.deserializeAliceMessages u (MTAProtocol.serializeAliceMessages aliceFailed)
        AliceMessages.new).2.success ≠ aliceFailed.success := by
  have h := deserialize_serialize u aliceFailed AliceMessages.new (length_pointsWith 4)
    (length_chunks _) (length_chunks _)
  have hm : aliceFailed.masked_share % 2 ^ 32 = aliceFailed.masked_share := by
    simp [aliceFailed]
  rw [hm] at h
  rw [h]
  exact ⟨length_pointsWith 4, length_chunks _, length_chunks _, rfl, by simp [aliceFailed]⟩

/-- C12: for every payload `p` with `|p| < 2^32`, the frame written by
`send_message_with_size` is the 4-byte little-endian encoding of `|p|` followed by `p`;
when a session (with a read buffer of at least 4 bytes) reads the first 4 bytes of that
frame as size prefix and the rest as body, it asks for `|p|` body bytes and calls
`process_received_message`, whose message `read_buffer_[0 .. last_message_size_)` is
equal to `p`: in state `WAITING_FOR_CORRELATION_DELTA` the call is
`process_correlation_delta(p)`, in state `WAITING_FOR_ALICE_MESSAGES` it is
`process_alice_messages(p)`. -/
theorem C12_framing_round_trip (c : Curve) (codec : Codec) (fuel : Nat) (u : Undef)
    (s r : Session) (mta : MTAProtocol) (rng : Rng) (p : Bytes) (hp : p.length < 2 ^ 32)
    (hr : 4 ≤ r.read_buffer_.length) :
    (s.send_message_with_size p).2 = le32 p.length ++ p ∧
    (r.on_size_read false ((s.send_message_with_size p).2.take 4)).2 = some p.length ∧
    ((r.on_size_read false ((s.send_message_with_size p).2.take 4)).1.on_body_read p.length
        false ((s.send_message_with_size p).2.drop 4)).2 = true ∧
    (((r.on_size_read false ((s.send_message_with_size p).2.take 4)).1.on_body_read p.length
        false ((s.send_message_with_size p).2.drop 4)).1.read_buffer_.take
      ((r.on_size_read false ((s.send_message_with_size p).2.take 4)).1.on_body_read p.length
        false ((s.send_message_with_size p).2.drop 4)).1.last_message_size_) = p ∧
    (r.state_ = ProtocolState.WAITING_FOR_CORRELATION_DELTA →
      Session.process_received_message c codec fuel u
          ((r.on_size_read false ((s.send_message_with_size p).2.take 4)).1.on_body_read
            p.length false ((s.send_message_with_size p).2.drop 4)).1 mta rng
        = Session.process_correlation_delta c codec fuel
          ((r.on_size_read false ((s.send_message_with_size p).2.take 4)).1.on_body_read
            p.length false ((s.send_message_with_size p).2.drop 4)).1 mta rng p) ∧
    (r.state_ = ProtocolState.WAITING_FOR_ALICE_MESSAGES →
      Session.process_received_message c codec fuel u
          ((r.on_size_read false ((s.send_message_with_size p).2.take 4)).1.on_body_read
            p.length false ((s.send_message_with_size p).2.drop 4)).1 mta rng
        = some (Session.process_alice_messages codec u
          ((r.on_size_read false ((s.send_message_with_size p).2.take 4)).1.on_body_read
            p.length false ((s.send_message_with_size p).2.drop 4)).1 mta rng p)) := by
  have hf := send_message_with_size_frame s p hp
  have htake : (s.send_message_with_size p).2.take 4 = le32 p.length := by
    rw [hf]; simp [le32]
  have hdrop : (s.send_message_with_size p).2.drop 4 = p := by
    rw [hf]; simp [le32]
  have hsz : sizeOf4 (le32 p.length) = p.length := by
    have := sizeOf4_header p.length []
    rw [List.append_nil, Nat.mod_eq_of_lt hp] at this
    exact this
  have h4 : (le32 p.length).length = 4 := by simp [le32]
  have hs := on_size_read_sizeOf4 r (le32 p.length) h4 hr
  rw [hsz] at hs
  rw [htake, hdrop]
  have hb : p.length ≤ (r.on_size_read false (le32 p.length)).1.read_buffer_.length := by
    rw [hs.2.2.1]; omega
  have hm := body_read_message (r.on_size_read false (le32 p.length)).1 p.length p rfl hb
    hs.2.1
  have hst := hm.2.1.trans hs.2.2.2
  refine ⟨hf, hs.1, hm.1, hm.2.2, ?_, ?_⟩
  · intro h
    unfold Session.process_received_message
    rw [hst, h]
    simp only
    rw [hm.2.2]
  · intro h
    unfold Session.process_received_message
    rw [hst, h]
    simp only
    rw [hm.2.2]

/-- Witness for C12: the session of the examples sends the payload `01 02 03`; a fresh
session (waiting for the correlation delta) and a session waiting for Alice's messages
read the frame back and hand `01 02 03` to `process_correlation_delta` and to
`process_alice_messages`. -/
theorem C12_framing_round_trip_witness :
    ([1, 2, 3] : Bytes).length < 2 ^ 32 ∧ 4 ≤ (Session.new 11 0 32).read_buffer_.length ∧
    ((exSession 11 11).send_message_with_size [1, 2, 3]).2 = le32 3 ++ [1, 2, 3] ∧
    ((Session.new 11 0 32).on_size_read false
      (((exSession 11 11).send_message_with_size [1, 2, 3]).2.take 4)).2 = some 3 ∧
    (((Session.new 11 0 32).on_size_read false
        (((exSession 11 11).send_message_with_size [1, 2, 3]).2.take 4)).1.on_body_read 3
      false (((exSession 11 11).send_message_with_size [1, 2, 3]).2.drop 4)).2 = true ∧
    ((((Session.new 11 0 32).on_size_read false
        (((exSession 11 11).send_message_with_size [1, 2, 3]).2.take 4)).1.on_body_read 3
      false (((exSession 11 11).send_message_with_size [1, 2, 3]).2.drop 4)).1.read_buffer_.take
      (((Session.new 11 0 32).on_size_read false
        (((exSession 11 11).send_message_with_size [1, 2, 3]).2.take 4)).1.on_body_read 3
      false (((exSession 11 11).send_message_with_size [1, 2, 3]).2.drop
        4)).1.last_message_size_) = [1, 2, 3] ∧
    Session.process_received_message exCurve exCodec 1 exUndef
        (((Session.new 11 0 32).on_size_read false
          (((exSession 11 11).send_message_with_size [1, 2, 3]).2.take 4)).1.on_body_read 3
        false (((exSession 11 11).send_message_with_size [1, 2, 3]).2.drop 4)).1
        MTAProtocol.new exRng
      = Session.process_correlation_delta exCurve exCodec 1
        (((Session.new 11 0 32).on_size_read false
          (((exSession 11 11).send_message_with_size [1, 2, 3]).2.take 4)).1.on_body_read 3
        false (((exSession 11 11).send_message_with_size [1, 2, 3]).2.drop 4)).1
        MTAProtocol.new exRng [1, 2, 3] ∧
    Session.process_received_message exCurve exCodec 1 exUndef
        (((exSession 11 11).on_size_read false
          (((exSession 11 11).send_message_with_size [1, 2, 3]).2.take 4)).1.on_body_read 3
        false (((exSession 11 11).send_message_with_size [1, 2, 3]).2.drop 4)).1
        MTAProtocol.new exRng
      = some (Session.process_alice_messages exCodec exUndef
        (((exSession 11 11).on_size_read false
          (((exSession 11 11).send_message_with_size [1, 2, 3]).2.take 4)).1.on_body_read 3
        false (((exSession 11 11).send_message_with_size [1, 2, 3]).2.drop 4)).1
        MTAProtocol.new exRng [1, 2, 3]) :=
  have h := C12_framing_round_trip exCurve exCodec 1 exUndef (exSession 11 11)
    (Session.new 11 0 32) MTAProtocol.new exRng [1, 2, 3] (by decide)
    (new_read_buffer_ge 11 0 32)
  have h' := C12_framing_round_trip exCurve exCodec 1 exUndef (exSession 11 11)
    (exSession 11 11) MTAProtocol.new exRng [1, 2, 3] (by decide)
    (new_read_buffer_ge 11 0 32)
  ⟨by decide, new_read_buffer_ge 11 0 32, h.1, h.2.1, h.2.2.1, h.2.2.2.1, h.2.2.2.2.1 rfl,
    h'.2.2.2.2.2 rfl⟩

/-- C13, counterexample: a fresh session (read buffer of 8192 bytes) that receives the
size prefix `FF FF FF FF` does not close: it resizes its read buffer to 4294967295 bytes
and issues a read for a body of 4294967295 bytes. -/
theorem C13_counterexample :
    (Session.new 11 0 32).read_buffer_.length = 8192 ∧
    sizeOf4 hugePrefix = 0xFFFFFFFF ∧
    (Conn.step exCurve exCodec 1 exUndef
        (Conn.start (Session.new 11 0 32) (exMta exEngine 0) exRng)
        (Event.size_read false hugePrefix)).map
      (fun x => (x.1.pending, x.1.session.read_buffer_.length, x.2))
      = some (Pending.read_body 4294967295, 4294967295, []) := by
  have hb : 4 ≤ (Session.new 11 0 32).read_buffer_.length := new_read_buffer_ge 11 0 32
  have hs := on_size_read_sizeOf4 (Session.new 11 0 32) hugePrefix rfl hb
  have hz : sizeOf4 hugePrefix = 4294967295 := by decide
  have hl : (Session.new 11 0 32).read_buffer_.length = 8192 := new_read_buffer_length 11 0 32
  rw [hz, hl] at hs
  refine ⟨hl, hz, ?_⟩
  simp only [Conn.step, Conn.start, Option.map, hs.1, hs.2.2.1]
  rfl

/-- C13, amended: when the 4-byte size prefix of an incoming frame decodes to a value `n`
above the current size of the read buffer (`0xFFFFFFFF` included; the code has no
configured maximum), the session does not close: it resizes its read buffer to `n` bytes
and issues a read for a body of `n` bytes. -/
theorem C13_oversized_prefix (c : Curve) (codec : Codec) (fuel : Nat) (u : Undef) (w : Conn)
    (data : Bytes) (hp : w.pending = Pending.read_size) (hlen : data.length = 4)
    (hbuf : 4 ≤ w.session.read_buffer_.length)
    (hbig : w.session.read_buffer_.length < sizeOf4 data) :
    (Conn.step c codec fuel u w (Event.size_read false data)).map
      (fun x => (x.1.pending, x.1.session.read_buffer_.length,
        x.1.session.last_message_size_, x.2))
      = some (Pending.read_body (sizeOf4 data), sizeOf4 data, sizeOf4 data, []) := by
  have hs := on_size_read_sizeOf4 w.session data hlen hbuf
  simp only [Conn.step, hp, Option.map, hs.1, hs.2.1, hs.2.2.1]
  rw [Nat.max_eq_left (by omega)]

/-- Witness for C13 as amended: a fresh session receiving the prefix `FF FF FF FF`. -/
theorem C13_oversized_prefix_witness :
    (Conn.start (Session.new 11 0 32) (exMta exEngine 0) exRng).pending = Pending.read_size ∧
    hugePrefix.length = 4 ∧
    4 ≤ (Conn.start (Session.new 11 0 32) (exMta exEngine 0) exRng).session.read_buffer_.length ∧
    (Conn.start (Session.new 11 0 32) (exMta exEngine 0) exRng).session.read_buffer_.length
      < sizeOf4 hugePrefix ∧
    (Conn.step exCurve exCodec 1 exUndef
        (Conn.start (Session.new 11 0 32) (exMta exEngine 0) exRng)
        (Event.size_read false hugePrefix)).map
      (fun x => (x.1.pending, x.1.session.read_buffer_.length,
        x.1.session.last_message_size_, x.2))
      = some (Pending.read_body (sizeOf4 hugePrefix), sizeOf4 hugePrefix, sizeOf4 hugePrefix,
          []) :=
  have hb : 4 ≤ (Conn.start (Session.new 11 0 32) (exMta exEngine 0)
      exRng).session.read_buffer_.length := new_read_buffer_ge 11 0 32
  have hbig : (Conn.start (Session.new 11 0 32) (exMta exEngine 0)
      exRng).session.read_buffer_.length < sizeOf4 hugePrefix := by
    have hz : sizeOf4 hugePrefix = 4294967295 := by decide
    rw [hz]
    show (Session.new 11 0 32).read_buffer_.length < 4294967295
    rw [new_read_buffer_length]
    omega
  ⟨rfl, rfl, hb, hbig,
    C13_oversized_prefix exCurve exCodec 1 exUndef _ hugePrefix rfl rfl hb hbig⟩

/-- C18: for every `delta`, `initializeAsBob(delta)` returns (whenever the generator
yields an accepted scalar within `fuel` draws from every position) a `BobSetup` with
`num_ot_instances = 32` and `points_B` of exactly 2080 bytes, and the `ot_messages` list
that `send_bob_setup` hands to the encoder for it has exactly 32 elements of exactly 65
bytes each, element `i` being `points_B[65*i .. 65*i+65)`, whose concatenation equals
`points_B`. -/
theorem C18_bob_setup_points (c : Curve) (fuel : Nat) (mta : MTAProtocol) (rng : Rng)
    (delta : Nat) (hp : rng.productive c fuel) :
    (mta.initializeAsBob c fuel rng delta).isSome = true ∧
    ∀ r, mta.initializeAsBob c fuel rng delta = some r →
      r.1.num_ot_instances = 32 ∧ r.1.points_B.length = 2080 ∧
      ∀ s : Session, s.bob_setup_.points_B = r.1.points_B →
        s.bobSetupRecord.ot_messages
          = (List.range 32).map (fun i => (r.1.points_B.drop (65 * i)).take 65) ∧
        s.bobSetupRecord.ot_messages.length = 32 ∧
        (∀ m, m ∈ s.bobSetupRecord.ot_messages → m.length = 65) ∧
        s.bobSetupRecord.ot_messages.flatten = r.1.points_B := by
  refine ⟨initializeAsBob_isSome c fuel mta rng delta hp, ?_⟩
  intro r hr
  obtain ⟨cr, hcr, rfl⟩ := initializeAsBob_some c fuel mta rng delta r hr
  have hlen := initializeCOT_points_length c fuel _ rng delta cr hcr
  refine ⟨rfl, hlen, ?_⟩
  intro s hs
  simp only at hs
  have hl : s.bob_setup_.points_B.length = 2080 := by rw [hs]; exact hlen
  have hm := bobSetupRecord_ot_messages s hl
  rw [hs] at hm
  rw [hm]
  refine ⟨rfl, by simp, ?_, ?_⟩
  · intro m hmem
    obtain ⟨i, hi, rfl⟩ := List.mem_map.1 hmem
    have hi2 := List.mem_range.1 hi
    rw [List.length_take, List.length_drop, hlen]
    omega
  · have hf := flatten_chunks cr.1.points_B 65 0 32
    simp only [Nat.zero_add, List.drop_zero] at hf
    have hfun : (fun i => (cr.1.points_B.drop (65 * i)).take 65)
        = (fun j => (cr.1.points_B.drop (j * 65)).take 65) := by
      funext i
      rw [Nat.mul_comm]
    rw [hfun, hf]
    show List.take (32 * 65) cr.1.points_B = cr.1.points_B
    rw [show 32 * 65 = cr.1.points_B.length from hlen.symm, List.take_length]

/-- Witness for C18: the generator of the examples (every candidate is accepted, so one
draw per scalar suffices) and the protocol object of the examples. -/
theorem C18_bob_setup_points_witness :
    exRng.productive exCurve 1 ∧
    ((exMta exEngine 0).initializeAsBob exCurve 1 exRng 11).isSome = true :=
  ⟨exRng_productive, (C18_bob_setup_points exCurve 1 (exMta exEngine 0) exRng 11
    exRng_productive).1⟩

/-- C19 (the code departs from the claim): after `initializeCOT` (on an engine whose
scalar store has its 1024 bytes, as the constructor leaves it), for every `i` in `[0,32)`
the 65 bytes `points_B[65*i .. 65*i+65)` are `0x04` followed by the 32-byte big-endian `X`
and the 32-byte big-endian `Y` of `b_i * G`, where `b_i` is the 32-byte scalar stored at
`stored_scalars[32*i .. 32*i+32)`.  But `executeCOTMultiplication` does not use that
scalar for instance `i`: `processSingleCOT` takes its address and never reads it, so with
any other bytes `scalars` in the store, `processSingleCOT` for instance `i` and
`executeCOTMultiplication` return what they return with the scalars of `initializeCOT`. -/
theorem C19_stored_scalar_not_used (c : Curve) (fuel : Nat) (self0 : CorrelatedOTProtocol)
    (rng : Rng) (delta : Nat) (r : COTSetup × CorrelatedOTProtocol × Rng) (i : Nat)
    (scalars : Bytes) (u : Undef) (y : Nat) (points_A E0 E1 : Bytes)
    (hsc : self0.stored_scalars.length = 1024)
    (hinit : self0.initializeCOT c fuel rng delta = some r) (hi : i < 32) :
    (r.1.points_B.drop (65 * i)).take 65
      = [0x04]
        ++ bn_write_be (c.scalar_multiply
            (bn_read_be ((r.2.1.stored_scalars.drop (32 * i)).take 32))).1
        ++ bn_write_be (c.scalar_multiply
            (bn_read_be ((r.2.1.stored_scalars.drop (32 * i)).take 32))).2 ∧
    r.2.1.stored_scalars.length = 1024 ∧
    ({ r.2.1 with stored_scalars := scalars } : CorrelatedOTProtocol).processSingleCOT
        (u.secretOf i) i (CorrelatedOTProtocol.getBit y i) (points_A.drop (i * 65))
        (E0.drop (i * 32)) (E1.drop (i * 32)) 32
      = r.2.1.processSingleCOT (u.secretOf i) i (CorrelatedOTProtocol.getBit y i)
        (points_A.drop (i * 65)) (E0.drop (i * 32)) (E1.drop (i * 32)) 32 ∧
    ({ r.2.1 with stored_scalars := scalars } : CorrelatedOTProtocol).executeCOTMultiplication
        u y points_A E0 E1
      = r.2.1.executeCOTMultiplication u y points_A E0 E1 := by
  have h := initializeCOT_loop_spec c fuel BIT_LENGTH 0
    { self0 with correlation_x := delta, ot_instances := [] } rng
    { points_B := List.replicate (BIT_LENGTH * 65) 0, correlation_x := delta, success := false }
    r (by simp [BIT_LENGTH]) (List.length_replicate _ _) hsc hinit
  have h9 := h.2.2.2.2.2.2.2.2 i (by omega) (by simp [BIT_LENGTH]; omega)
  rw [Nat.mul_comm 65 i, Nat.mul_comm 32 i, h9]
  refine ⟨rfl, h.2.1, rfl, ?_⟩
  unfold CorrelatedOTProtocol.executeCOTMultiplication
    CorrelatedOTProtocol.executeCOTMultiplication_run
  rw [executeCOTMultiplication_loop_congr
    ({ r.2.1 with stored_scalars := scalars } : CorrelatedOTProtocol) r.2.1]

/-- Witness for C19: instance 3 of the engine of the examples, with the scalar store
overwritten by 1024 zero bytes, on the Alice messages of scenario S1 and `y = 11`. -/
theorem C19_stored_scalar_not_used_witness :
    CorrelatedOTProtocol.new.stored_scalars.length = 1024 ∧
    CorrelatedOTProtocol.new.initializeCOT exCurve 1 exRng 11 = some exInit ∧ 3 < 32 ∧
    (exInit.1.points_B.drop (65 * 3)).take 65
      = [0x04]
        ++ bn_write_be (exCurve.scalar_multiply
            (bn_read_be ((exInit.2.1.stored_scalars.drop (32 * 3)).take 32))).1
        ++ bn_write_be (exCurve.scalar_multiply
            (bn_read_be ((exInit.2.1.stored_scalars.drop (32 * 3)).take 32))).2 ∧
    ({ exInit.2.1 with stored_scalars := List.replicate 1024 0 } :
        CorrelatedOTProtocol).executeCOTMultiplication exUndef 11 (pointsWith 4) s1_E0 s1_E1
      = exInit.2.1.executeCOTMultiplication exUndef 11 (pointsWith 4) s1_E0 s1_E1 :=
  have h := C19_stored_scalar_not_used exCurve 1 CorrelatedOTProtocol.new exRng 11 exInit 3
    (List.replicate 1024 0) exUndef 11 (pointsWith 4) s1_E0 s1_E1
    length_new_stored_scalars exInit_eq (by decide)
  ⟨length_new_stored_scalars, exInit_eq, by decide, h.1, h.2.2.2⟩

/-- C20: for every successfully decoded `CorrelationDelta`, `process_correlation_delta`
returns (whenever the generator yields an accepted scalar within `fuel` draws from every
position) with the session holding a `BobSetup` whose `public_key` has exactly 65 bytes
with `public_key[i] = i`; the record handed to the encoder carries the same 65 bytes, and
the frame written, if any, is the encoding of that record. -/
theorem C20_placeholder_public_key (c : Curve) (codec : Codec) (fuel : Nat) (s : Session)
    (mta : MTAProtocol) (rng : Rng) (data : Bytes) (delta : Nat)
    (hdec : codec.decodeCorrelationDelta data = some delta) (hp : rng.productive c fuel) :
    (Session.process_correlation_delta c codec fuel s mta rng data).isSome = true ∧
    ∀ o, Session.process_correlation_delta c codec fuel s mta rng data = some o →
      o.session.bob_setup_.public_key.length = 65 ∧
      (∀ i, i < 65 → o.session.bob_setup_.public_key.getD i 0 = i) ∧
      o.session.bobSetupRecord.public_key = o.session.bob_setup_.public_key ∧
      o.written
        = (if (MTAProtobufHandler.serializeBobSetup codec o.session.bobSetupRecord).isEmpty
            then none
          else some (s.send_message_with_size
            (MTAProtobufHandler.serializeBobSetup codec o.session.bobSetupRecord)).2) := by
  refine ⟨process_correlation_delta_isSome c codec fuel s mta rng data hp, ?_⟩
  intro o ho
  obtain ⟨cr, _, _, _, hb, _, _, _, _, _, hw⟩ :=
    process_correlation_delta_some c codec fuel s mta rng data delta hdec o ho
  refine ⟨?_, ?_, ?_, hw⟩
  · rw [hb]; rfl
  · rw [hb]
    show ∀ i, i < 65 → (List.range 65).getD i 0 = i
    decide
  · simp only [Session.bobSetupRecord, hb]
    exact range65_record

/-- Witness for C20: a fresh session of the examples receives the one-byte frame `0B`,
which the codec of the examples decodes to `delta = 11`. -/
theorem C20_placeholder_public_key_witness :
    exCodec.decodeCorrelationDelta [11] = some 11 ∧ exRng.productive exCurve 1 ∧
    (Session.process_correlation_delta exCurve exCodec 1 (Session.new 11 0 32)
      (exMta exEngine 0) exRng [11]).isSome = true :=
  ⟨rfl, exRng_productive,
    (C20_placeholder_public_key exCurve exCodec 1 (Session.new 11 0 32) (exMta exEngine 0) exRng
      [11] 11 rfl exRng_productive).1⟩

/-- C16: in every run of a session from `start` over a sequence of completions, the
milestones passed form a prefix of `delta_decoded, bob_setup_sent, bob_setup_written,
alice_processing, alice_accepted, bob_messages_sent, protocol_complete`.  Hence a
BobSetup frame is sent only after a CorrelationDelta has been decoded, an AliceMessages
frame is processed only after the BobSetup write has completed, a BobMessages frame is
sent only after an AliceMessages frame has been accepted, and each of BobSetup and
BobMessages is sent at most once. -/
theorem C16_frame_order (c : Curve) (codec : Codec) (fuel : Nat) (u : Undef)
    (y l n : Nat) (mta : MTAProtocol) (rng : Rng) (evs : List Event) (w : Conn)
    (tr : List Action)
    (hrun : Conn.run c codec fuel u (Conn.start (Session.new y l n) mta rng) evs
      = some (w, tr)) :
    tr <+: Action.canonical ∧
    Action.Before Action.delta_decoded Action.bob_setup_sent tr ∧
    Action.Before Action.bob_setup_written Action.alice_processing tr ∧
    Action.Before Action.alice_accepted Action.bob_messages_sent tr ∧
    tr.count Action.bob_setup_sent ≤ 1 ∧ tr.count Action.bob_messages_sent ≤ 1 := by
  have h0 : (Conn.start (Session.new y l n) mta rng).Phase [] :=
    (phase_read _ _ (Or.inl rfl)).2 (Or.inl ⟨rfl, rfl⟩)
  have hp := phase_prefix w _ (run_phase c codec fuel u evs _ [] w tr h0 hrun)
  rw [List.nil_append] at hp
  obtain ⟨h1, _, h3, h4, h5, h6⟩ := prefix_facts tr ((List.mem_inits _ _).2 hp)
  exact ⟨hp, h1, h3, h4, h5, h6⟩

/-- Witness for C16: the session of the examples receives the frame `01 00 00 00 0B`,
decodes `delta = 11` and sends its BobSetup frame. -/
theorem C16_frame_order_witness :
    Conn.run exCurve exCodec 1 exUndef (Conn.start (Session.new 11 0 32) (exMta exEngine 0) exRng)
      exEvents = some (exFinal.1, exFinal.2) ∧
    exFinal.2 = [Action.delta_decoded, Action.bob_setup_sent] ∧
    exFinal.2 <+: Action.canonical ∧
    Action.Before Action.delta_decoded Action.bob_setup_sent exFinal.2 ∧
    exFinal.2.count Action.bob_setup_sent ≤ 1 :=
  have h := C16_frame_order exCurve exCodec 1 exUndef 11 0 32 (exMta exEngine 0) exRng exEvents
    exFinal.1 exFinal.2 exFinal_run
  ⟨exFinal_run, exFinal_eq.2, h.1, h.2.1, h.2.2.2.2.1⟩

/-- C17: when the body of a frame has been read and its processing fails (the
CorrelationDelta does not decode, `initializeAsBob` reports failure, the AliceMessages do
not deserialize, `executeBobMTA` fails, or the session is in a state other than
`WAITING_FOR_CORRELATION_DELTA` and `WAITING_FOR_ALICE_MESSAGES`), the step sends no frame
and leaves no operation outstanding: no read and no write is issued, and no later
completion runs a handler of the session, so nothing is sent in any later step. -/
theorem C17_terminal_on_error (c : Curve) (codec : Codec) (fuel : Nat) (u : Undef) (w : Conn)
    (n : Nat) (ec : Bool) (data : Bytes) (w1 : Conn) (a : List Action)
    (hp : w.pending = Pending.read_body n)
    (hs : Conn.step c codec fuel u w (Event.body_read ec data) = some (w1, a))
    (hf : ((w.session.on_body_read n ec data).1.state_
              = ProtocolState.WAITING_FOR_CORRELATION_DELTA ∧
            codec.decodeCorrelationDelta
              ((w.session.on_body_read n ec data).1.read_buffer_.take
                (w.session.on_body_read n ec data).1.last_message_size_) = none) ∨
          ((w.session.on_body_read n ec data).1.state_
              = ProtocolState.WAITING_FOR_CORRELATION_DELTA ∧
            ∃ delta r,
              codec.decodeCorrelationDelta
                ((w.session.on_body_read n ec data).1.read_buffer_.take
                  (w.session.on_body_read n ec data).1.last_message_size_) = some delta ∧
              w.mta.initializeAsBob c fuel w.rng (delta % 2 ^ 32) = some r ∧
              r.1.success = false) ∨
          ((w.session.on_body_read n ec data).1.state_
              = ProtocolState.WAITING_FOR_ALICE_MESSAGES ∧
            (MTAProtocol.deserializeAliceMessages u
              ((w.session.on_body_read n ec data).1.read_buffer_.take
                (w.session.on_body_read n ec data).1.last_message_size_)
              AliceMessages.new).1 = false) ∨
          ((w.session.on_body_read n ec data).1.state_
              = ProtocolState.WAITING_FOR_ALICE_MESSAGES ∧
            ((w.mta.prepareBobMessages w.rng
                (w.session.on_body_read n ec data).1.bob_y_share_).2.1.executeBobMTA u
              (w.session.on_body_read n ec data).1.bob_y_share_
              (MTAProtocol.deserializeAliceMessages u
                ((w.session.on_body_read n ec data).1.read_buffer_.take
                  (w.session.on_body_read n ec data).1.last_message_size_)
                AliceMessages.new).2).success = false) ∨
          ((w.session.on_body_read n ec data).1.state_
              ≠ ProtocolState.WAITING_FOR_CORRELATION_DELTA ∧
            (w.session.on_body_read n ec data).1.state_
              ≠ ProtocolState.WAITING_FOR_ALICE_MESSAGES)) :
    w1.pending = Pending.idle ∧
    Action.bob_setup_sent ∉ a ∧ Action.bob_messages_sent ∉ a ∧
    (∀ e, Conn.step c codec fuel u w1 e = none) ∧
    (∀ e es, Conn.run c codec fuel u w1 (e :: es) = none) := by
  rw [step_body_read_eq c codec fuel u w n ec data hp] at hs
  have key : w1.pending = Pending.idle ∧
      Action.bob_setup_sent ∉ a ∧ Action.bob_messages_sent ∉ a := by
    by_cases hr : (w.session.on_body_read n ec data).2 = true
    · rw [if_pos hr] at hs
      cases ho : Session.process_received_message c codec fuel u
          (w.session.on_body_read n ec data).1 w.mta w.rng with
      | none => rw [ho] at hs; simp at hs
      | some o =>
        have hw := failed_written_none c codec fuel u _ w.mta w.rng o ho hf
        rw [ho] at hs
        simp only [Option.some.injEq, Prod.mk.injEq] at hs
        obtain ⟨rfl, rfl⟩ := hs
        have hm := milestones_no_send codec (w.session.on_body_read n ec data).1 o hw
        refine ⟨?_, hm.1, hm.2⟩
        simp only [hw, Option.isSome_none, Bool.false_eq_true, if_false]
    · rw [if_neg hr] at hs
      simp only [Option.some.injEq, Prod.mk.injEq] at hs
      obtain ⟨rfl, rfl⟩ := hs
      exact ⟨rfl, by simp, by simp⟩
  exact ⟨key.1, key.2.1, key.2.2, fun e => step_idle c codec fuel u w1 key.1 e,
    fun e es => run_idle c codec fuel u w1 key.1 e es⟩

/-- Witness for C17: the session of the examples, waiting for AliceMessages, receives the
one-byte body `07`, which does not deserialize. -/
theorem C17_terminal_on_error_witness :
    exConnAlice.pending = Pending.read_body 1 ∧
    Conn.step exCurve exCodec 1 exUndef exConnAlice (Event.body_read false [7])
      = some (exFailed.1, exFailed.2) ∧
    exFailed.2 = [Action.alice_processing] ∧
    exFailed.1.pending = Pending.idle ∧
    (∀ e, Conn.step exCurve exCodec 1 exUndef exFailed.1 e = none) :=
  have h := C17_terminal_on_error exCurve exCodec 1 exUndef exConnAlice 1 false [7]
    exFailed.1 exFailed.2 rfl exFailed_step (Or.inr (Or.inr (Or.inl exAlice_fails)))
  ⟨rfl, exFailed_step, exFailed_eq.2.2, h.1, h.2.2.2.1⟩

/-- C21: two runs of a session from `start` on the same protocol object, with the same
`y`, the same generator, the same unwritten storage and the same completions, except that
the first frame (size prefix and body, which carries the correlation delta) differs, end
with the same additive share `bob_additive_share_` (`alpha_B`), the same `masked_share`
(`y * beta`) and the same `beta`. -/
theorem C21_delta_does_not_influence (c : Curve) (codec : Codec) (fuel : Nat) (u : Undef)
    (y l n : Nat) (mta : MTAProtocol) (rng : Rng) (ea eb : Bool) (hdr1 d1 hdr2 d2 : Bytes)
    (evs : List Event) (w1 w2 : Conn) (tr1 tr2 : List Action)
    (h1 : Conn.run c codec fuel u (Conn.start (Session.new y l n) mta rng)
      (Event.size_read ea hdr1 :: Event.body_read eb d1 :: evs) = some (w1, tr1))
    (h2 : Conn.run c codec fuel u (Conn.start (Session.new y l n) mta rng)
      (Event.size_read ea hdr2 :: Event.body_read eb d2 :: evs) = some (w2, tr2)) :
    w1.session.bob_additive_share_ = w2.session.bob_additive_share_ ∧
    w1.session.bob_messages_.masked_share = w2.session.bob_messages_.masked_share ∧
    w1.mta.beta = w2.mta.beta := by
  obtain ⟨xa, _, _, hsa, hra, _⟩ := run_cons_inv c codec fuel u _ w1 _ _ tr1 h1
  obtain ⟨xb, _, _, hsb, hrb, _⟩ := run_cons_inv c codec fuel u _ w1 _ _ _ hra
  obtain ⟨ya, _, _, hta, hqa, _⟩ := run_cons_inv c codec fuel u _ w2 _ _ tr2 h2
  obtain ⟨yb, _, _, htb, hqb, _⟩ := run_cons_inv c codec fuel u _ w2 _ _ _ hqa
  have h40 : 4 ≤ (Conn.start (Session.new y l n) mta rng).session.read_buffer_.length :=
    new_read_buffer_ge y l n
  obtain ⟨p1, p2, p3, p4, p5, p6⟩ := delta_phase c codec fuel u _ xa xb ea eb hdr1 d1 _ _
    rfl rfl h40 hsa hsb
  obtain ⟨q1, q2, q3, q4, q5, q6⟩ := delta_phase c codec fuel u _ ya yb ea eb hdr2 d2 _ _
    rfl rfl h40 hta htb
  cases evs with
  | nil =>
    simp only [Conn.run, Option.some.injEq, Prod.mk.injEq] at hrb hqb
    obtain ⟨rfl, _⟩ := hrb
    obtain ⟨rfl, _⟩ := hqb
    exact ⟨p1.trans q1.symm, by rw [p2, q2], p4.trans q4.symm⟩
  | cons e es =>
    rcases p6 with p6 | ⟨pw, pst, dA, crA, hcA, hrA, hmA⟩
    · rw [run_idle c codec fuel u xb p6 e es] at hrb
      exact Option.noConfusion hrb
    rcases q6 with q6 | ⟨qw, qst, dB, crB, hcB, hrB, hmB⟩
    · rw [run_idle c codec fuel u yb q6 e es] at hqb
      exact Option.noConfusion hqb
    have hdel := initializeCOT_delta c fuel _ _ dA dB crA crB hcA hcB
    have hal : xb.Alike yb := by
      refine ⟨pw.trans qw.symm, ?_, p4.trans q4.symm, ?_, pst.trans qst.symm, ?_,
        p3.trans q3.symm, p1.trans q1.symm, p2.trans q2.symm, p5, q5, ?_⟩
      · rw [hrA, hrB, hdel.2.2.2]
      · rw [hmA, hmB, hdel.2.1]
      · rw [pst]
        exact ProtocolState.noConfusion
      · intro m hm
        rw [pw] at hm
        exact Pending.noConfusion hm
    have hfin := run_alike c codec fuel u (e :: es) xb yb w1 w2 _ _ hal hrb hqb
    obtain ⟨_, _, r3, _, _, _, _, r8, r9, _⟩ := hfin
    exact ⟨r8, by rw [r9], r3⟩

/-- Witness for C21: two whole exchanges of the session of the examples (`y = 11`, the
generator drawing `beta = 5`, the Alice messages of scenario S1), one receiving
`delta = 11` and the other `delta = 12`. -/
theorem C21_delta_does_not_influence_witness :
    Conn.run exCurve exCodec 1 exUndef
        (Conn.start (Session.new 11 0 32) (exMta exEngine 0) (rngWith 5))
        (Event.size_read false [1, 0, 0, 0] :: Event.body_read false [11] :: exTail)
      = some ((exFull 11).1, (exFull 11).2) ∧
    Conn.run exCurve exCodec 1 exUndef
        (Conn.start (Session.new 11 0 32) (exMta exEngine 0) (rngWith 5))
        (Event.size_read false [1, 0, 0, 0] :: Event.body_read false [12] :: exTail)
      = some ((exFull 12).1, (exFull 12).2) ∧
    (exFull 11).1.session.state_ = ProtocolState.PROTOCOL_COMPLETE ∧
    (exFull 11).1.session.bob_additive_share_ = 2779096541 ∧
    (exFull 11).1.session.bob_messages_.masked_share = 55 ∧
    (exFull 11).1.session.bob_additive_share_ = (exFull 12).1.session.bob_additive_share_ ∧
    (exFull 11).1.session.bob_messages_.masked_share
      = (exFull 12).1.session.bob_messages_.masked_share :=
  have h := C21_delta_does_not_influence exCurve exCodec 1 exUndef 11 0 32 (exMta exEngine 0)
    (rngWith 5) false false [1, 0, 0, 0] [11] [1, 0, 0, 0] [12] exTail (exFull 11).1
    (exFull 12).1 (exFull 11).2 (exFull 12).2 (exFull_run 11).1 (exFull_run 12).1
  ⟨(exFull_run 11).1, (exFull_run 12).1, (exFull_run 11).2.2.1, (exFull_run 11).2.2.2.2.2.2,
    (exFull_run 11).2.2.2.2.2.1, h.1, h.2.1⟩

/-- C25: whenever `MTAProtocol::deserializeAliceMessages` returns `true` (which it does
exactly for buffers of at least 5 bytes), the resulting `AliceMessages` has
`success = true` whatever the first byte of the buffer is; in a session whose engine has
its 32 instances, `executeBobMTA` then passes its `success` guard, calls
`executeCOTMultiplication` once and succeeds, and the session goes on to
`SENDING_BOB_MESSAGES`. -/
theorem C25_success_byte_ignored (codec : Codec) (u : Undef) (s : Session) (mta : MTAProtocol)
    (rng : Rng) (data : Bytes)
    (hret : (MTAProtocol.deserializeAliceMessages u data AliceMessages.new).1 = true)
    (hn : mta.cot_protocol.ot_instances.length = 32) :
    (MTAProtocol.deserializeAliceMessages u data AliceMessages.new).2.success = true ∧
    ((mta.prepareBobMessages rng s.bob_y_share_).2.1.executeBobMTA_run u s.bob_y_share_
      (MTAProtocol.deserializeAliceMessages u data AliceMessages.new).2).2 = 1 ∧
    ((mta.prepareBobMessages rng s.bob_y_share_).2.1.executeBobMTA u s.bob_y_share_
      (MTAProtocol.deserializeAliceMessages u data AliceMessages.new).2).success = true ∧
    (Session.process_alice_messages codec u s mta rng data).session.state_
      = ProtocolState.SENDING_BOB_MESSAGES := by
  have hd : 5 ≤ data.length := (deserialize_true_iff u data AliceMessages.new).1 hret
  have hl := deserialize_lengths u data AliceMessages.new hd
  refine ⟨hl.1, executeBobMTA_run_calls _ u _ _ hl.1, ?_,
    (process_alice_messages_accepts codec u s mta rng data hd hn).1⟩
  rw [prepareBobMessages_eq]
  show (({ mta with beta := (random32 rng).1 } : MTAProtocol).executeBobMTA u s.bob_y_share_
    (MTAProtocol.deserializeAliceMessages u data AliceMessages.new).2).success = true
  rw [executeBobMTA_eq ({ mta with beta := (random32 rng).1 } : MTAProtocol) u s.bob_y_share_
    _ hl.1 hn hl.2.1 hl.2.2.1 hl.2.2.2]

/-- Witness for C25: the five-byte frame `00 01 00 00 00`, whose success byte is 0,
received by the session of the examples. -/
theorem C25_success_byte_ignored_witness :
    ([0, 1, 0, 0, 0] : Bytes).getD 0 0 = 0 ∧
    (MTAProtocol.deserializeAliceMessages exUndef [0, 1, 0, 0, 0] AliceMessages.new).1 = true ∧
    (exMta exEngine 0).cot_protocol.ot_instances.length = 32 ∧
    (MTAProtocol.deserializeAliceMessages exUndef [0, 1, 0, 0, 0] AliceMessages.new).2.success
      = true ∧
    (Session.process_alice_messages exCodec exUndef (exSession 11 11) (exMta exEngine 0)
      (rngWith 5) [0, 1, 0, 0, 0]).session.state_ = ProtocolState.SENDING_BOB_MESSAGES :=
  have hret : (MTAProtocol.deserializeAliceMessages exUndef [0, 1, 0, 0, 0]
      AliceMessages.new).1 = true :=
    (deserialize_true_iff exUndef [0, 1, 0, 0, 0] AliceMessages.new).2 (by decide)
  have h := C25_success_byte_ignored exCodec exUndef (exSession 11 11) (exMta exEngine 0)
    (rngWith 5) [0, 1, 0, 0, 0] hret exEngine_instances
  ⟨rfl, hret, exEngine_instances, h.1, h.2.2.2⟩

/-- C26: the value `V` returned by `executeCOTMultiplication` depends on the value
recovered for instance `i` only through its low `32 - i` bits: for every `i` in `[0,32)`
and any two inputs whose recovered values agree for every other instance and are congruent
modulo `2^(32-i)` for instance `i`, the call returns the same result (for `i = 31`, values
that agree in their lowest bit). -/
theorem C26_low_bits_only (self : CorrelatedOTProtocol) (u u' : Undef) (y : Nat)
    (A E0 E1 A' E0' E1' : Bytes) (i : Nat)
    (hn : self.ot_instances.length = 32)
    (hA : A.length = 2080) (h0 : E0.length = 1024) (h1 : E1.length = 1024)
    (hA' : A'.length = 2080) (h0' : E0'.length = 1024) (h1' : E1'.length = 1024)
    (hi : i < 32)
    (hothers : ∀ j, j < 32 → j ≠ i →
      decryptsTo u (if CorrelatedOTProtocol.getBit y j then E1 else E0) j
        = decryptsTo u' (if CorrelatedOTProtocol.getBit y j then E1' else E0') j)
    (hlow : decryptsTo u (if CorrelatedOTProtocol.getBit y i then E1 else E0) i % 2 ^ (32 - i)
      = decryptsTo u' (if CorrelatedOTProtocol.getBit y i then E1' else E0') i % 2 ^ (32 - i)) :
    (∀ j, j < 32 →
      self.processSingleCOT (u.secretOf j) j (CorrelatedOTProtocol.getBit y j) (A.drop (j * 65))
          (E0.drop (j * 32)) (E1.drop (j * 32)) 32
        = some (decryptsTo u (if CorrelatedOTProtocol.getBit y j then E1 else E0) j)) ∧
    self.executeCOTMultiplication u y A E0 E1 = self.executeCOTMultiplication u' y A' E0' E1' ∧
    (self.executeCOTMultiplication u y A E0 E1).success = true := by
  refine ⟨fun j hj => processSingleCOT_eq self u j _ _ E0 E1 hj, ?_, ?_⟩
  · unfold CorrelatedOTProtocol.executeCOTMultiplication
    rw [executeCOTMultiplication_run_eq self u y A E0 E1 hn hA h0 h1,
      executeCOTMultiplication_run_eq self u' y A' E0' E1' hn hA' h0' h1']
    simp only
    rw [spec_V_low_bits _ _ i hi hothers hlow]
  · unfold CorrelatedOTProtocol.executeCOTMultiplication
    rw [executeCOTMultiplication_run_eq self u y A E0 E1 hn hA h0 h1]

/-- Witness for C26: with `y = 0` every instance takes its value from `E0`; changing the
value of instance 31 from 32 to 34 (same lowest bit) leaves the result unchanged. -/
theorem C26_low_bits_only_witness :
    decryptsTo exUndef s1_E0 31 = 32 ∧ decryptsTo exUndef s1_E0_alt 31 = 34 ∧
    exEngine.executeCOTMultiplication exUndef 0 (pointsWith 4) s1_E0 s1_E1
      = exEngine.executeCOTMultiplication exUndef 0 (pointsWith 4) s1_E0_alt s1_E1 :=
  have ha : ∀ j, j < 32 → decryptsTo exUndef s1_E0 j = (j + 1) % 2 ^ 32 :=
    fun j hj => decryptsTo_chunks _ j hj
  have hb : ∀ j, j < 32 → decryptsTo exUndef s1_E0_alt j
      = (if j = 31 then 34 else j + 1) % 2 ^ 32 :=
    fun j hj => decryptsTo_chunks _ j hj
  have h := C26_low_bits_only exEngine exUndef exUndef 0 (pointsWith 4) s1_E0 s1_E1
    (pointsWith 4) s1_E0_alt s1_E1 31 exEngine_instances (length_pointsWith 4)
    (length_chunks _) (length_chunks _) (length_pointsWith 4) (length_chunks _)
    (length_chunks _) (by decide)
    (by
      intro j hj hne
      rw [getBit_zero]
      simp only [Bool.false_eq_true, if_false]
      rw [ha j hj, hb j hj, if_neg hne])
    (by
      rw [getBit_zero]
      simp only [Bool.false_eq_true, if_false]
      rw [ha 31 (by decide), hb 31 (by decide)]
      decide)
  ⟨(ha 31 (by decide)).trans (by decide), (hb 31 (by decide)).trans (by decide), h.2.1⟩

/-- C27: for every byte vector `flat` and every `chunk_size > 0`, the loop of
`splitIntoByteVectors` ends after `ceil(|flat| / chunk_size)` iterations (any larger
bound on the iterations gives the same result) and returns that many chunks, chunk `j`
being `flat[j*chunk_size ..)` cut to `chunk_size` bytes; their concatenation in order is
`flat`, every chunk but the last has exactly `chunk_size` bytes and every chunk, the last
included, is non-empty; an empty `flat` gives the empty list.  For `chunk_size = 0` and a
non-empty `flat` the loop is still running after any number of iterations. -/
theorem C27_splitIntoByteVectors (flat : Bytes) (chunk_size : Nat) :
    (0 < chunk_size →
      (∀ fuel, (flat.length + chunk_size - 1) / chunk_size ≤ fuel →
        MTAProtocol.splitIntoByteVectors fuel flat chunk_size
          = some ((List.range ((flat.length + chunk_size - 1) / chunk_size)).map
              (fun j => (flat.drop (j * chunk_size)).take chunk_size))) ∧
      ((List.range ((flat.length + chunk_size - 1) / chunk_size)).map
          (fun j => (flat.drop (j * chunk_size)).take chunk_size)).length
        = (flat.length + chunk_size - 1) / chunk_size ∧
      ((List.range ((flat.length + chunk_size - 1) / chunk_size)).map
          (fun j => (flat.drop (j * chunk_size)).take chunk_size)).flatten = flat ∧
      (∀ j, j + 1 < (flat.length + chunk_size - 1) / chunk_size →
        ((flat.drop (j * chunk_size)).take chunk_size).length = chunk_size) ∧
      (∀ j, j < (flat.length + chunk_size - 1) / chunk_size →
        0 < ((flat.drop (j * chunk_size)).take chunk_size).length) ∧
      (flat = [] → MTAProtocol.splitIntoByteVectors 0 flat chunk_size = some [])) ∧
    (chunk_size = 0 → flat ≠ [] →
      ∀ fuel, MTAProtocol.splitIntoByteVectors fuel flat chunk_size = none) := by
  constructor
  · intro hk
    obtain ⟨hc1, hc2⟩ := ceil_div_facts flat.length chunk_size hk
    refine ⟨?_, ?_, ?_, ?_, ?_, ?_⟩
    · intro fuel hfuel
      rw [MTAProtocol.splitIntoByteVectors,
        splitIntoByteVectors_loop_general flat chunk_size fuel _ 0 [] (by omega)
          (fun j hj => by have := hc2 j hj; omega) hfuel]
      simp
    · simp
    · have hf := flatten_chunks flat chunk_size 0 ((flat.length + chunk_size - 1) / chunk_size)
      simp only [Nat.zero_add, List.drop_zero] at hf
      rw [hf, List.take_of_length_le hc1]
    · intro j hj
      have h4 : (j + 1 + 1) * chunk_size ≤ (flat.length + chunk_size - 1) / chunk_size * chunk_size :=
        Nat.mul_le_mul_right chunk_size hj
      have h5 := hc2 (j + 1) hj
      rw [Nat.succ_mul] at h5
      rw [List.length_take, List.length_drop]
      omega
    · intro j hj
      have h5 := hc2 j hj
      rw [List.length_take, List.length_drop]
      omega
    · intro he
      subst he
      rfl
  · intro hk hne fuel
    subst hk
    exact splitIntoByteVectors_loop_zero flat hne fuel []

/-- Witness for C27: five bytes split by 2 give `[1,2]`, `[3,4]`, `[5]`; split by 0
never ends. -/
theorem C27_splitIntoByteVectors_witness :
    MTAProtocol.splitIntoByteVectors 3 [1, 2, 3, 4, 5] 2 = some [[1, 2], [3, 4], [5]] ∧
    (∀ fuel, MTAProtocol.splitIntoByteVectors fuel [1, 2, 3, 4, 5] 0 = none) :=
  ⟨((C27_splitIntoByteVectors [1, 2, 3, 4, 5] 2).1 (by decide)).1 3 (by decide),
    (C27_splitIntoByteVectors [1, 2, 3, 4, 5] 0).2 rfl (by decide)⟩

/-- C28: in every state that a session reaches from `start`, `read_buffer_` holds at
least 8192 bytes; no handler shrinks it; and whenever the body of a frame has been read,
the session on which `process_received_message` runs has
`last_message_size_ <= read_buffer_.size()`, so the slice
`read_buffer_[0 .. last_message_size_)` handed to the message processors lies within the
buffer and has exactly `last_message_size_` bytes. -/
theorem C28_read_buffer_invariant (c : Curve) (codec : Codec) (fuel : Nat) (u : Undef)
    (y l n : Nat) (mta : MTAProtocol) (rng : Rng) (evs : List Event) (w : Conn)
    (tr : List Action)
    (hrun : Conn.run c codec fuel u (Conn.start (Session.new y l n) mta rng) evs
      = some (w, tr)) :
    8192 ≤ w.session.read_buffer_.length ∧
    (∀ e w1 a, Conn.step c codec fuel u w e = some (w1, a) →
      w.session.read_buffer_.length ≤ w1.session.read_buffer_.length) ∧
    (∀ m ec data, w.pending = Pending.read_body m →
      (w.session.on_body_read m ec data).1.last_message_size_
        ≤ (w.session.on_body_read m ec data).1.read_buffer_.length ∧
      ((w.session.on_body_read m ec data).1.read_buffer_.take
        (w.session.on_body_read m ec data).1.last_message_size_).length
        = (w.session.on_body_read m ec data).1.last_message_size_) := by
  have h0 : (Conn.start (Session.new y l n) mta rng).Buffered := by
    refine ⟨?_, ?_⟩
    · show 8192 ≤ (Session.new y l n).read_buffer_.length
      rw [new_read_buffer_length]
    · intro m hm
      exact Pending.noConfusion hm
  have hb := run_invariant c codec fuel u Conn.Buffered
    (fun w e w1 a => step_buffered c codec fuel u w e w1 a) evs _ w tr h0 hrun
  refine ⟨hb.1, fun e w1 a hs => (step_buffer_mono c codec fuel u w e w1 a hs).1, ?_⟩
  intro m ec data hp
  have hm := hb.2 m hp
  have hf := on_body_read_frame w.session m ec data
  have hlast : (w.session.on_body_read m ec data).1.last_message_size_
      = w.session.last_message_size_ :=
    (congrArg Session.last_message_size_ hf.1).symm ▸ rfl
  have hle : (w.session.on_body_read m ec data).1.last_message_size_
      ≤ (w.session.on_body_read m ec data).1.read_buffer_.length := by
    rw [hf.2.1]
    have : (w.session.on_body_read m ec data).1.last_message_size_ = m := hm.1
    omega
  exact ⟨hle, by rw [List.length_take]; omega⟩

/-- Witness for C28: the connection of the examples after the frame `01 00 00 00 0B`. -/
theorem C28_read_buffer_invariant_witness :
    Conn.run exCurve exCodec 1 exUndef
      (Conn.start (Session.new 11 0 32) (exMta exEngine 0) exRng) exEvents
      = some (exFinal.1, exFinal.2) ∧
    8192 ≤ exFinal.1.session.read_buffer_.length :=
  ⟨exFinal_run,
    (C28_read_buffer_invariant exCurve exCodec 1 exUndef 11 0 32 (exMta exEngine 0) exRng
      exEvents exFinal.1 exFinal.2 exFinal_run).1⟩

end MTA
